import Mathlib

/-!
# jobseeker: external-ID derivation, job-type classification and site extractors

A shallow embedding of the pure parts of `internal/scraper/scraper.go` and
`internal/database/helpers.go`, of the persistence gate `SaveJobs`, of the scan
loop of `cmd/jobseeker/scan.go`, and of `MergeSearchURLs`, `GenerateSearchURLs`
(`internal/resume/keywords.go`), `GetTopRepos` (`pkg/github/github.go`) and
`extractFileIDFromResponse` (`internal/cvtailor/tailor.go`).

Go strings are modelled as lists of Unicode scalar values (`Str`), i.e. as
well-formed UTF-8 text.  All needles the program searches for are ASCII, so a
byte offset returned by `strings.Index` always falls on a character boundary
and searching, slicing and splitting can be carried out on characters.
-/

namespace Jobseeker

/-- A Go string, seen as the sequence of its characters. -/
abbrev Str := List Char

/-! ## The parts of package `strings` used by the program -/

/-- Position of the first occurrence of `substr` in `s`, if any. -/
def indexOf (substr : Str) : Str → Option Nat
  | [] => if substr.isPrefixOf [] then some 0 else none
  | c :: cs =>
    if substr.isPrefixOf (c :: cs) then some 0
    else (indexOf substr cs).map (· + 1)

/-- Go `strings.Index`: the index of the first instance of `substr` in `s`, or
`-1` if `substr` is not present. -/
def Index (s substr : Str) : Int :=
  match indexOf substr s with
  | some i => (i : Int)
  | none => -1

/-- Go `strings.Contains`, which is `Index(s, substr) >= 0`. -/
def Contains (s substr : Str) : Bool :=
  decide (Index s substr ≥ 0)

/-- Go `strings.HasSuffix`. -/
def HasSuffix (s suffix : Str) : Bool :=
  suffix.isSuffixOf s

/-- The loop of Go `strings.genSplit` for a non-empty separator: cut at the
first separator, keep the piece before it and go on with the rest; the last
piece is what remains when no separator is left.  `fuel` bounds the number of
cuts. -/
def splitLoop (sep : Str) : Nat → Str → List Str
  | 0, s => [s]
  | fuel + 1, s =>
    match indexOf sep s with
    | none => [s]
    | some m => s.take m :: splitLoop sep fuel (s.drop (m + sep.length))

/-- Go `strings.Split`.  With an empty separator the string is exploded into
its characters; otherwise it is cut at every (non-overlapping) separator.
A string of length `n` holds at most `n` non-overlapping separators. -/
def Split (s sep : Str) : List Str :=
  if sep = [] then s.map (fun c => [c])
  else splitLoop sep s.length s

/-! ## `extractJobID` (internal/scraper/scraper.go) -/

/-- The loop `for i, part := range parts { if part == key && i+1 < len(parts)
{ return f(parts[i+1]) } }`, started at index `i` with `rest` the parts from
`i` on.  `none` means the loop ran to its end without returning. -/
def rangeLoop (parts : List Str) (key : Str) (f : Str → Str) : Nat → List Str → Option Str
  | _, [] => none
  | i, part :: rest =>
    if part = key ∧ i + 1 < parts.length then some (f (parts.getD (i + 1) []))
    else rangeLoop parts key f (i + 1) rest

/-- The function `extractJobID` derives the external ID from a job board URL. -/
def extractJobID (url : Str) : Str :=
  let parts := Split url "/".toList
  -- Indeed pattern: /viewjob?jk={id} or /rc/clk?jk={id}
  if Contains url "indeed.com".toList then
    if Contains url "jk=".toList then
      let jkIndex := Index url "jk=".toList
      if jkIndex ≠ -1 then
        let jkValue := url.drop (jkIndex + 3).toNat
        let ampIndex := Index jkValue "&".toList
        let jkValue := if ampIndex ≠ -1 then jkValue.take ampIndex.toNat else jkValue
        "indeed-".toList ++ jkValue
      else "indeed-".toList ++ url
    else "indeed-".toList ++ url
  -- LinkedIn pattern: /jobs/view/{id}
  else if Contains url "linkedin.com".toList then
    match rangeLoop parts "view".toList
        (fun next => "linkedin-".toList ++ (Split next "?".toList).getD 0 []) 0 parts with
    | some id => id
    | none => "linkedin-".toList ++ url
  -- SEEK pattern: /job/{id}
  else if Contains url "seek.com.au".toList then
    match rangeLoop parts "job".toList (fun next => "seek-".toList ++ next) 0 parts with
    | some id => id
    | none => "seek-".toList ++ url
  -- Fallback: use the full URL as ID
  else url

/-- The source whose branch of `extractJobID` handles the URL: the first of
`indeed.com`, `linkedin.com`, `seek.com.au` (in the order the function tests
them) that the URL contains; `none` for the final fallback. -/
def attributedSource (url : Str) : Option Str :=
  if Contains url "indeed.com".toList then some "indeed".toList
  else if Contains url "linkedin.com".toList then some "linkedin".toList
  else if Contains url "seek.com.au".toList then some "seek".toList
  else none

/-- Reference reading of "the URL has a query parameter named `name`", in the
words of the specification: the query is the text after the first `?`, its
parameters are separated by `&`, and the parameter named `name` is the first
one that starts with `name=`; its value is the text after `name=` up to the
next `&` or the end of the URL. -/
def specQueryParam (url name : Str) : Option Str :=
  match indexOf "?".toList url with
  | none => none
  | some q =>
    ((Split (url.drop (q + 1)) "&".toList).find? (fun p => (name ++ "=".toList).isPrefixOf p)).map
      (fun p => p.drop (name.length + 1))

/-! ## `DetectJobType` (internal/database/helpers.go) -/

/-- Go `unicode.ToLower`.  For an ASCII rune the library adds `'a' - 'A'` to an
upper-case letter and returns every other rune unchanged; for the other runes
it consults the Unicode case tables, which are the parameter `table`. -/
def toLowerRune (table : Char → Char) (r : Char) : Char :=
  if r.toNat ≤ 0x7F then
    if 'A'.toNat ≤ r.toNat ∧ r.toNat ≤ 'Z'.toNat then Char.ofNat (r.toNat + 32) else r
  else table r

/-- Go `strings.ToLower`: every character mapped to its lower case. -/
def ToLower (table : Char → Char) (s : Str) : Str :=
  s.map (toLowerRune table)

/-- Contract indicators. -/
def contractKeywords : List Str :=
  [ "contract".toList,
    "contractor".toList,
    "freelance".toList,
    "hourly".toList,
    "/hr".toList,
    "per hour".toList,
    "/day".toList,
    "per day".toList,
    "daily rate".toList,
    "day rate".toList,
    "temp".toList,
    "temporary".toList,
    "fixed term".toList,
    "ftc".toList ]

/-- Permanent indicators. -/
def permanentKeywords : List Str :=
  [ "permanent".toList,
    "full-time".toList,
    "full time".toList,
    "perm".toList,
    "per year".toList,
    "per annum".toList,
    "p.a.".toList,
    "salary".toList ]

/-- The text `DetectJobType` analyses: title, salary text and URL joined by
single spaces, in lower case. -/
def combinedText (table : Char → Char) (title salary url : Str) : Str :=
  ToLower table (title ++ " ".toList ++ salary ++ " ".toList ++ url)

/-- The function `DetectJobType` decides whether a job is a contract or a
permanent role from title, salary text and URL.  Each `for ... range` loop
returns at the first keyword contained in the combined text. -/
def DetectJobType (table : Char → Char) (title salary url : Str) : Str :=
  let combined := combinedText table title salary url
  if contractKeywords.any (fun keyword => Contains combined keyword) then "contract".toList
  else if permanentKeywords.any (fun keyword => Contains combined keyword) then
    "permanent".toList
  else "unknown".toList

/-! ## Documents, as the extractors see them -/

/-- Go `unicode.IsSpace`: the Latin-1 white space characters and the code
points with the Unicode White_Space property. -/
def isSpace (r : Char) : Bool :=
  let n := r.toNat
  if n ≤ 0xFF then
    n = 0x09 ∨ n = 0x0A ∨ n = 0x0B ∨ n = 0x0C ∨ n = 0x0D ∨ n = 0x20 ∨ n = 0x85 ∨ n = 0xA0
  else
    n = 0x1680 ∨ (0x2000 ≤ n ∧ n ≤ 0x200A) ∨ n = 0x2028 ∨ n = 0x2029 ∨ n = 0x202F
      ∨ n = 0x205F ∨ n = 0x3000

/-- Go `strings.TrimSpace`: leading and trailing white space removed. -/
def TrimSpace (s : Str) : Str :=
  ((s.dropWhile isSpace).reverse.dropWhile isSpace).reverse

/-- Length of a Go string, `len(s)`: the number of bytes of its UTF-8 form. -/
def byteLen (s : Str) : Nat :=
  (s.map Char.utf8Size).sum

/-- A matched element (`colly.HTMLElement`): its text content and its
attributes in document order. -/
structure HTMLElement where
  Text : Str
  attributes : List (Str × Str)
deriving DecidableEq, Repr

/-- The method `HTMLElement.Attr`: the value of the first attribute named `k`, and
the empty string when the element has no such attribute. -/
def HTMLElement.Attr (h : HTMLElement) (k : Str) : Str :=
  match h.attributes.find? (fun a => a.1 = k) with
  | some a => a.2
  | none => []

/-- What the extractors take from their surroundings: the Unicode lower-case
table behind `strings.ToLower`, and `Request.AbsoluteURL` of the fetched page,
which resolves an `href` against the page URL (and yields the empty string for
an `href` it cannot resolve). -/
structure Env where
  lowerTable : Char → Char
  AbsoluteURL : Str → Str

/-- The fields of `database.Job` the scraper and the persistence gate work
with; the analysis and application fields keep their zero values there. -/
structure Job where
  ID : Nat := 0
  UserID : Nat := 0
  ExternalID : Str := []
  Source : Str
  URL : Str
  Title : Str
  Company : Str := []
  Location : Str := []
  Salary : Str := []
  JobType : Str := []
  Status : Str
deriving DecidableEq, Repr

/-- The pattern `els.ForEach(func(el) { if field == "" { field =
strings.TrimSpace(el.Text) } })` starting from the empty field. -/
def firstText (els : List HTMLElement) : Str :=
  els.foldl (fun field el => if field = [] then TrimSpace el.Text else field) []

/-! ## `ScrapeSeek` -/

/-- A SEEK job card (`article[data-testid='job-card']`): the elements matched
inside it by each selector the callback queries, in document order. -/
structure SeekCard where
  /-- Matches of `a[data-testid='job-card-title']`. -/
  titleLinks : List HTMLElement
  /-- Matches of `a`. -/
  links : List HTMLElement
  /-- Matches of `span`. -/
  spans : List HTMLElement
deriving DecidableEq, Repr

/-- Company: the first link with a text whose `href` ends with `-jobs` or
carries an `advertiserid=` parameter. -/
def seekCompany (links : List HTMLElement) : Str :=
  links.foldl (fun company link =>
    let href := link.Attr "href".toList
    let text := TrimSpace link.Text
    if text ≠ [] ∧ (HasSuffix href "-jobs".toList ∨ Contains href "advertiserid=".toList) then
      if company = [] then text else company
    else company) []

/-- Location: the first link with a text whose `href` contains `/in-` and not
`All`. -/
def seekLocation (links : List HTMLElement) : Str :=
  links.foldl (fun location link =>
    let href := link.Attr "href".toList
    let text := TrimSpace link.Text
    if text ≠ [] ∧ Contains href "/in-".toList ∧ ¬ Contains href "All".toList then
      if location = [] then text else location
    else location) []

/-- Salary: the first span shorter than 100 bytes whose text contains a dollar
sign. -/
def seekSalary (spans : List HTMLElement) : Str :=
  spans.foldl (fun salary span =>
    let text := TrimSpace span.Text
    if Contains text "$".toList ∧ byteLen text < 100 then
      if salary = [] then text else salary
    else salary) []

/-- Job URL of a SEEK card: from the title link. -/
def seekJobURL (env : Env) (titleLinks : List HTMLElement) : Str :=
  titleLinks.foldl (fun jobURL el =>
    if jobURL = [] then env.AbsoluteURL (el.Attr "href".toList) else jobURL) []

/-- The `OnHTML` callback of `ScrapeSeek` on one job card: the record it
appends to `jobs`, if any. -/
def seekCard (env : Env) (e : SeekCard) : Option Job :=
  let title := firstText e.titleLinks
  let company := seekCompany e.links
  let location := seekLocation e.links
  let salary := seekSalary e.spans
  let jobURL := seekJobURL env e.titleLinks
  let job : Job :=
    { Source := "seek".toList, URL := jobURL, Title := title, Company := company,
      Location := location, Salary := salary, Status := "discovered".toList }
  let job := { job with ExternalID := extractJobID job.URL }
  let job := { job with JobType := DetectJobType env.lowerTable job.Title job.Salary job.URL }
  if job.Title ≠ [] ∧ job.URL ≠ [] then some job else none

/-- The jobs `ScrapeSeek` returns for a fetched page with the given job cards. -/
def ScrapeSeek (env : Env) (cards : List SeekCard) : List Job :=
  cards.filterMap (seekCard env)

/-! ## `ScrapeLinkedIn` -/

/-- A LinkedIn card of the first strategy (`div.base-card`). -/
structure LinkedInCard where
  /-- Matches of `a.base-card__full-link`. -/
  fullLinks : List HTMLElement
  /-- Matches of `h3.base-search-card__title`. -/
  titles : List HTMLElement
  /-- Matches of `h4.base-search-card__subtitle, a.hidden-nested-link`. -/
  subtitles : List HTMLElement
  /-- Matches of `span.job-search-card__location`. -/
  locations : List HTMLElement
deriving DecidableEq, Repr

/-- A LinkedIn card of the second strategy (`div.job-search-card` inside
`li.jobs-search__results-list`). -/
structure LinkedInSearchCard where
  /-- Matches of `a[href*='/jobs/view/'], a[href*='/jobs-guest/']`. -/
  links : List HTMLElement
  /-- Matches of `h3`. -/
  h3s : List HTMLElement
  /-- Matches of `h4`. -/
  h4s : List HTMLElement
  /-- Matches of `span.job-search-card__location`. -/
  locations : List HTMLElement
deriving DecidableEq, Repr

/-- A fetched LinkedIn page: the cards of the first strategy, and for every
results list of the second strategy its cards. -/
structure LinkedInPage where
  baseCards : List LinkedInCard
  resultLists : List (List LinkedInSearchCard)
deriving DecidableEq, Repr

/-- Job link of the first strategy: the first link to a job view. -/
def linkedInJobURL (env : Env) (fullLinks : List HTMLElement) : Str :=
  fullLinks.foldl (fun jobURL link =>
    if jobURL = [] then
      let href := link.Attr "href".toList
      if Contains href "/jobs/view/".toList ∨ Contains href "/jobs-guest/jobs/api/".toList then
        env.AbsoluteURL href
      else jobURL
    else jobURL) []

/-- The record both LinkedIn strategies build once title and URL are known. -/
def linkedInJob (env : Env) (jobURL title company location : Str) : Option Job :=
  if title ≠ [] ∧ jobURL ≠ [] then
    let job : Job :=
      { Source := "linkedin".toList, URL := jobURL, Title := title, Company := company,
        Location := location, Status := "discovered".toList }
    let job := { job with ExternalID := extractJobID job.URL }
    let job := { job with JobType := DetectJobType env.lowerTable job.Title job.Salary job.URL }
    some job
  else none

/-- Strategy 1 of `ScrapeLinkedIn` on one `div.base-card`. -/
def linkedInCard (env : Env) (e : LinkedInCard) : Option Job :=
  linkedInJob env (linkedInJobURL env e.fullLinks) (firstText e.titles)
    (firstText e.subtitles) (firstText e.locations)

/-- Job link of the second strategy. -/
def linkedInSearchJobURL (env : Env) (links : List HTMLElement) : Str :=
  links.foldl (fun jobURL link =>
    if jobURL = [] then env.AbsoluteURL (link.Attr "href".toList) else jobURL) []

/-- Strategy 2 of `ScrapeLinkedIn` on one `div.job-search-card`. -/
def linkedInSearchCard (env : Env) (card : LinkedInSearchCard) : Option Job :=
  linkedInJob env (linkedInSearchJobURL env card.links) (firstText card.h3s)
    (firstText card.h4s) (firstText card.locations)

/-- The jobs `ScrapeLinkedIn` returns for a fetched page: the callbacks run in
the order they were registered, each over its matches in document order. -/
def ScrapeLinkedIn (env : Env) (page : LinkedInPage) : List Job :=
  page.baseCards.filterMap (linkedInCard env)
    ++ (page.resultLists.map (fun cards => cards.filterMap (linkedInSearchCard env))).flatten

/-! ## `ScrapeIndeed` -/

/-- An Indeed card of the first strategy (`div.job_seen_beacon,
div.slider_container, td.resultContent`). -/
structure IndeedCard where
  /-- Matches of `h2.jobTitle a, a.jcs-JobTitle`. -/
  titleLinks : List HTMLElement
  /-- Matches of `h2 a[data-jk]`. -/
  fallbackLinks : List HTMLElement
  /-- Matches of `span.companyName, span[data-testid='company-name']`. -/
  companies : List HTMLElement
  /-- Matches of `div.companyLocation, div[data-testid='text-location']`. -/
  locations : List HTMLElement
  /-- Matches of `div.salary-snippet, div.metadata.salary-snippet-container`. -/
  salaries : List HTMLElement
deriving DecidableEq, Repr

/-- An Indeed card of the second strategy (`div.cardOutline`). -/
structure IndeedOutline where
  /-- Matches of `a[data-jk]`. -/
  links : List HTMLElement
  /-- Matches of `h2 span[title]`. -/
  titleSpans : List HTMLElement
  /-- Matches of `span.companyName`. -/
  companies : List HTMLElement
  /-- Matches of `div.companyLocation`. -/
  locations : List HTMLElement
  /-- Matches of `div.salary-snippet`. -/
  salaries : List HTMLElement
deriving DecidableEq, Repr

/-- A fetched Indeed page: the cards of each strategy. -/
structure IndeedPage where
  cards : List IndeedCard
  outlines : List IndeedOutline
deriving DecidableEq, Repr

/-- The variables the title loops of the first Indeed strategy assign. -/
structure TitleVars where
  title : Str := []
  jobURL : Str := []
  jobKey : Str := []
deriving DecidableEq, Repr

/-- Body of the loop over `h2.jobTitle a, a.jcs-JobTitle`. -/
def indeedTitleStep (env : Env) (v : TitleVars) (link : HTMLElement) : TitleVars :=
  if v.title = [] then
    let title := TrimSpace link.Text
    let href := link.Attr "href".toList
    let jobURL := if href ≠ [] then env.AbsoluteURL href else v.jobURL
    -- Extract job key from data attribute
    let jobKey := link.Attr "data-jk".toList
    let jobKey := if jobKey = [] then link.Attr "id".toList else jobKey
    { title := title, jobURL := jobURL, jobKey := jobKey }
  else v

/-- Body of the fallback loop over `h2 a[data-jk]`. -/
def indeedFallbackStep (env : Env) (v : TitleVars) (link : HTMLElement) : TitleVars :=
  if v.title = [] then
    let title := TrimSpace link.Text
    let href := link.Attr "href".toList
    let jobURL := if href ≠ [] then env.AbsoluteURL href else v.jobURL
    let jobKey := link.Attr "data-jk".toList
    { title := title, jobURL := jobURL, jobKey := jobKey }
  else v

/-- Title, URL and job key of a card of the first strategy: the title loop, and
the fallback loop when the title is still empty. -/
def indeedTitleVars (env : Env) (e : IndeedCard) : TitleVars :=
  let v := e.titleLinks.foldl (indeedTitleStep env) {}
  if v.title = [] then e.fallbackLinks.foldl (indeedFallbackStep env) v else v

/-- Strategy 1 of `ScrapeIndeed` on one card. -/
def indeedCard (env : Env) (e : IndeedCard) : Option Job :=
  let v := indeedTitleVars env e
  let company := firstText e.companies
  let location := firstText e.locations
  let salary := firstText e.salaries
  if v.title ≠ [] ∧ v.jobURL ≠ [] then
    let job : Job :=
      { Source := "indeed".toList, URL := v.jobURL, Title := v.title, Company := company,
        Location := location, Salary := salary, Status := "discovered".toList }
    -- Generate external ID from job key or URL
    let job :=
      if v.jobKey ≠ [] then { job with ExternalID := "indeed-".toList ++ v.jobKey }
      else { job with ExternalID := extractJobID job.URL }
    let job := { job with JobType := DetectJobType env.lowerTable job.Title job.Salary job.URL }
    some job
  else none

/-- Job URL of the second strategy. -/
def indeedOutlineJobURL (env : Env) (links : List HTMLElement) : Str :=
  links.foldl (fun jobURL link =>
    if jobURL = [] then env.AbsoluteURL (link.Attr "href".toList) else jobURL) []

/-- Title of the second strategy: from the `title` attribute of the span. -/
def indeedOutlineTitle (spans : List HTMLElement) : Str :=
  spans.foldl (fun title span =>
    if title = [] then TrimSpace (span.Attr "title".toList) else title) []

/-- Strategy 2 of `ScrapeIndeed` on one `div.cardOutline`. -/
def indeedOutline (env : Env) (e : IndeedOutline) : Option Job :=
  let jobURL := indeedOutlineJobURL env e.links
  let title := indeedOutlineTitle e.titleSpans
  let company := firstText e.companies
  let location := firstText e.locations
  let salary := firstText e.salaries
  if title ≠ [] ∧ jobURL ≠ [] then
    let job : Job :=
      { Source := "indeed".toList, URL := jobURL, Title := title, Company := company,
        Location := location, Salary := salary, Status := "discovered".toList }
    let job := { job with ExternalID := extractJobID job.URL }
    let job := { job with JobType := DetectJobType env.lowerTable job.Title job.Salary job.URL }
    some job
  else none

/-- The jobs `ScrapeIndeed` returns for a fetched page. -/
def ScrapeIndeed (env : Env) (page : IndeedPage) : List Job :=
  page.cards.filterMap (indeedCard env) ++ page.outlines.filterMap (indeedOutline env)

/-! ## Vocabulary for the statements about the extractors -/

/-- An element whose text is non-empty after trimming: the first such element is
the one a `if field == ""` loop takes its text from. -/
def hasText (el : HTMLElement) : Bool :=
  decide (TrimSpace el.Text ≠ [])

/-- The title link of a card of the first Indeed strategy: the first link of
`h2.jobTitle a, a.jcs-JobTitle` with a text, and when there is none the first
link of `h2 a[data-jk]` with a text. -/
def indeedTitleLink (e : IndeedCard) : Option HTMLElement :=
  match e.titleLinks.find? hasText with
  | some l => some l
  | none => e.fallbackLinks.find? hasText

/-- The scheme of a URL reference as Go `net/url` reads it: a letter followed
by letters, digits, `+`, `-` or `.`, up to the first `:`; `none` when the
reference has no scheme.  `seen` is the number of characters already read. -/
def schemeOf : Nat → Str → Option Nat
  | _, [] => none
  | seen, c :: cs =>
    if c.isAlpha then schemeOf (seen + 1) cs
    else if c.isDigit ∨ c = '+' ∨ c = '-' ∨ c = '.' then
      if seen = 0 then none else schemeOf (seen + 1) cs
    else if c = ':' then (if seen = 0 then none else some seen)
    else none

/-- The page a document was fetched from: scheme, host, path and query of its
URL. -/
structure PageURL where
  scheme : Str
  host : Str
  path : Str
  query : Str

/-- The method `Request.AbsoluteURL` of colly for a page without `<base>` element:
an `href` that starts with `#` gives the empty string; otherwise the fragment
is dropped and the reference is resolved against the page URL as RFC 3986
prescribes: a reference with a scheme stands for itself, `//host/...` takes
the scheme of the page, an empty path keeps the path of the page (and its
query, unless the reference has one), a path that starts with `/` replaces the
path of the page, and any other path replaces the last segment of the path of
the page.  A reference that `url.Parse` refuses (it starts with `:`, or it has
no scheme and a colon in its first path segment) gives the empty string.  Dot
segments and the re-encoding of unusual characters by `URL.String` are left
aside. -/
def resolveHref (page : PageURL) (href : Str) : Str :=
  if "#".toList.isPrefixOf href then []
  else
    let ref := href.takeWhile (fun c => c != '#')
    let origin := page.scheme ++ "://".toList ++ page.host
    let refPath := ref.takeWhile (fun c => c != '?')
    if ":".toList.isPrefixOf ref then []
    else if (schemeOf 0 ref).isSome then ref
    else if ¬ "/".toList.isPrefixOf refPath ∧ ':' ∈ refPath.takeWhile (fun c => c != '/') then []
    else if "//".toList.isPrefixOf ref then page.scheme ++ ":".toList ++ ref
    else if refPath = [] then
      if ref = [] then
        origin ++ page.path ++ (if page.query = [] then [] else "?".toList ++ page.query)
      else origin ++ page.path ++ ref
    else if "/".toList.isPrefixOf ref then origin ++ ref
    else
      origin ++ (page.path.reverse.dropWhile (fun c => c != '/')).reverse ++ ref

/-- A page fetched from `https://au.indeed.com/jobs?q=software+engineer&l=Melbourne`.
The lower-case table is the identity: the examples hold ASCII text only, on
which `toLowerRune` never consults the table. -/
def indeedEnv : Env where
  lowerTable := id
  AbsoluteURL := resolveHref
    { scheme := "https".toList, host := "au.indeed.com".toList, path := "/jobs".toList,
      query := "q=software+engineer&l=Melbourne".toList }

/-- A page fetched from
`https://www.seek.com.au/jobs?keywords=golang+developer&location=melbourne`.
The lower-case table is the identity: the examples hold ASCII text only. -/
def seekEnv : Env where
  lowerTable := id
  AbsoluteURL := resolveHref
    { scheme := "https".toList, host := "www.seek.com.au".toList, path := "/jobs".toList,
      query := "keywords=golang+developer&location=melbourne".toList }

/-- A title link that carries the provider key in `data-jk`, with a different
key in its `href`. -/
def linkWithDataJk : HTMLElement where
  Text := " Senior Go Developer ".toList
  attributes := [("href".toList, "/rc/clk?jk=1a2b3c&from=serp".toList),
                 ("data-jk".toList, "9z8y7x".toList)]

/-- A title link with an `id` attribute and no `data-jk`. -/
def linkWithIdOnly : HTMLElement where
  Text := "Senior Go Developer".toList
  attributes := [("id".toList, "job_9z8y7x".toList),
                 ("href".toList, "/rc/clk?jk=1a2b3c&from=serp".toList)]

/-- A title link with neither `data-jk` nor `id`. -/
def linkWithoutKey : HTMLElement where
  Text := "Senior Go Developer".toList
  attributes := [("href".toList, "/rc/clk?jk=1a2b3c&from=serp".toList)]

/-- An Indeed card whose title link is `linkWithDataJk`. -/
def cardWithDataJk : IndeedCard where
  titleLinks := [linkWithDataJk]
  fallbackLinks := []
  companies := []
  locations := []
  salaries := []

/-- An Indeed card whose title link is `linkWithIdOnly`. -/
def cardWithIdOnly : IndeedCard where
  titleLinks := [linkWithIdOnly]
  fallbackLinks := []
  companies := []
  locations := []
  salaries := []

/-- An Indeed card whose title link is `linkWithoutKey`. -/
def cardWithoutKey : IndeedCard where
  titleLinks := [linkWithoutKey]
  fallbackLinks := []
  companies := []
  locations := []
  salaries := []

/-- An Indeed card whose title link has neither `data-jk` nor `id` and points to
the employer's own site. -/
def cardWithForeignLink : IndeedCard where
  titleLinks := [{ Text := "Senior Go Developer".toList,
                   attributes := [("href".toList, "https://careers.example.org/job/42".toList)] }]
  fallbackLinks := []
  companies := []
  locations := []
  salaries := []

/-- A SEEK card whose title link carries a referrer parameter naming another
job board. -/
def seekCardWithReferrer : SeekCard where
  titleLinks := [{ Text := "Platform Engineer".toList,
                   attributes := [("data-testid".toList, "job-card-title".toList),
                                  ("href".toList, "/job/80001234?ref=linkedin.com".toList)] }]
  links := [{ Text := "Platform Engineer".toList,
              attributes := [("data-testid".toList, "job-card-title".toList),
                             ("href".toList, "/job/80001234?ref=linkedin.com".toList)] }]
  spans := []

/-! ## `SaveJobs` and the job store -/

/-- Outcome of `db.Where("external_id = ? AND user_id = ?", ...).First(&existing)`:
a row was found (`result.Error == nil`), no row matches (`gorm.ErrRecordNotFound`),
or the database reported another error. -/
inductive LookupResult where
  | found (existing : Job)
  | notFound
  | dbError
deriving DecidableEq, Repr

/-- The database errors met during one call of `SaveJobs`, by position of the
record in the batch: whether its lookup fails with an error other than "record
not found", and whether its `Create` fails. -/
structure Faults where
  lookupFails : Nat → Bool
  insertFails : Nat → Bool

/-- A database whose lookups and inserts do not fail. -/
def noFaults : Faults where
  lookupFails := fun _ => false
  insertFails := fun _ => false

/-- The dedup key of a stored job. -/
def Job.key (j : Job) : Str × Nat :=
  (j.ExternalID, j.UserID)

/-- The first row of the jobs table with the given external ID and user ID.  The
table is the list of its rows in insertion order; nothing in the program deletes
a job, so no row is hidden from the query. -/
def firstRow (rows : List Job) (externalID : Str) (userID : Nat) : Option Job :=
  rows.find? (fun r => decide (r.ExternalID = externalID ∧ r.UserID = userID))

/-- The lookup of the record at position `i` of the batch. -/
def lookup (faults : Faults) (i : Nat) (rows : List Job) (externalID : Str) (userID : Nat) :
    LookupResult :=
  if faults.lookupFails i then LookupResult.dbError
  else
    match firstRow rows externalID userID with
    | some existing => LookupResult.found existing
    | none => LookupResult.notFound

/-- The primary key the table assigns to a new row. -/
def nextID (rows : List Job) : Nat :=
  (rows.map (fun r => r.ID)).foldl max 0 + 1

/-- The row `db.Create(job)` writes: the record, with a fresh primary key when
its `ID` is zero.  `Create` also stores that key in the record it was given. -/
def createdRow (rows : List Job) (job : Job) : Job :=
  { job with ID := if job.ID = 0 then nextID rows else job.ID }

/-- Body of the loop of `SaveJobs` for the record at position `i`: the table and
the record afterwards. -/
def saveOne (faults : Faults) (userID : Nat) (i : Nat) (job : Job) (rows : List Job) :
    List Job × Job :=
  -- Set user ID on job
  let job := { job with UserID := userID }
  -- Check if job already exists for this user
  match lookup faults i rows job.ExternalID userID with
  | LookupResult.found _ => (rows, job)      -- Job exists, skip
  | LookupResult.dbError => (rows, job)      -- Real database error
  | LookupResult.notFound =>
    -- Job doesn't exist, save it
    if faults.insertFails i then (rows, job)
    else (rows ++ [createdRow rows job], createdRow rows job)

/-- The loop `for _, job := range jobs` of `SaveJobs`, from position `i` on: the
table and the records of the batch afterwards. -/
def saveLoop (faults : Faults) (userID : Nat) : Nat → List Job → List Job → List Job × List Job
  | _, [], rows => (rows, [])
  | i, job :: rest, rows =>
    let step := saveOne faults userID i job rows
    let r := saveLoop faults userID (i + 1) rest step.1
    (r.1, step.2 :: r.2)

/-- What a call of `SaveJobs` leaves behind: the jobs table, the records of the
batch (the function works on pointers to them), and the returned error. -/
structure SaveResult where
  store : List Job
  jobs : List Job
  err : Option Str
deriving DecidableEq, Repr

/-- The function `SaveJobs` saves scraped jobs to the database, skipping the jobs
that already exist for the user.  It always returns `nil`. -/
def SaveJobs (faults : Faults) (rows : List Job) (jobs : List Job) (userID : Nat) :
    SaveResult :=
  let r := saveLoop faults userID 0 jobs rows
  { store := r.1, jobs := r.2, err := none }

/-- The record a successful insert stores for `job` and user `userID` in a table
with rows `rows`. -/
def storedForm (rows : List Job) (job : Job) (userID : Nat) : Job :=
  createdRow rows { job with UserID := userID }

/-- A scraped record, for the examples. -/
def sampleJob : Job where
  Source := "seek".toList
  URL := "https://www.seek.com.au/job/80001234".toList
  Title := "Platform Engineer".toList
  ExternalID := "seek-80001234".toList
  JobType := "unknown".toList
  Status := "discovered".toList

/-- A database in which the lookup of the first record of the batch fails and
the insert of the second record fails. -/
def someFaults : Faults where
  lookupFails := fun i => decide (i = 0)
  insertFails := fun i => decide (i = 1)

/-- A second scraped record, for the examples. -/
def otherJob : Job where
  Source := "seek".toList
  URL := "https://www.seek.com.au/job/80005678".toList
  Title := "Data Engineer".toList
  ExternalID := "seek-80005678".toList
  JobType := "unknown".toList
  Status := "discovered".toList

/-- A third scraped record, for the examples. -/
def thirdJob : Job where
  Source := "seek".toList
  URL := "https://www.seek.com.au/job/80009999".toList
  Title := "Site Reliability Engineer".toList
  ExternalID := "seek-80009999".toList
  JobType := "unknown".toList
  Status := "discovered".toList

/-- The record `sampleJob` as stored for user 1 under the primary key 1, with
the title it had when it was first seen. -/
def storedSample : Job where
  ID := 1
  UserID := 1
  Source := "seek".toList
  URL := "https://www.seek.com.au/job/80001234".toList
  Title := "Platform Engineer (old title)".toList
  ExternalID := "seek-80001234".toList
  JobType := "unknown".toList
  Status := "discovered".toList

/-! ## `MergeSearchURLs` (internal/resume/keywords.go) -/

/-- The variables of `MergeSearchURLs`: the set `urlMap` of the URLs seen so far
(a Go `map[string]bool`, in which a missing key reads `false`) and the slice
`merged`. -/
structure MergeVars where
  urlMap : Str → Bool
  merged : List Str

/-- Body of both loops of `MergeSearchURLs`. -/
def mergeStep (v : MergeVars) (url : Str) : MergeVars :=
  if url ≠ [] ∧ v.urlMap url = false then
    { urlMap := fun k => if k = url then true else v.urlMap k,
      merged := v.merged ++ [url] }
  else v

/-- The function `MergeSearchURLs` combines dynamic (from resume) and static
(from config) URLs and removes duplicates. -/
def MergeSearchURLs (dynamicURLs staticURLs : List Str) : List Str :=
  let v : MergeVars := { urlMap := fun _ => false, merged := [] }
  -- Add static URLs first (priority)
  let v := staticURLs.foldl mergeStep v
  -- Add dynamic URLs
  let v := dynamicURLs.foldl mergeStep v
  v.merged

/-- Only the first occurrence of each element kept. -/
def keepFirst : List Str → List Str
  | [] => []
  | x :: xs => x :: (keepFirst xs).filter (fun y => decide (y ≠ x))

/-- Reference definition of the merge: the static URLs followed by the dynamic
URLs, with every empty string removed and only the first occurrence of each URL
kept. -/
def specMergeSearchURLs (dynamicURLs staticURLs : List Str) : List Str :=
  keepFirst ((staticURLs ++ dynamicURLs).filter (fun url => decide (url ≠ [])))

/-! ## The classifier without its redundant keywords -/

/-- The contract list with `contractor` and `temporary` deleted. -/
def reducedContractKeywords : List Str :=
  [ "contract".toList,
    "freelance".toList,
    "hourly".toList,
    "/hr".toList,
    "per hour".toList,
    "/day".toList,
    "per day".toList,
    "daily rate".toList,
    "day rate".toList,
    "temp".toList,
    "fixed term".toList,
    "ftc".toList ]

/-- The permanent list with `permanent` deleted. -/
def reducedPermanentKeywords : List Str :=
  [ "full-time".toList,
    "full time".toList,
    "perm".toList,
    "per year".toList,
    "per annum".toList,
    "p.a.".toList,
    "salary".toList ]

/-- The classifier obtained from `DetectJobType` by deleting `contractor` and
`temporary` from the contract list and `permanent` from the permanent list. -/
def DetectJobTypeReduced (table : Char → Char) (title salary url : Str) : Str :=
  let combined := combinedText table title salary url
  if reducedContractKeywords.any (fun keyword => Contains combined keyword) then
    "contract".toList
  else if reducedPermanentKeywords.any (fun keyword => Contains combined keyword) then
    "permanent".toList
  else "unknown".toList

/-! ## `GenerateSearchURLs` (internal/resume/keywords.go) -/

/-- Go `strings.ReplaceAll`: every non-overlapping instance of `old` replaced by
`new`, from the left; with an empty `old`, `new` is put before every character
and at the end. -/
def ReplaceAll (s old new : Str) : Str :=
  if old = [] then new ++ (s.map (fun c => c :: new)).flatten
  else List.intercalate new (Split s old)

/-- The fields of `KeywordExtraction` that `GenerateSearchURLs` reads. -/
structure KeywordExtraction where
  Roles : List Str
  SearchKeywords : List Str
deriving DecidableEq, Repr

/-- The URL both loops of `GenerateSearchURLs` build for a search term:
`fmt.Sprintf("https://www.seek.com.au/jobs?keywords=%s&location=%s", ...)` with
the spaces of the term replaced by `+`. -/
def searchURL (term location : Str) : Str :=
  "https://www.seek.com.au/jobs?keywords=".toList ++ ReplaceAll term " ".toList "+".toList
    ++ "&location=".toList ++ location

/-- The loop over `keywords.Roles`, which stops once ten URLs are there. -/
def roleLoop (location : Str) : List Str → List Str → List Str
  | [], urls => urls
  | role :: rest, urls =>
    if urls.length ≥ 10 then urls   -- Limit total URLs
    else roleLoop location rest (urls ++ [searchURL role location])

/-- The function `GenerateSearchURLs` creates SEEK search URLs from keywords. -/
def GenerateSearchURLs (keywords : KeywordExtraction) (location : Str) : List Str :=
  -- Generate URLs from search keywords
  let urls := keywords.SearchKeywords.foldl
    (fun urls keyword => urls ++ [searchURL keyword location]) []
  -- Add role-based searches
  roleLoop location keywords.Roles urls

/-- A keyword extraction with eleven search keywords and no role. -/
def elevenKeywords : KeywordExtraction where
  Roles := []
  SearchKeywords :=
    [ "golang developer".toList, "senior backend engineer".toList, "python developer".toList,
      "devops engineer".toList, "platform engineer".toList, "site reliability engineer".toList,
      "cloud engineer".toList, "software architect".toList, "tech lead".toList,
      "data engineer".toList, "kubernetes engineer".toList ]

/-! ## Cards for the statements about the two Indeed strategies -/

/-- A link without text that leads to the employer page. -/
def companyLogoLink : HTMLElement where
  Text := " ".toList
  attributes := [("href".toList, "/cmp/acme".toList)]

/-- A title link without `href`. -/
def titleLinkWithoutHref : HTMLElement where
  Text := "Senior Go Developer".toList
  attributes := [("data-jk".toList, "9z8y7x".toList)]

/-- A card of the first strategy in which a link without text precedes a title
link without `href`. -/
def cardWithStaleURL : IndeedCard where
  titleLinks := [companyLogoLink, titleLinkWithoutHref]
  fallbackLinks := [titleLinkWithoutHref]
  companies := []
  locations := []
  salaries := []

/-- The title link of a sponsored posting: the key is in `data-jk`, the `href`
is a click-tracking URL without `jk=`. -/
def sponsoredLink : HTMLElement where
  Text := "Senior Go Developer".toList
  attributes := [("class".toList, "jcs-JobTitle".toList),
                 ("data-jk".toList, "9z8y7x".toList),
                 ("href".toList, "/pagead/clk?mo=r&ad=-6NYlbfkN0".toList)]

/-- The posting of `sponsoredLink` as the first strategy sees it. -/
def sponsoredCard : IndeedCard where
  titleLinks := [sponsoredLink]
  fallbackLinks := [sponsoredLink]
  companies := []
  locations := []
  salaries := []

/-- The same posting as the second strategy sees it: the link, and the span
that carries the title in its `title` attribute. -/
def sponsoredOutline : IndeedOutline where
  links := [sponsoredLink]
  titleSpans := [{ Text := "Senior Go Developer".toList,
                   attributes := [("title".toList, "Senior Go Developer".toList)] }]
  companies := []
  locations := []
  salaries := []

/-! ## `runScan` (cmd/jobseeker/scan.go) -/

/-- An entry of `prof.JobBoards`.  A job board missing from the map reads as the
zero value, which is not enabled. -/
structure JobBoard where
  Enabled : Bool
  SearchURLs : List Str
deriving DecidableEq, Repr

/-- The job boards `runScan` looks at. -/
structure JobBoards where
  seek : JobBoard
  linkedin : JobBoard
  indeed : JobBoard
deriving DecidableEq, Repr

/-- What one scrape call returns: the records found, or an error. -/
abbrev ScrapeOutcome := Except Str (List Job)

/-- The surroundings of one scan of a job board: the outcome of the scrape call
for the URL at each position of the list, and the database errors met by the
`SaveJobs` call that follows it. -/
structure BoardRun where
  scrape : Nat → Str → ScrapeOutcome
  faults : Nat → Faults

/-- The loop `for i, url := range urls` of `runScan` for one job board, from
position `i` on, on the running total and the jobs table: a failed scrape is
logged and the loop continues; otherwise the records are saved and counted. -/
def scanURLs (run : BoardRun) (userID : Nat) : Nat → List Str → Nat × List Job → Nat × List Job
  | _, [], st => st
  | i, url :: rest, st =>
    match run.scrape i url with
    | Except.error _ => scanURLs run userID (i + 1) rest st
    | Except.ok jobs =>
      let saved := SaveJobs (run.faults i) st.2 jobs userID
      scanURLs run userID (i + 1) rest (st.1 + jobs.length, saved.store)

/-- The scan of one job board: nothing happens when the board is not enabled or
has no search URL. -/
def scanBoard (enabled : Bool) (urls : List Str) (run : BoardRun) (userID : Nat)
    (st : Nat × List Job) : Nat × List Job :=
  if enabled then
    if urls.length = 0 then st
    else scanURLs run userID 0 urls st
  else st

/-- The function `runScan`, after its initialisation: the three job boards in
turn, SEEK with the merged static and dynamic URLs.  The result is `totalJobs`
and the jobs table. -/
def runScan (boards : JobBoards) (dynamicURLs : List Str) (seekRun linkedinRun indeedRun : BoardRun)
    (userID : Nat) (store : List Job) : Nat × List Job :=
  let st := (0, store)
  let st := scanBoard boards.seek.Enabled
    (MergeSearchURLs dynamicURLs boards.seek.SearchURLs) seekRun userID st
  let st := scanBoard boards.linkedin.Enabled boards.linkedin.SearchURLs linkedinRun userID st
  let st := scanBoard boards.indeed.Enabled boards.indeed.SearchURLs indeedRun userID st
  st

/-- The number of records a scrape call contributes: the length of its list, and
0 for a failed call. -/
def foundBy (outcome : ScrapeOutcome) : Nat :=
  match outcome with
  | Except.ok jobs => jobs.length
  | Except.error _ => 0

/-- Sum of the lengths of the record lists returned by the scrape calls of one
job board that succeeded. -/
def foundOnBoard (enabled : Bool) (urls : List Str) (run : BoardRun) : Nat :=
  if enabled then ((urls.enum.map (fun p => foundBy (run.scrape p.1 p.2))).sum) else 0

/-! ## `extractFileIDFromResponse` (internal/cvtailor/tailor.go) -/

/-- A decoded JSON value (`interface{}`), as far as the program tells values
apart: a string, or anything else. -/
inductive JSONValue where
  | str (s : Str)
  | other
deriving DecidableEq, Repr

/-- A `map[string]interface{}`; `none` is the nil map. -/
abbrev JSONMap := Option (List (Str × JSONValue))

/-- The expression `m[key].(string)`: the string stored under `key`, if there is
one; reading a nil map or a missing key gives nothing. -/
def JSONMap.getString (m : JSONMap) (key : Str) : Option Str :=
  match m with
  | none => none
  | some entries =>
    match entries.find? (fun e => e.1 = key) with
    | some (_, JSONValue.str s) => some s
    | _ => none

/-- The fields of `claude.ContentBlock` the file-ID extraction reads. -/
structure ContentBlock where
  /-- The field `Type` of the Go struct. -/
  BlockType : Str
  Text : Str := []
  Name : Str := []
  Input : JSONMap := none
  Source : JSONMap := none
deriving DecidableEq, Repr

/-- How a call of the extraction ends: with a file ID, with an error, or with a
run-time panic (index out of range). -/
inductive FileIDResult where
  | fileID (id : Str)
  | error (message : Str)
  | panic
deriving DecidableEq, Repr

/-- Go `strings.Fields`, scanning `s` with the field under construction `cur`
(reversed): the maximal runs of characters that are not white space. -/
def fieldsFrom : Str → Str → List Str
  | [], cur => if cur = [] then [] else [cur.reverse]
  | c :: cs, cur =>
    if isSpace c then
      if cur = [] then fieldsFrom cs [] else cur.reverse :: fieldsFrom cs []
    else fieldsFrom cs (c :: cur)

/-- Go `strings.Fields`: `s` split around each run of white space; the result is
empty when `s` holds only white space. -/
def Fields (s : Str) : List Str :=
  fieldsFrom s []

/-- The function `claude.ExtractFileID` (pkg/claude/skills_client.go). -/
def ExtractFileID : List ContentBlock → FileIDResult
  | [] => FileIDResult.error "no file ID found in response".toList
  | content :: rest =>
    let fromExecution : Option Str :=
      if content.BlockType = "tool_use".toList ∧ content.Name = "code_execution".toList then
        match content.Input.getString "code".toList with
        | some _ => content.Source.getString "data".toList
        | none => none
      else none
    match fromExecution with
    | some source => FileIDResult.fileID source
    | none =>
      -- Check for document references in source
      match (if content.Source.isSome then content.Source.getString "file_id".toList else none) with
      | some fileID => FileIDResult.fileID fileID
      | none => ExtractFileID rest

/-- Body of the loop of `extractFileIDFromResponse` for one content block:
`some` result when the function returns (or panics) in this pass, `none` when
the loop goes on with the next block. -/
def fileIDOfBlock (content : ContentBlock) : Option FileIDResult :=
  -- Check tool_use blocks for code execution with file output
  if content.BlockType = "tool_use".toList ∧ content.Name = "code_execution".toList
      ∧ content.Input.isSome then
    none
  else
    -- Check for document/file source references
    match (if content.Source.isSome then content.Source.getString "file_id".toList else none) with
    | some fileID => some (FileIDResult.fileID fileID)
    | none =>
      match (if content.Source.isSome then content.Source.getString "data".toList else none) with
      | some data => some (FileIDResult.fileID data)
      | none =>
        -- Check text content for file references
        if content.BlockType = "text".toList ∧ content.Text ≠ [] then
          if Contains content.Text "file_".toList then
            let parts := Split content.Text "file_".toList
            if parts.length > 1 then
              match Fields (parts.getD 1 []) with
              | fileIDPart :: _ => some (FileIDResult.fileID ("file_".toList ++ fileIDPart))
              | [] => some FileIDResult.panic
            else none
          else none
        else none

/-- The loop of `extractFileIDFromResponse` over the blocks still to visit. -/
def fileIDLoop : List ContentBlock → Option FileIDResult
  | [] => none
  | content :: rest =>
    match fileIDOfBlock content with
    | some result => some result
    | none => fileIDLoop rest

/-- The method `CVTailor.extractFileIDFromResponse`, on the content blocks of the
response: the loop, and the helper `claude.ExtractFileID` when the loop finds
nothing. -/
def extractFileIDFromResponse (content : List ContentBlock) : FileIDResult :=
  match fileIDLoop content with
  | some result => result
  | none => ExtractFileID content

/-- A text block that ends with `file_`. -/
def textEndingInFileMark : ContentBlock where
  BlockType := "text".toList
  Text := "The tailored CV was written to the output file_".toList

/-- A text block with white space only after `file_`. -/
def textWithBlankAfterFileMark : ContentBlock where
  BlockType := "text".toList
  Text := "Created file_ \n".toList

/-- A text block that names a file. -/
def textWithFileID : ContentBlock where
  BlockType := "text".toList
  Text := "Created file_011CNha8iCJcU1wXNR6q4V8w for you".toList

/-! ## `GetTopRepos` (pkg/github/github.go) -/

/-- The fields of `github.Repo` that `GetTopRepos` reads or that tell
repositories apart. -/
structure Repo where
  Name : Str
  Stars : Int
deriving DecidableEq, Repr

/-- Body of the inner loop of the bubble sort: `sorted[j]` and `sorted[j+1]` are
swapped when the first has fewer stars. -/
def bubbleStep (sorted : List Repo) (j : Nat) : List Repo :=
  match sorted[j]?, sorted[j + 1]? with
  | some a, some b => if a.Stars < b.Stars then (sorted.set j b).set (j + 1) a else sorted
  | _, _ => sorted

/-- The inner loop `for j := 0; j < len(sorted)-i-1; j++`. -/
def bubbleInner (sorted : List Repo) (i : Nat) : List Repo :=
  (List.range (sorted.length - i - 1)).foldl bubbleStep sorted

/-- The outer loop `for i := 0; i < len(sorted)-1; i++`. -/
def bubbleSort (repos : List Repo) : List Repo :=
  (List.range (repos.length - 1)).foldl bubbleInner repos

/-- The function `GetTopRepos` returns top N repositories by stars.  A negative
`n` smaller than the length makes the final slice expression `sorted[:n]` panic,
which is the result `none`. -/
def GetTopRepos (repos : List Repo) (n : Int) : Option (List Repo) :=
  if n ≥ (repos.length : Int) then some repos
  else if n < 0 then none
  else some ((bubbleSort repos).take n.toNat)

/-- One pass of the bubble sort told by recursion on the list: `k` adjacent
comparisons from the front, the repository with fewer stars moving on. -/
def bubblePass : Nat → List Repo → List Repo
  | 0, l => l
  | k + 1, a :: b :: t =>
    if a.Stars < b.Stars then b :: bubblePass k (a :: t) else a :: bubblePass k (b :: t)
  | _ + 1, l => l

/-- Three repositories, for the examples. -/
def sampleRepos : List Repo :=
  [ { Name := "dotfiles".toList, Stars := 1 },
    { Name := "jobseeker".toList, Stars := 5 },
    { Name := "notes".toList, Stars := 3 } ]

/-- A second record of the posting of `sampleJob`: the same ExternalID, scraped
with another title. -/
def sampleJobDup : Job where
  Source := "seek".toList
  URL := "https://www.seek.com.au/job/80001234".toList
  Title := "Platform Engineer (reposted)".toList
  ExternalID := "seek-80001234".toList
  JobType := "unknown".toList
  Status := "discovered".toList

/-- A database in which the lookup of the first record of the batch fails, and
no insert fails. -/
def lookupFaults : Faults where
  lookupFails := fun i => decide (i = 0)
  insertFails := fun _ => false

/-! ## Upper case, for the statements about case-insensitivity -/

/-- Go `unicode.ToUpper`.  For an ASCII rune the library subtracts `'a' - 'A'`
from a lower-case letter and returns every other rune unchanged; for the other
runes it consults the Unicode case tables, which are the parameter `table`. -/
def toUpperRune (table : Char → Char) (r : Char) : Char :=
  if r.toNat ≤ 0x7F then
    if 'a'.toNat ≤ r.toNat ∧ r.toNat ≤ 'z'.toNat then Char.ofNat (r.toNat - 32) else r
  else table r

/-- Go `strings.ToUpper`: every character mapped to its upper case. -/
def ToUpper (table : Char → Char) (s : Str) : Str :=
  s.map (toUpperRune table)

/-- A string made of ASCII characters only. -/
def isASCII (s : Str) : Bool :=
  s.all (fun c => decide (c.toNat ≤ 0x7F))

/-- The forms of an input the statements on case-insensitivity range over: the
input itself, its upper-case form and its lower-case form. -/
def caseForms (upper lower : Char → Char) (s : Str) : List Str :=
  [s, ToUpper upper s, ToLower lower s]

/-! ## Facts about the string primitives -/

theorem indexOf_eq_none_iff (substr s : Str) :
    indexOf substr s = none ↔ ¬ substr <:+: s := by
  induction s with
  | nil =>
    by_cases h : substr = []
    · subst h; simp [indexOf]
    · have hp : substr.isPrefixOf [] = false := by
        cases substr with
        | nil => exact absurd rfl h
        | cons a t => rfl
      simp [indexOf, hp, h]
  | cons c cs ih =>
    by_cases hp : substr.isPrefixOf (c :: cs) = true
    · have hpre : substr <+: c :: cs := List.isPrefixOf_iff_prefix.mp hp
      simp [indexOf, hp, hpre.isInfix]
    · have hpre : ¬ substr <+: c :: cs := fun h => hp (List.isPrefixOf_iff_prefix.mpr h)
      simp only [indexOf, hp, Bool.false_eq_true, if_false, Option.map_eq_none', ih,
        List.infix_cons_iff, not_or, hpre, not_false_eq_true, true_and]

theorem indexOf_eq_some (substr : Str) :
    ∀ (s : Str) (i : Nat), indexOf substr s = some i →
      substr <+: s.drop i ∧ i ≤ s.length ∧ ∀ j, j < i → ¬ substr <+: s.drop j := by
  intro s
  induction s with
  | nil =>
    intro i h
    by_cases hp : substr.isPrefixOf [] = true
    · simp only [indexOf, hp, if_true, Option.some.injEq] at h
      subst h
      exact ⟨List.isPrefixOf_iff_prefix.mp hp, Nat.le_refl _, fun j hj => absurd hj (Nat.not_lt_zero j)⟩
    · simp [indexOf, hp] at h
  | cons c cs ih =>
    intro i h
    by_cases hp : substr.isPrefixOf (c :: cs) = true
    · simp only [indexOf, hp, if_true, Option.some.injEq] at h
      subst h
      exact ⟨List.isPrefixOf_iff_prefix.mp hp, Nat.zero_le _, fun j hj => absurd hj (Nat.not_lt_zero j)⟩
    · simp only [indexOf, hp, Bool.false_eq_true, if_false, Option.map_eq_some'] at h
      obtain ⟨k, hk, rfl⟩ := h
      obtain ⟨h1, h2, h3⟩ := ih k hk
      refine ⟨by simpa using h1, by simpa using h2, ?_⟩
      intro j hj
      cases j with
      | zero => simpa using fun h => hp (List.isPrefixOf_iff_prefix.mpr h)
      | succ j => simpa using h3 j (by omega)

theorem Index_nonneg_iff (s substr : Str) : 0 ≤ Index s substr ↔ substr <:+: s := by
  unfold Index
  cases h : indexOf substr s with
  | none =>
    have := (indexOf_eq_none_iff substr s).mp h
    simp [this]
  | some i =>
    have : ¬ ¬ substr <:+: s := fun hn => by
      have := (indexOf_eq_none_iff substr s).mpr hn
      simp [h] at this
    simp [not_not.mp this]

/-- The function `Contains` decides whether `substr` occurs in `s` as a contiguous block. -/
theorem Contains_iff (s substr : Str) : Contains s substr = true ↔ substr <:+: s := by
  simp [Contains, Index_nonneg_iff]

theorem Contains_eq_false_iff (s substr : Str) :
    Contains s substr = false ↔ ¬ substr <:+: s := by
  rw [← Contains_iff, Bool.not_eq_true]

theorem indexOf_singleton_takeWhile (c : Char) :
    ∀ s : Str, (match indexOf [c] s with
      | some m => s.take m
      | none => s) = s.takeWhile (fun x => x != c) := by
  intro s
  induction s with
  | nil => simp [indexOf, List.isPrefixOf]
  | cons a t ih =>
    by_cases hac : a = c
    · subst hac
      simp [indexOf, List.isPrefixOf, List.takeWhile]
    · have h1 : (c == a) = false := by simpa using fun h : c = a => hac h.symm
      have h2 : (a != c) = true := by simpa using hac
      simp only [indexOf, List.isPrefixOf, h1, Bool.false_and, Bool.false_eq_true, if_false]
      cases h : indexOf [c] t with
      | none =>
        rw [h] at ih
        simp [List.takeWhile, h2, ← ih]
      | some m =>
        rw [h] at ih
        simp [List.takeWhile, h2, ← ih]

/-- The first piece of a string split at a one-character separator is the string
up to the first separator. -/
theorem Split_singleton_head (s : Str) (c : Char) :
    (Split s [c]).getD 0 [] = s.takeWhile (fun x => x != c) := by
  rw [← indexOf_singleton_takeWhile]
  unfold Split
  simp only [List.cons_ne_self, if_false]
  cases s with
  | nil => simp [splitLoop, indexOf, List.isPrefixOf]
  | cons a t =>
    simp only [List.length_cons, splitLoop]
    cases h : indexOf [c] (a :: t) <;> simp

theorem splitLoop_ne_nil (sep : Str) (fuel : Nat) (s : Str) : splitLoop sep fuel s ≠ [] := by
  cases fuel with
  | zero => simp [splitLoop]
  | succ n =>
    simp only [splitLoop]
    cases indexOf sep s <;> simp

theorem intercalate_cons_of_ne_nil (sep a : Str) (l : List Str) (hl : l ≠ []) :
    List.intercalate sep (a :: l) = a ++ sep ++ List.intercalate sep l := by
  cases l with
  | nil => exact absurd rfl hl
  | cons b t => simp [List.intercalate, List.intersperse]

/-- Joining the pieces of a split with the separator gives the string back. -/
theorem splitLoop_intercalate (sep : Str) :
    ∀ (fuel : Nat) (s : Str), List.intercalate sep (splitLoop sep fuel s) = s := by
  intro fuel
  induction fuel with
  | zero => intro s; simp [splitLoop, List.intercalate]
  | succ n ih =>
    intro s
    simp only [splitLoop]
    cases h : indexOf sep s with
    | none => simp [List.intercalate]
    | some m =>
      obtain ⟨⟨t, ht⟩, _, _⟩ := indexOf_eq_some sep s m h
      have hdrop : s.drop (m + sep.length) = t := by
        rw [← List.drop_drop, ← ht]
        simp
      simp only []
      rw [intercalate_cons_of_ne_nil _ _ _ (splitLoop_ne_nil _ _ _), ih, hdrop,
        List.append_assoc, ht, List.take_append_drop]

/-- No piece of a split contains the separator. -/
theorem splitLoop_pieces (sep : Str) (hsep : sep ≠ []) :
    ∀ (fuel : Nat) (s : Str), s.length ≤ fuel →
      ∀ p, p ∈ splitLoop sep fuel s → ¬ sep <:+: p := by
  intro fuel
  induction fuel with
  | zero =>
    intro s hs p hp hin
    have hnil : s = [] := List.length_eq_zero.mp (Nat.le_zero.mp hs)
    simp only [splitLoop, List.mem_singleton] at hp
    subst hp
    subst hnil
    exact hsep (List.infix_nil.mp hin)
  | succ n ih =>
    intro s hs p hp
    simp only [splitLoop] at hp
    cases h : indexOf sep s with
    | none =>
      rw [h] at hp
      simp only [List.mem_singleton] at hp
      subst hp
      exact (indexOf_eq_none_iff sep p).mp h
    | some m =>
      rw [h] at hp
      obtain ⟨hpre, hm, hmin⟩ := indexOf_eq_some sep s m h
      have hlen : 0 < sep.length := List.length_pos.mpr hsep
      rcases List.mem_cons.mp hp with rfl | hp
      · rintro ⟨a, b, hab⟩
        have hj : a.length < m := by
          have := congrArg List.length hab
          simp only [List.length_append, List.length_take] at this
          omega
        apply hmin a.length hj
        have hs' : s = a ++ (sep ++ (b ++ s.drop m)) := by
          conv_lhs => rw [← List.take_append_drop m s, ← hab]
          simp only [List.append_assoc]
        refine ⟨b ++ s.drop m, ?_⟩
        conv_rhs => rw [hs']
        simp
      · refine ih _ ?_ p hp
        simp only [List.length_drop]
        omega

/-- The function `Split` with a non-empty separator cuts the string into pieces that
are free of the separator and that give the string back when joined with it. -/
theorem Split_spec (s sep : Str) (hsep : sep ≠ []) :
    List.intercalate sep (Split s sep) = s ∧ ∀ p, p ∈ Split s sep → ¬ sep <:+: p := by
  unfold Split
  simp only [hsep, if_false]
  exact ⟨splitLoop_intercalate sep _ s, splitLoop_pieces sep hsep _ s (Nat.le_refl _)⟩

/-! ## Facts about the loop of `extractJobID` -/

theorem rangeLoop_eq_some (parts : List Str) (key : Str) (f : Str → Str) :
    ∀ (rest : List Str) (i k : Nat), parts.drop i = rest → i ≤ k → k + 1 < parts.length →
      parts.getD k [] = key → (∀ j, i ≤ j → j < k → parts.getD j [] ≠ key) →
      rangeLoop parts key f i rest = some (f (parts.getD (k + 1) [])) := by
  intro rest
  induction rest with
  | nil =>
    intro i k hd hik hk _ _
    have : parts.length ≤ i := List.drop_eq_nil_iff.mp hd
    omega
  | cons part rest ih =>
    intro i k hd hik hk hkey hmin
    have hi : i < parts.length := by
      by_contra hc
      rw [List.drop_eq_nil_of_le (by omega)] at hd
      cases hd
    have hpart : parts.getD i [] = part := by
      rw [List.getD_eq_getElem _ _ hi]
      have := List.drop_eq_getElem_cons hi
      rw [hd] at this
      exact (List.cons.inj this).1.symm
    have hrest : parts.drop (i + 1) = rest := by
      have := List.drop_eq_getElem_cons hi
      rw [hd] at this
      exact (List.cons.inj this).2.symm
    by_cases hk' : i = k
    · subst hk'
      rw [hpart] at hkey
      simp [rangeLoop, hkey, hk]
    · have hne : part ≠ key := hpart ▸ hmin i (Nat.le_refl _) (by omega)
      simp only [rangeLoop, hne, false_and, if_false]
      exact ih (i + 1) k hrest (by omega) hk hkey (fun j hj hjk => hmin j (by omega) hjk)

theorem rangeLoop_eq_none (parts : List Str) (key : Str) (f : Str → Str) :
    ∀ (rest : List Str) (i : Nat), parts.drop i = rest →
      (∀ k, i ≤ k → k + 1 < parts.length → parts.getD k [] ≠ key) →
      rangeLoop parts key f i rest = none := by
  intro rest
  induction rest with
  | nil => intro i _ _; rfl
  | cons part rest ih =>
    intro i hd hno
    have hi : i < parts.length := by
      by_contra hc
      rw [List.drop_eq_nil_of_le (by omega)] at hd
      cases hd
    have hpart : parts.getD i [] = part := by
      rw [List.getD_eq_getElem _ _ hi]
      have := List.drop_eq_getElem_cons hi
      rw [hd] at this
      exact (List.cons.inj this).1.symm
    have hrest : parts.drop (i + 1) = rest := by
      have := List.drop_eq_getElem_cons hi
      rw [hd] at this
      exact (List.cons.inj this).2.symm
    have hcond : ¬ (part = key ∧ i + 1 < parts.length) := by
      rintro ⟨h1, h2⟩
      exact hno i (Nat.le_refl _) h2 (hpart.trans h1)
    simp only [rangeLoop, hcond, if_false]
    exact ih (i + 1) hrest (fun k hk => hno k (by omega))

/-! ## `extractJobID`: the URL rules -/

/-- C1. SEEK rule of `extractJobID`: for a URL that contains `seek.com.au` and neither
`indeed.com` nor `linkedin.com`, if the split of the URL on `/` has a segment `job`
followed by another segment, the result is `seek-` followed by the segment after the
first such `job`; if there is no such segment, the result is `seek-` followed by the
whole URL.  The URL `https://www.seek.com.au/job/80001234` gives `seek-80001234`. -/
theorem extractJobID_seek_rule (url : Str)
    (hseek : "seek.com.au".toList <:+: url)
    (hindeed : ¬ "indeed.com".toList <:+: url)
    (hlinkedin : ¬ "linkedin.com".toList <:+: url) :
    (∀ i, i + 1 < (Split url "/".toList).length →
        (Split url "/".toList).getD i [] = "job".toList →
        (∀ j, j < i → (Split url "/".toList).getD j [] ≠ "job".toList) →
        extractJobID url = "seek-".toList ++ (Split url "/".toList).getD (i + 1) []) ∧
    ((∀ i, i + 1 < (Split url "/".toList).length →
        (Split url "/".toList).getD i [] ≠ "job".toList) →
        extractJobID url = "seek-".toList ++ url) ∧
    extractJobID "https://www.seek.com.au/job/80001234".toList = "seek-80001234".toList := by
  have h1 : Contains url "indeed.com".toList = false := (Contains_eq_false_iff _ _).mpr hindeed
  have h2 : Contains url "linkedin.com".toList = false :=
    (Contains_eq_false_iff _ _).mpr hlinkedin
  have h3 : Contains url "seek.com.au".toList = true := (Contains_iff _ _).mpr hseek
  refine ⟨?_, ?_, by decide⟩
  · intro i hi hjob hfirst
    have := rangeLoop_eq_some (Split url "/".toList) "job".toList
      (fun next => "seek-".toList ++ next) _ 0 i (List.drop_zero _) (Nat.zero_le _) hi hjob
      (fun j _ hj => hfirst j hj)
    simp only [extractJobID, h1, h2, h3, Bool.false_eq_true, if_false, if_true, this]
  · intro hno
    have := rangeLoop_eq_none (Split url "/".toList) "job".toList
      (fun next => "seek-".toList ++ next) _ 0 (List.drop_zero _) (fun k _ hk => hno k hk)
    simp only [extractJobID, h1, h2, h3, Bool.false_eq_true, if_false, if_true, this]

/-- The SEEK rule applied to `https://www.seek.com.au/job/80001234`, whose segment 3 is the
first `job`. -/
theorem extractJobID_seek_rule_witness :
    "seek.com.au".toList <:+: "https://www.seek.com.au/job/80001234".toList ∧
    ¬ "indeed.com".toList <:+: "https://www.seek.com.au/job/80001234".toList ∧
    ¬ "linkedin.com".toList <:+: "https://www.seek.com.au/job/80001234".toList ∧
    extractJobID "https://www.seek.com.au/job/80001234".toList
      = "seek-".toList ++ "80001234".toList :=
  ⟨by decide, by decide, by decide,
    (extractJobID_seek_rule "https://www.seek.com.au/job/80001234".toList
      (by decide) (by decide) (by decide)).1 3 (by decide) (by decide) (by decide)⟩

/-- C2. LinkedIn rule of `extractJobID`: for a URL that contains `linkedin.com` and not
`indeed.com`, if the split of the URL on `/` has a segment `view` followed by another
segment, the result is `linkedin-` followed by that next segment cut at its first `?`;
if there is no such segment, the result is `linkedin-` followed by the whole URL.  The
URL `https://www.linkedin.com/jobs/view/3900000111?trk=x` gives `linkedin-3900000111`. -/
theorem extractJobID_linkedin_rule (url : Str)
    (hlinkedin : "linkedin.com".toList <:+: url)
    (hindeed : ¬ "indeed.com".toList <:+: url) :
    (∀ i, i + 1 < (Split url "/".toList).length →
        (Split url "/".toList).getD i [] = "view".toList →
        (∀ j, j < i → (Split url "/".toList).getD j [] ≠ "view".toList) →
        extractJobID url = "linkedin-".toList
          ++ ((Split url "/".toList).getD (i + 1) []).takeWhile (fun c => c != '?')) ∧
    ((∀ i, i + 1 < (Split url "/".toList).length →
        (Split url "/".toList).getD i [] ≠ "view".toList) →
        extractJobID url = "linkedin-".toList ++ url) ∧
    extractJobID "https://www.linkedin.com/jobs/view/3900000111?trk=x".toList
      = "linkedin-3900000111".toList := by
  have h1 : Contains url "indeed.com".toList = false := (Contains_eq_false_iff _ _).mpr hindeed
  have h2 : Contains url "linkedin.com".toList = true := (Contains_iff _ _).mpr hlinkedin
  refine ⟨?_, ?_, by decide⟩
  · intro i hi hview hfirst
    have := rangeLoop_eq_some (Split url "/".toList) "view".toList
      (fun next => "linkedin-".toList ++ (Split next "?".toList).getD 0 []) _ 0 i
      (List.drop_zero _) (Nat.zero_le _) hi hview (fun j _ hj => hfirst j hj)
    simp only [extractJobID, h1, h2, Bool.false_eq_true, if_false, if_true, this]
    exact congrArg _ (Split_singleton_head _ '?')
  · intro hno
    have := rangeLoop_eq_none (Split url "/".toList) "view".toList
      (fun next => "linkedin-".toList ++ (Split next "?".toList).getD 0 []) _ 0
      (List.drop_zero _) (fun k _ hk => hno k hk)
    simp only [extractJobID, h1, h2, Bool.false_eq_true, if_false, if_true, this]

/-- The LinkedIn rule applied to `https://www.linkedin.com/jobs/view/3900000111?trk=x`,
whose segment 4 is the first `view`. -/
theorem extractJobID_linkedin_rule_witness :
    "linkedin.com".toList <:+: "https://www.linkedin.com/jobs/view/3900000111?trk=x".toList ∧
    ¬ "indeed.com".toList <:+: "https://www.linkedin.com/jobs/view/3900000111?trk=x".toList ∧
    extractJobID "https://www.linkedin.com/jobs/view/3900000111?trk=x".toList
      = "linkedin-".toList ++ "3900000111?trk=x".toList.takeWhile (fun c => c != '?') :=
  ⟨by decide, by decide,
    (extractJobID_linkedin_rule "https://www.linkedin.com/jobs/view/3900000111?trk=x".toList
      (by decide) (by decide)).1 4 (by decide) (by decide) (by decide)⟩

/-- What the Indeed branch of `extractJobID` computes: it looks for the text `jk=`
anywhere in the URL, and takes what follows its first occurrence up to the next `&`. -/
theorem extractJobID_indeed_substring (url : Str) (hindeed : "indeed.com".toList <:+: url) :
    (∀ i, indexOf "jk=".toList url = some i →
        extractJobID url = "indeed-".toList ++ (url.drop (i + 3)).takeWhile (fun c => c != '&')) ∧
    (¬ "jk=".toList <:+: url → extractJobID url = "indeed-".toList ++ url) := by
  have h1 : Contains url "indeed.com".toList = true := (Contains_iff _ _).mpr hindeed
  constructor
  · intro i hi
    have hin : "jk=".toList <:+: url := by
      by_contra hc
      rw [(indexOf_eq_none_iff _ _).mpr hc] at hi
      cases hi
    have h2 : Contains url "jk=".toList = true := (Contains_iff _ _).mpr hin
    have hidx : Index url "jk=".toList = (i : Int) := by simp only [Index, hi]
    have hne : (i : Int) ≠ -1 := by omega
    have hnat : ((i : Int) + 3).toNat = i + 3 := by omega
    have htw := indexOf_singleton_takeWhile '&' (url.drop (i + 3))
    simp only [extractJobID, h1, h2, if_true, hidx, hne, ne_eq, not_false_eq_true, hnat]
    congr 1
    rw [← htw]
    unfold Index
    cases hamp : indexOf "&".toList (url.drop (i + 3)) with
    | none =>
      have hamp2 : indexOf ['&'] (url.drop (i + 3)) = none := hamp
      simp [hamp2]
    | some m =>
      have hamp2 : indexOf ['&'] (url.drop (i + 3)) = some m := hamp
      have hm : (m : Int) ≠ -1 := by omega
      simp [hamp2, hm]
  · intro hno
    have h2 : Contains url "jk=".toList = false := (Contains_eq_false_iff _ _).mpr hno
    simp only [extractJobID, h1, h2, if_true, Bool.false_eq_true, if_false]

/-- C3. Indeed rule of `extractJobID`, where it departs from the query parameter `jk`:
the URL `https://au.indeed.com/viewjob?vjk=zzz&jk=abc123` has the query parameter `jk`
with value `abc123`, yet the result is `indeed-zzz`, taken from the parameter `vjk`;
and `https://au.indeed.com/pagead/clk?mo=r&vjk=1a2b` has no query parameter `jk`, yet
the result is `indeed-1a2b` and not `indeed-` followed by the URL.  For the URL
`https://au.indeed.com/viewjob?jk=abc123xyz&from=serp` the result is
`indeed-abc123xyz`. -/
theorem extractJobID_indeed_jk_not_query_parameter :
    (specQueryParam "https://au.indeed.com/viewjob?vjk=zzz&jk=abc123".toList "jk".toList
        = some "abc123".toList ∧
      extractJobID "https://au.indeed.com/viewjob?vjk=zzz&jk=abc123".toList
        = "indeed-zzz".toList) ∧
    (specQueryParam "https://au.indeed.com/pagead/clk?mo=r&vjk=1a2b".toList "jk".toList = none ∧
      extractJobID "https://au.indeed.com/pagead/clk?mo=r&vjk=1a2b".toList
        = "indeed-1a2b".toList) ∧
    (specQueryParam "https://au.indeed.com/viewjob?jk=abc123xyz&from=serp".toList "jk".toList
        = some "abc123xyz".toList ∧
      extractJobID "https://au.indeed.com/viewjob?jk=abc123xyz&from=serp".toList
        = "indeed-abc123xyz".toList) := by
  decide

/-- C4. Unknown source: a URL that contains none of `indeed.com`, `linkedin.com` and
`seek.com.au` is returned unchanged, without any prefix. -/
theorem extractJobID_unknown_source (url : Str)
    (hindeed : ¬ "indeed.com".toList <:+: url)
    (hlinkedin : ¬ "linkedin.com".toList <:+: url)
    (hseek : ¬ "seek.com.au".toList <:+: url) :
    extractJobID url = url := by
  have h1 : Contains url "indeed.com".toList = false := (Contains_eq_false_iff _ _).mpr hindeed
  have h2 : Contains url "linkedin.com".toList = false :=
    (Contains_eq_false_iff _ _).mpr hlinkedin
  have h3 : Contains url "seek.com.au".toList = false := (Contains_eq_false_iff _ _).mpr hseek
  simp only [extractJobID, h1, h2, h3, Bool.false_eq_true, if_false]

/-- The unknown-source rule applied to `https://jobs.example.org/posting/42`. -/
theorem extractJobID_unknown_source_witness :
    ¬ "indeed.com".toList <:+: "https://jobs.example.org/posting/42".toList ∧
    ¬ "linkedin.com".toList <:+: "https://jobs.example.org/posting/42".toList ∧
    ¬ "seek.com.au".toList <:+: "https://jobs.example.org/posting/42".toList ∧
    extractJobID "https://jobs.example.org/posting/42".toList
      = "https://jobs.example.org/posting/42".toList :=
  ⟨by decide, by decide, by decide,
    extractJobID_unknown_source "https://jobs.example.org/posting/42".toList
      (by decide) (by decide) (by decide)⟩

theorem rangeLoop_some_image (parts : List Str) (key : Str) (f : Str → Str) :
    ∀ (rest : List Str) (i : Nat) (r : Str), rangeLoop parts key f i rest = some r →
      ∃ x, r = f x := by
  intro rest
  induction rest with
  | nil => intro i r h; simp [rangeLoop] at h
  | cons part rest ih =>
    intro i r h
    by_cases hc : part = key ∧ i + 1 < parts.length
    · simp only [rangeLoop, hc, and_self, if_true, Option.some.injEq] at h
      exact ⟨_, h.symm⟩
    · simp only [rangeLoop, hc, if_false] at h
      exact ih _ _ h

/-- Every ID derived for a URL attributed to a source starts with the tag of that source
and a dash. -/
theorem extractJobID_source_prefix (url s : Str) (h : attributedSource url = some s) :
    (s ++ "-".toList) <+: extractJobID url := by
  unfold attributedSource at h
  by_cases h1 : Contains url "indeed.com".toList = true
  · simp only [h1, if_true, Option.some.injEq] at h
    subst h
    simp only [extractJobID, h1, if_true]
    split
    · split
      · exact ⟨_, rfl⟩
      · exact ⟨_, rfl⟩
    · exact ⟨_, rfl⟩
  · rw [Bool.not_eq_true] at h1
    by_cases h2 : Contains url "linkedin.com".toList = true
    · simp only [h1, h2, Bool.false_eq_true, if_true, if_false, Option.some.injEq] at h
      subst h
      simp only [extractJobID, h1, h2, Bool.false_eq_true, if_true, if_false]
      split
      · rename_i id hid
        obtain ⟨x, rfl⟩ := rangeLoop_some_image _ _ _ _ _ _ hid
        exact ⟨_, rfl⟩
      · exact ⟨_, rfl⟩
    · rw [Bool.not_eq_true] at h2
      by_cases h3 : Contains url "seek.com.au".toList = true
      · simp only [h1, h2, h3, Bool.false_eq_true, if_true, if_false, Option.some.injEq] at h
        subst h
        simp only [extractJobID, h1, h2, h3, Bool.false_eq_true, if_true, if_false]
        split
        · rename_i id hid
          obtain ⟨x, rfl⟩ := rangeLoop_some_image _ _ _ _ _ _ hid
          exact ⟨_, rfl⟩
        · exact ⟨_, rfl⟩
      · rw [Bool.not_eq_true] at h3
        simp only [h1, h2, h3, Bool.false_eq_true, if_false] at h
        cases h

theorem attributedSource_cases (url s : Str) (h : attributedSource url = some s) :
    s = "indeed".toList ∨ s = "linkedin".toList ∨ s = "seek".toList := by
  unfold attributedSource at h
  split at h
  · exact Or.inl (Option.some.inj h).symm
  · split at h
    · exact Or.inr (Or.inl (Option.some.inj h).symm)
    · split at h
      · exact Or.inr (Or.inr (Option.some.inj h).symm)
      · cases h

/-- C5. Cross-source isolation: two URLs that `extractJobID` attributes to two different
sources among seek, linkedin and indeed never get the same ID, also when both carry the
same raw id, as `https://www.seek.com.au/job/123` and
`https://www.linkedin.com/jobs/view/123` do. -/
theorem extractJobID_cross_source_isolation (u1 u2 s1 s2 : Str)
    (h1 : attributedSource u1 = some s1) (h2 : attributedSource u2 = some s2)
    (hne : s1 ≠ s2) :
    extractJobID u1 ≠ extractJobID u2 := by
  intro heq
  obtain ⟨r1, e1⟩ := extractJobID_source_prefix u1 s1 h1
  obtain ⟨r2, e2⟩ := extractJobID_source_prefix u2 s2 h2
  have key : s1 ++ "-".toList ++ r1 = s2 ++ "-".toList ++ r2 := by rw [e1, e2, heq]
  have hhead := congrArg List.head? key
  rcases attributedSource_cases u1 s1 h1 with rfl | rfl | rfl <;>
    rcases attributedSource_cases u2 s2 h2 with rfl | rfl | rfl <;>
    first
      | exact hne rfl
      | (simp at hhead)

/-- Cross-source isolation at `https://www.seek.com.au/job/123` and
`https://www.linkedin.com/jobs/view/123`, which carry the same raw id. -/
theorem extractJobID_cross_source_isolation_witness :
    attributedSource "https://www.seek.com.au/job/123".toList = some "seek".toList ∧
    attributedSource "https://www.linkedin.com/jobs/view/123".toList = some "linkedin".toList ∧
    "seek".toList ≠ "linkedin".toList ∧
    extractJobID "https://www.seek.com.au/job/123".toList
      ≠ extractJobID "https://www.linkedin.com/jobs/view/123".toList :=
  ⟨by decide, by decide, by decide,
    extractJobID_cross_source_isolation "https://www.seek.com.au/job/123".toList
      "https://www.linkedin.com/jobs/view/123".toList "seek".toList "linkedin".toList
      (by decide) (by decide) (by decide)⟩

/-! ## `DetectJobType` -/

theorem toLowerRune_space (table : Char → Char) : toLowerRune table ' ' = ' ' := by
  rfl

/-- Lower-casing works character by character, so the combined text is the three
lower-cased inputs joined by spaces. -/
theorem combinedText_eq (table : Char → Char) (title salary url : Str) :
    combinedText table title salary url
      = ToLower table title ++ " ".toList ++ ToLower table salary ++ " ".toList
          ++ ToLower table url := by
  simp only [combinedText, ToLower, List.map_append]
  have : List.map (toLowerRune table) " ".toList = " ".toList := by
    show [toLowerRune table ' '] = [' ']
    rw [toLowerRune_space]
  rw [this]

theorem any_Contains_iff (keywords : List Str) (text : Str) :
    keywords.any (fun keyword => Contains text keyword) = true
      ↔ ∃ kw, kw ∈ keywords ∧ kw <:+: text := by
  simp only [List.any_eq_true, Contains_iff]

theorem DetectJobType_contract_iff (table : Char → Char) (title salary url : Str) :
    DetectJobType table title salary url = "contract".toList
      ↔ ∃ kw, kw ∈ contractKeywords ∧ kw <:+: combinedText table title salary url := by
  rw [← any_Contains_iff]
  unfold DetectJobType
  simp only
  generalize contractKeywords.any
    (fun keyword => Contains (combinedText table title salary url) keyword) = c
  generalize permanentKeywords.any
    (fun keyword => Contains (combinedText table title salary url) keyword) = p
  cases c <;> cases p <;> simp

theorem DetectJobType_permanent_iff (table : Char → Char) (title salary url : Str) :
    DetectJobType table title salary url = "permanent".toList
      ↔ (¬ ∃ kw, kw ∈ contractKeywords ∧ kw <:+: combinedText table title salary url) ∧
        ∃ kw, kw ∈ permanentKeywords ∧ kw <:+: combinedText table title salary url := by
  rw [← any_Contains_iff, ← any_Contains_iff]
  unfold DetectJobType
  simp only
  generalize contractKeywords.any
    (fun keyword => Contains (combinedText table title salary url) keyword) = c
  generalize permanentKeywords.any
    (fun keyword => Contains (combinedText table title salary url) keyword) = p
  cases c <;> cases p <;> simp

theorem DetectJobType_unknown_iff (table : Char → Char) (title salary url : Str) :
    DetectJobType table title salary url = "unknown".toList
      ↔ (¬ ∃ kw, kw ∈ contractKeywords ∧ kw <:+: combinedText table title salary url) ∧
        ¬ ∃ kw, kw ∈ permanentKeywords ∧ kw <:+: combinedText table title salary url := by
  rw [← any_Contains_iff, ← any_Contains_iff]
  unfold DetectJobType
  simp only
  generalize contractKeywords.any
    (fun keyword => Contains (combinedText table title salary url) keyword) = c
  generalize permanentKeywords.any
    (fun keyword => Contains (combinedText table title salary url) keyword) = p
  cases c <;> cases p <;> simp

/-- C9. Contract keywords have absolute priority: if the lower-case form of the title, of
the salary text or of the URL contains one of the contract keywords, `DetectJobType`
returns `contract`, whatever else the three inputs contain (a permanent keyword such as
`per annum` included). -/
theorem DetectJobType_contract_priority (table : Char → Char) (title salary url kw : Str)
    (hkw : kw ∈ ["contract".toList, "contractor".toList, "freelance".toList, "hourly".toList,
      "/hr".toList, "per hour".toList, "/day".toList, "per day".toList, "daily rate".toList,
      "day rate".toList, "temp".toList, "temporary".toList, "fixed term".toList, "ftc".toList])
    (hin : kw <:+: ToLower table title ∨ kw <:+: ToLower table salary
      ∨ kw <:+: ToLower table url) :
    DetectJobType table title salary url = "contract".toList := by
  rw [DetectJobType_contract_iff, combinedText_eq]
  refine ⟨kw, hkw, ?_⟩
  rcases hin with h | h | h
  · obtain ⟨a, b, hab⟩ := h
    exact ⟨a, b ++ (" ".toList ++ ToLower table salary ++ " ".toList ++ ToLower table url),
      by simp only [← hab, List.append_assoc]⟩
  · obtain ⟨a, b, hab⟩ := h
    exact ⟨ToLower table title ++ " ".toList ++ a, b ++ (" ".toList ++ ToLower table url),
      by simp only [← hab, List.append_assoc]⟩
  · obtain ⟨a, b, hab⟩ := h
    exact ⟨ToLower table title ++ " ".toList ++ ToLower table salary ++ " ".toList ++ a, b,
      by simp only [← hab, List.append_assoc]⟩

/-- Contract priority at the title `Contract Developer` with the salary text
`$150k per annum equivalent`, which holds the permanent keyword `per annum`. -/
theorem DetectJobType_contract_priority_witness :
    "per annum".toList <:+: ToLower id "$150k per annum equivalent".toList ∧
    "contract".toList <:+: ToLower id "Contract Developer".toList ∧
    DetectJobType id "Contract Developer".toList "$150k per annum equivalent".toList
      "https://www.seek.com.au/job/80001234".toList = "contract".toList :=
  ⟨by decide, by decide,
    DetectJobType_contract_priority id "Contract Developer".toList
      "$150k per annum equivalent".toList "https://www.seek.com.au/job/80001234".toList
      "contract".toList (by decide) (Or.inl (by decide))⟩

/-- C10. Complete characterisation of `DetectJobType`: with `text` the lower case of
title, space, salary, space, URL, the result is one of `contract`, `permanent`,
`unknown`; it is `permanent` exactly when `text` contains no contract keyword and at
least one permanent keyword; and it is `unknown` exactly when `text` contains no keyword
of either list. -/
theorem DetectJobType_characterisation (table : Char → Char) (title salary url : Str) :
    (DetectJobType table title salary url = "contract".toList
      ∨ DetectJobType table title salary url = "permanent".toList
      ∨ DetectJobType table title salary url = "unknown".toList) ∧
    (DetectJobType table title salary url = "permanent".toList ↔
      (∀ kw, kw ∈ ["contract".toList, "contractor".toList, "freelance".toList,
          "hourly".toList, "/hr".toList, "per hour".toList, "/day".toList, "per day".toList,
          "daily rate".toList, "day rate".toList, "temp".toList, "temporary".toList,
          "fixed term".toList, "ftc".toList] →
        ¬ kw <:+: ToLower table (title ++ " ".toList ++ salary ++ " ".toList ++ url)) ∧
      ∃ kw, kw ∈ ["permanent".toList, "full-time".toList, "full time".toList, "perm".toList,
          "per year".toList, "per annum".toList, "p.a.".toList, "salary".toList] ∧
        kw <:+: ToLower table (title ++ " ".toList ++ salary ++ " ".toList ++ url)) ∧
    (DetectJobType table title salary url = "unknown".toList ↔
      ∀ kw, kw ∈ ["contract".toList, "contractor".toList, "freelance".toList,
          "hourly".toList, "/hr".toList, "per hour".toList, "/day".toList, "per day".toList,
          "daily rate".toList, "day rate".toList, "temp".toList, "temporary".toList,
          "fixed term".toList, "ftc".toList]
          ++ ["permanent".toList, "full-time".toList, "full time".toList, "perm".toList,
          "per year".toList, "per annum".toList, "p.a.".toList, "salary".toList] →
        ¬ kw <:+: ToLower table (title ++ " ".toList ++ salary ++ " ".toList ++ url)) := by
  refine ⟨?_, ?_, ?_⟩
  · unfold DetectJobType
    simp only
    split
    · exact Or.inl rfl
    · split
      · exact Or.inr (Or.inl rfl)
      · exact Or.inr (Or.inr rfl)
  · rw [DetectJobType_permanent_iff]
    simp only [not_exists, not_and]
    exact Iff.rfl
  · rw [DetectJobType_unknown_iff]
    simp only [not_exists, not_and, List.mem_append]
    constructor
    · rintro ⟨h1, h2⟩ kw (h | h)
      · exact h1 kw h
      · exact h2 kw h
    · intro h
      exact ⟨fun kw hk => h kw (Or.inl hk), fun kw hk => h kw (Or.inr hk)⟩

/-! ## The first strategy of `ScrapeIndeed` -/

theorem foldl_indeedTitleStep_fixed (env : Env) :
    ∀ (links : List HTMLElement) (v : TitleVars), v.title ≠ [] →
      links.foldl (indeedTitleStep env) v = v := by
  intro links
  induction links with
  | nil => intro v _; rfl
  | cons a t ih =>
    intro v hv
    have : indeedTitleStep env v a = v := by simp [indeedTitleStep, hv]
    rw [List.foldl_cons, this]
    exact ih v hv

theorem foldl_indeedFallbackStep_fixed (env : Env) :
    ∀ (links : List HTMLElement) (v : TitleVars), v.title ≠ [] →
      links.foldl (indeedFallbackStep env) v = v := by
  intro links
  induction links with
  | nil => intro v _; rfl
  | cons a t ih =>
    intro v hv
    have : indeedFallbackStep env v a = v := by simp [indeedFallbackStep, hv]
    rw [List.foldl_cons, this]
    exact ih v hv

/-- The title loop stops at the first link with a text: title and job key are
those of that link. -/
theorem foldl_indeedTitleStep_some (env : Env) :
    ∀ (links : List HTMLElement) (v : TitleVars) (l : HTMLElement), v.title = [] →
      links.find? hasText = some l →
      (links.foldl (indeedTitleStep env) v).title = TrimSpace l.Text ∧
      (links.foldl (indeedTitleStep env) v).title ≠ [] ∧
      (links.foldl (indeedTitleStep env) v).jobKey
        = (if l.Attr "data-jk".toList = [] then l.Attr "id".toList
           else l.Attr "data-jk".toList) := by
  intro links
  induction links with
  | nil => intro v l _ h; simp at h
  | cons a t ih =>
    intro v l hv hfind
    rw [List.foldl_cons]
    by_cases ha : hasText a = true
    · rw [List.find?_cons_of_pos _ ha] at hfind
      cases hfind
      have hne : TrimSpace a.Text ≠ [] := by simpa [hasText] using ha
      have hstep : (indeedTitleStep env v a).title = TrimSpace a.Text := by
        simp [indeedTitleStep, hv]
      have hkey : (indeedTitleStep env v a).jobKey
          = (if a.Attr "data-jk".toList = [] then a.Attr "id".toList
             else a.Attr "data-jk".toList) := by
        simp only [indeedTitleStep, hv, if_true]
      rw [foldl_indeedTitleStep_fixed env t _ (by rw [hstep]; exact hne)]
      exact ⟨hstep, by rw [hstep]; exact hne, hkey⟩
    · rw [List.find?_cons_of_neg _ ha] at hfind
      have he : TrimSpace a.Text = [] := by simpa [hasText] using ha
      have hstep : (indeedTitleStep env v a).title = [] := by
        simp [indeedTitleStep, hv, he]
      exact ih _ l hstep hfind

theorem foldl_indeedTitleStep_none (env : Env) :
    ∀ (links : List HTMLElement) (v : TitleVars), v.title = [] →
      links.find? hasText = none →
      (links.foldl (indeedTitleStep env) v).title = [] := by
  intro links
  induction links with
  | nil => intro v hv _; exact hv
  | cons a t ih =>
    intro v hv hfind
    rw [List.foldl_cons]
    by_cases ha : hasText a = true
    · rw [List.find?_cons_of_pos _ ha] at hfind
      cases hfind
    · rw [List.find?_cons_of_neg _ ha] at hfind
      have he : TrimSpace a.Text = [] := by simpa [hasText] using ha
      have hstep : (indeedTitleStep env v a).title = [] := by
        simp [indeedTitleStep, hv, he]
      exact ih _ hstep hfind

/-- The fallback loop stops at the first link with a text: title and job key are
those of that link, the key being its `data-jk`. -/
theorem foldl_indeedFallbackStep_some (env : Env) :
    ∀ (links : List HTMLElement) (v : TitleVars) (l : HTMLElement), v.title = [] →
      links.find? hasText = some l →
      (links.foldl (indeedFallbackStep env) v).title = TrimSpace l.Text ∧
      (links.foldl (indeedFallbackStep env) v).title ≠ [] ∧
      (links.foldl (indeedFallbackStep env) v).jobKey = l.Attr "data-jk".toList := by
  intro links
  induction links with
  | nil => intro v l _ h; simp at h
  | cons a t ih =>
    intro v l hv hfind
    rw [List.foldl_cons]
    by_cases ha : hasText a = true
    · rw [List.find?_cons_of_pos _ ha] at hfind
      cases hfind
      have hne : TrimSpace a.Text ≠ [] := by simpa [hasText] using ha
      have hstep : (indeedFallbackStep env v a).title = TrimSpace a.Text := by
        simp [indeedFallbackStep, hv]
      have hkey : (indeedFallbackStep env v a).jobKey = a.Attr "data-jk".toList := by
        simp only [indeedFallbackStep, hv, if_true]
      rw [foldl_indeedFallbackStep_fixed env t _ (by rw [hstep]; exact hne)]
      exact ⟨hstep, by rw [hstep]; exact hne, hkey⟩
    · rw [List.find?_cons_of_neg _ ha] at hfind
      have he : TrimSpace a.Text = [] := by simpa [hasText] using ha
      have hstep : (indeedFallbackStep env v a).title = [] := by
        simp [indeedFallbackStep, hv, he]
      exact ih _ l hstep hfind

/-- Title and job key of a card of the first strategy come from its title link. -/
theorem indeedTitleVars_of_titleLink (env : Env) (e : IndeedCard) (l : HTMLElement)
    (hl : indeedTitleLink e = some l) :
    (indeedTitleVars env e).title = TrimSpace l.Text ∧
    (indeedTitleVars env e).title ≠ [] ∧
    (indeedTitleVars env e).jobKey
      = (if e.titleLinks.find? hasText = some l ∧ l.Attr "data-jk".toList = [] then
           l.Attr "id".toList
         else l.Attr "data-jk".toList) := by
  unfold indeedTitleLink at hl
  cases hfind : e.titleLinks.find? hasText with
  | some l1 =>
    rw [hfind] at hl
    cases hl
    obtain ⟨h1, h2, h3⟩ := foldl_indeedTitleStep_some env e.titleLinks {} l rfl hfind
    have hv : indeedTitleVars env e = e.titleLinks.foldl (indeedTitleStep env) {} := by
      simp only [indeedTitleVars, h2, if_false]
    rw [hv]
    refine ⟨h1, h2, ?_⟩
    rw [h3]
    by_cases hjk : l.Attr "data-jk".toList = [] <;> simp [hjk]
  | none =>
    rw [hfind] at hl
    have h0 := foldl_indeedTitleStep_none env e.titleLinks {} rfl hfind
    obtain ⟨h1, h2, h3⟩ := foldl_indeedFallbackStep_some env e.fallbackLinks _ l h0 hl
    have hv : indeedTitleVars env e
        = e.fallbackLinks.foldl (indeedFallbackStep env)
            (e.titleLinks.foldl (indeedTitleStep env) {}) := by
      simp only [indeedTitleVars, h0, if_true]
    rw [hv]
    refine ⟨h1, h2, ?_⟩
    rw [h3]
    simp

/-- C6. Source-scoped ID on every record, where the extractors depart from it: the ID
is derived from the text of the job URL, not from the extractor that found the record.
`ScrapeIndeed` on a card whose title link has no key and points to
`https://careers.example.org/job/42` returns a record with source `indeed` whose
ExternalID is that URL, without the prefix `indeed-`; `ScrapeSeek` on a card whose title
link is `/job/80001234?ref=linkedin.com` returns a record with source `seek` whose
ExternalID starts with `linkedin-`. -/
theorem scraped_id_not_source_scoped :
    ((ScrapeIndeed indeedEnv { cards := [cardWithForeignLink], outlines := [] }).map
        (fun job => (job.Source, job.ExternalID))
      = [("indeed".toList, "https://careers.example.org/job/42".toList)] ∧
      ¬ "indeed-".toList <+: "https://careers.example.org/job/42".toList) ∧
    ((ScrapeSeek seekEnv [seekCardWithReferrer]).map (fun job => (job.Source, job.ExternalID))
      = [("seek".toList,
          "linkedin-https://www.seek.com.au/job/80001234?ref=linkedin.com".toList)] ∧
      ¬ "seek-".toList
          <+: "linkedin-https://www.seek.com.au/job/80001234?ref=linkedin.com".toList) := by
  decide

/-- A card of the first strategy with a title and a job URL yields a record, whose ID
is built from the job key when there is one and from the URL otherwise. -/
theorem indeedCard_emits (env : Env) (e : IndeedCard)
    (ht : (indeedTitleVars env e).title ≠ []) (hu : (indeedTitleVars env e).jobURL ≠ []) :
    ∃ job, indeedCard env e = some job ∧ job.URL = (indeedTitleVars env e).jobURL ∧
      job.Title = (indeedTitleVars env e).title ∧
      job.Source = "indeed".toList ∧
      job.ExternalID
        = (if (indeedTitleVars env e).jobKey ≠ [] then
             "indeed-".toList ++ (indeedTitleVars env e).jobKey
           else extractJobID (indeedTitleVars env e).jobURL) := by
  by_cases hk : (indeedTitleVars env e).jobKey = []
  · simp only [indeedCard, ht, hu, hk, ne_eq, not_false_eq_true, and_self, if_true,
      not_true_eq_false, if_false]
    exact ⟨_, rfl, rfl, rfl, rfl, rfl⟩
  · simp only [indeedCard, ht, hu, hk, ne_eq, not_false_eq_true, and_self, if_true]
    exact ⟨_, rfl, rfl, rfl, rfl, rfl⟩

/-- C7. Provider key overrides the URL: for a card of the first strategy of `ScrapeIndeed`
whose title link carries a non-empty `data-jk` attribute `k`, and for which a job URL was
found, a record is emitted and its ExternalID is `indeed-` followed by `k`, whatever the
job URL contains. -/
theorem indeedCard_provider_key_overrides (env : Env) (e : IndeedCard) (l : HTMLElement)
    (k : Str) (hl : indeedTitleLink e = some l) (hk : l.Attr "data-jk".toList = k)
    (hk0 : k ≠ []) (hurl : (indeedTitleVars env e).jobURL ≠ []) :
    ∃ job, indeedCard env e = some job ∧ job.URL = (indeedTitleVars env e).jobURL ∧
      job.ExternalID = "indeed-".toList ++ k := by
  obtain ⟨_, h2, h3⟩ := indeedTitleVars_of_titleLink env e l hl
  have hne : l.Attr "data-jk".toList ≠ [] := by rw [hk]; exact hk0
  have hkey : (indeedTitleVars env e).jobKey = k := by
    rw [h3, if_neg (fun h => hne h.2), hk]
  obtain ⟨job, hjob, hU, _, _, hid⟩ := indeedCard_emits env e h2 hurl
  refine ⟨job, hjob, hU, ?_⟩
  rw [hid, hkey, if_pos hk0]

/-- The provider key of `cardWithDataJk` is `9z8y7x`, while its job URL carries
`jk=1a2b3c`. -/
theorem indeedCard_provider_key_overrides_witness :
    indeedTitleLink cardWithDataJk = some linkWithDataJk ∧
    linkWithDataJk.Attr "data-jk".toList = "9z8y7x".toList ∧
    (indeedTitleVars indeedEnv cardWithDataJk).jobURL
      = "https://au.indeed.com/rc/clk?jk=1a2b3c&from=serp".toList ∧
    ∃ job, indeedCard indeedEnv cardWithDataJk = some job ∧
      job.URL = (indeedTitleVars indeedEnv cardWithDataJk).jobURL ∧
      job.ExternalID = "indeed-".toList ++ "9z8y7x".toList :=
  ⟨by decide, by decide, by decide,
    indeedCard_provider_key_overrides indeedEnv cardWithDataJk linkWithDataJk
      "9z8y7x".toList (by decide) (by decide) (by decide) (by decide)⟩

/-- C8, as stated, fails: the title link of `cardWithIdOnly` has no `data-jk` attribute,
and the record emitted for it has the ExternalID `indeed-job_9z8y7x`, built from the `id`
attribute of the link, while the ID derived from its URL is `indeed-1a2b3c`. -/
theorem indeedCard_id_attribute_counterexample :
    ¬ (∀ (env : Env) (e : IndeedCard) (l : HTMLElement) (job : Job),
        indeedTitleLink e = some l → l.Attr "data-jk".toList = [] →
        indeedCard env e = some job → job.ExternalID = extractJobID job.URL) := by
  intro h
  have hjob : indeedCard indeedEnv cardWithIdOnly
      = some { Source := "indeed".toList,
               URL := "https://au.indeed.com/rc/clk?jk=1a2b3c&from=serp".toList,
               Title := "Senior Go Developer".toList,
               ExternalID := "indeed-job_9z8y7x".toList,
               JobType := "unknown".toList,
               Status := "discovered".toList } := by decide
  have := h indeedEnv cardWithIdOnly linkWithIdOnly _ (by decide) (by decide) hjob
  revert this
  decide

/-- C8, amended.  For a card of the first strategy of `ScrapeIndeed` whose title link has
no (or an empty) `data-jk` attribute, and for which a job URL was found, a record is
emitted; its ExternalID is the URL-derived `extractJobID(URL)` when the link also has no
(or an empty) `id` attribute or is a link of the fallback selector, and it is `indeed-`
followed by the `id` attribute when the link is one of `h2.jobTitle a, a.jcs-JobTitle`
and has a non-empty `id`. -/
theorem indeedCard_url_derived_id (env : Env) (e : IndeedCard) (l : HTMLElement)
    (hl : indeedTitleLink e = some l) (hjk : l.Attr "data-jk".toList = [])
    (hurl : (indeedTitleVars env e).jobURL ≠ []) :
    ∃ job, indeedCard env e = some job ∧
      ((e.titleLinks.find? hasText = some l → l.Attr "id".toList = []) →
        job.ExternalID = extractJobID job.URL) ∧
      (e.titleLinks.find? hasText = some l → l.Attr "id".toList ≠ [] →
        job.ExternalID = "indeed-".toList ++ l.Attr "id".toList) := by
  obtain ⟨_, h2, h3⟩ := indeedTitleVars_of_titleLink env e l hl
  obtain ⟨job, hjob, hU, _, _, hid⟩ := indeedCard_emits env e h2 hurl
  refine ⟨job, hjob, ?_, ?_⟩
  · intro hnoid
    have hkey : (indeedTitleVars env e).jobKey = [] := by
      rw [h3]
      by_cases hfirst : e.titleLinks.find? hasText = some l
      · rw [if_pos ⟨hfirst, hjk⟩]; exact hnoid hfirst
      · rw [if_neg (fun h => hfirst h.1)]; exact hjk
    rw [hid, hU, hkey]
    simp
  · intro hfirst hidne
    have hkey : (indeedTitleVars env e).jobKey = l.Attr "id".toList := by
      rw [h3, if_pos ⟨hfirst, hjk⟩]
    rw [hid, hkey, if_pos hidne]

/-- The amended C8 at `cardWithoutKey`, whose title link has neither `data-jk` nor `id`:
the record carries the ID derived from its URL. -/
theorem indeedCard_url_derived_id_witness :
    indeedTitleLink cardWithoutKey = some linkWithoutKey ∧
    linkWithoutKey.Attr "data-jk".toList = [] ∧
    (indeedTitleVars indeedEnv cardWithoutKey).jobURL ≠ [] ∧
    ∃ job, indeedCard indeedEnv cardWithoutKey = some job ∧
      ((cardWithoutKey.titleLinks.find? hasText = some linkWithoutKey →
          linkWithoutKey.Attr "id".toList = []) →
        job.ExternalID = extractJobID job.URL) ∧
      (cardWithoutKey.titleLinks.find? hasText = some linkWithoutKey →
        linkWithoutKey.Attr "id".toList ≠ [] →
        job.ExternalID = "indeed-".toList ++ linkWithoutKey.Attr "id".toList) :=
  ⟨by decide, by decide, by decide,
    indeedCard_url_derived_id indeedEnv cardWithoutKey linkWithoutKey
      (by decide) (by decide) (by decide)⟩

/-! ## `DetectJobType`: the example of a permanent role, and letter case -/

/-- A block found in a concatenation lies in the first part, or in the second, or
straddles the seam: a proper beginning of it ends the first part and the rest
begins the second. -/
theorem infix_append_split {α : Type} (kw A B : List α) (h : kw <:+: A ++ B) :
    kw <:+: A ∨ kw <:+: B ∨
      ∃ k, 0 < k ∧ k < kw.length ∧ kw.take k <:+ A ∧ kw.drop k <+: B := by
  obtain ⟨s, t, hst⟩ := h
  rcases List.append_eq_append_iff.mp hst with ⟨a', hA, _⟩ | ⟨c', hc, hB⟩
  · exact Or.inl ⟨s, a', hA.symm⟩
  · rcases List.append_eq_append_iff.mp hc with ⟨a', hA, hkw⟩ | ⟨c'', _, hc'⟩
    · by_cases ha : a' = []
      · subst ha
        simp only [List.nil_append] at hkw
        subst hkw
        exact Or.inr (Or.inl ⟨[], t, by simp [hB]⟩)
      · by_cases hcn : c' = []
        · subst hcn
          simp only [List.append_nil] at hkw
          subst hkw
          exact Or.inl ⟨s, [], by simp [hA]⟩
        · refine Or.inr (Or.inr ⟨a'.length, List.length_pos.mpr ha, ?_, ?_, ?_⟩)
          · rw [hkw, List.length_append]
            have := List.length_pos.mpr hcn
            omega
          · rw [hkw, List.take_left]
            exact ⟨s, hA.symm⟩
          · rw [hkw, List.drop_left]
            exact ⟨t, hB.symm⟩
    · exact Or.inr (Or.inl ⟨c'', t, by rw [hB, hc']⟩)

/-- The lower-case form of `Senior Engineer`, a space, `$150,000 per annum` and a
space, whatever the Unicode table. -/
theorem seniorEngineer_text (table : Char → Char) :
    ToLower table "Senior Engineer".toList ++ " ".toList
        ++ ToLower table "$150,000 per annum".toList ++ " ".toList
      = "senior engineer $150,000 per annum ".toList := by
  rfl

/-- C11, as stated, fails: with the URL `https://www.seek.com.au/job/80001234?type=contract`
the spec example `Senior Engineer`, `$150,000 per annum` is classified `contract`, because the
URL is part of the text that is searched. -/
theorem DetectJobType_seniorEngineer_counterexample :
    ¬ (∀ (table : Char → Char) (url : Str),
        DetectJobType table "Senior Engineer".toList "$150,000 per annum".toList url
          = "permanent".toList) := by
  intro h
  have := h id "https://www.seek.com.au/job/80001234?type=contract".toList
  revert this
  decide

/-- C11, amended.  `DetectJobType("Senior Engineer", "$150,000 per annum", url)` returns
`permanent` for every url whose lower-case form contains no contract keyword; this is the
case for `https://www.seek.com.au/job/80001234`. -/
theorem DetectJobType_seniorEngineer (table : Char → Char) (url : Str)
    (hurl : ∀ kw, kw ∈ ["contract".toList, "contractor".toList, "freelance".toList,
        "hourly".toList, "/hr".toList, "per hour".toList, "/day".toList, "per day".toList,
        "daily rate".toList, "day rate".toList, "temp".toList, "temporary".toList,
        "fixed term".toList, "ftc".toList] → ¬ kw <:+: ToLower table url) :
    DetectJobType table "Senior Engineer".toList "$150,000 per annum".toList url
      = "permanent".toList := by
  rw [DetectJobType_permanent_iff, combinedText_eq, seniorEngineer_text]
  constructor
  · rintro ⟨kw, hkw, hin⟩
    have hA : ∀ kw, kw ∈ contractKeywords →
        ¬ kw <:+: "senior engineer $150,000 per annum ".toList := by decide
    have hS : ∀ kw, kw ∈ contractKeywords → ∀ k, k < kw.length → 0 < k →
        ¬ kw.take k <:+ "senior engineer $150,000 per annum ".toList := by decide
    rcases infix_append_split _ _ _ hin with h | h | ⟨k, hk0, hk, hsuf, _⟩
    · exact hA kw hkw h
    · exact hurl kw hkw h
    · exact hS kw hkw k hk hk0 hsuf
  · refine ⟨"per annum".toList, by decide, ?_⟩
    have hA : "per annum".toList <:+: "senior engineer $150,000 per annum ".toList := by decide
    obtain ⟨a, b, hab⟩ := hA
    exact ⟨a, b ++ ToLower table url, by rw [← hab]; simp only [List.append_assoc]⟩

/-- The amended C11 at the URL `https://www.seek.com.au/job/80001234`. -/
theorem DetectJobType_seniorEngineer_witness :
    (∀ kw, kw ∈ ["contract".toList, "contractor".toList, "freelance".toList,
        "hourly".toList, "/hr".toList, "per hour".toList, "/day".toList, "per day".toList,
        "daily rate".toList, "day rate".toList, "temp".toList, "temporary".toList,
        "fixed term".toList, "ftc".toList] →
      ¬ kw <:+: ToLower id "https://www.seek.com.au/job/80001234".toList) ∧
    DetectJobType id "Senior Engineer".toList "$150,000 per annum".toList
      "https://www.seek.com.au/job/80001234".toList = "permanent".toList :=
  ⟨by decide, DetectJobType_seniorEngineer id _ (by decide)⟩

theorem ascii_case_facts :
    ∀ n, n < 128 →
      toLowerRune id (toUpperRune id (Char.ofNat n)) = toLowerRune id (Char.ofNat n) ∧
      toLowerRune id (toLowerRune id (Char.ofNat n)) = toLowerRune id (Char.ofNat n) ∧
      (toUpperRune id (Char.ofNat n)).toNat ≤ 0x7F ∧
      (toLowerRune id (Char.ofNat n)).toNat ≤ 0x7F := by
  decide

theorem toLowerRune_of_ascii (table : Char → Char) (c : Char) (h : c.toNat ≤ 0x7F) :
    toLowerRune table c = toLowerRune id c := by
  simp only [toLowerRune, h, if_true]

theorem toUpperRune_of_ascii (table : Char → Char) (c : Char) (h : c.toNat ≤ 0x7F) :
    toUpperRune table c = toUpperRune id c := by
  simp only [toUpperRune, h, if_true]

/-- On an ASCII character, lower-casing undoes upper-casing and is idempotent. -/
theorem toLowerRune_case_forms (upper lower table : Char → Char) (c : Char)
    (h : c.toNat ≤ 0x7F) :
    toLowerRune table (toUpperRune upper c) = toLowerRune table c ∧
    toLowerRune table (toLowerRune lower c) = toLowerRune table c := by
  have hc : Char.ofNat c.toNat = c := Char.ofNat_toNat c
  obtain ⟨h1, h2, h3, h4⟩ := ascii_case_facts c.toNat (by omega)
  rw [hc] at h1 h2 h3 h4
  constructor
  · rw [toUpperRune_of_ascii upper c h, toLowerRune_of_ascii table _ h3,
      toLowerRune_of_ascii table c h]
    exact h1
  · rw [toLowerRune_of_ascii lower c h, toLowerRune_of_ascii table _ h4,
      toLowerRune_of_ascii table c h]
    exact h2

/-- The lower-case form of an ASCII string does not depend on the letter case the string
comes in. -/
theorem ToLower_caseForms (upper lower table : Char → Char) (x x' : Str)
    (hx : isASCII x = true) (hx' : x' ∈ caseForms upper lower x) :
    ToLower table x' = ToLower table x := by
  have hall : ∀ c, c ∈ x → c.toNat ≤ 0x7F := by
    intro c hc
    have := List.all_eq_true.mp hx c hc
    exact of_decide_eq_true this
  simp only [caseForms, List.mem_cons, List.mem_singleton, List.not_mem_nil, or_false] at hx'
  rcases hx' with rfl | rfl | rfl
  · rfl
  · simp only [ToLower, ToUpper, List.map_map]
    exact List.map_congr_left (fun c hc => (toLowerRune_case_forms upper lower table c (hall c hc)).1)
  · simp only [ToLower, List.map_map]
    exact List.map_congr_left (fun c hc => (toLowerRune_case_forms upper lower table c (hall c hc)).2)

/-- C12. `DetectJobType` is case-insensitive: for a title, salary text and URL made of ASCII
characters, replacing any of the three by its upper-case or its lower-case form does not
change the result. -/
theorem DetectJobType_case_insensitive (upper lower table : Char → Char)
    (title salary url title' salary' url' : Str)
    (hT : isASCII title = true) (hS : isASCII salary = true) (hU : isASCII url = true)
    (ht : title' ∈ caseForms upper lower title) (hs : salary' ∈ caseForms upper lower salary)
    (hu : url' ∈ caseForms upper lower url) :
    DetectJobType table title' salary' url' = DetectJobType table title salary url := by
  simp only [DetectJobType, combinedText_eq,
    ToLower_caseForms upper lower table title title' hT ht,
    ToLower_caseForms upper lower table salary salary' hS hs,
    ToLower_caseForms upper lower table url url' hU hu]

/-- Case-insensitivity at `Contract Developer`, `$900 per day`: the title in upper case and
the salary text in lower case are classified like the original. -/
theorem DetectJobType_case_insensitive_witness :
    isASCII "Contract Developer".toList = true ∧
    isASCII "$900 Per Day".toList = true ∧
    isASCII "https://www.seek.com.au/job/80001234".toList = true ∧
    ToUpper id "Contract Developer".toList = "CONTRACT DEVELOPER".toList ∧
    ToLower id "$900 Per Day".toList = "$900 per day".toList ∧
    DetectJobType id "CONTRACT DEVELOPER".toList "$900 per day".toList
        "https://www.seek.com.au/job/80001234".toList
      = DetectJobType id "Contract Developer".toList "$900 Per Day".toList
        "https://www.seek.com.au/job/80001234".toList :=
  ⟨by decide, by decide, by decide, by decide, by decide,
    DetectJobType_case_insensitive id id id "Contract Developer".toList "$900 Per Day".toList
      "https://www.seek.com.au/job/80001234".toList "CONTRACT DEVELOPER".toList
      "$900 per day".toList "https://www.seek.com.au/job/80001234".toList
      (by decide) (by decide) (by decide) (by decide) (by decide) (by decide)⟩

/-! ## The required-field gate of the extractors -/

theorem seekCard_eq_some_iff (env : Env) (e : SeekCard) (job : Job) :
    seekCard env e = some job ↔
      (firstText e.titleLinks ≠ [] ∧ seekJobURL env e.titleLinks ≠ []) ∧
      job = { Source := "seek".toList, URL := seekJobURL env e.titleLinks,
              Title := firstText e.titleLinks, Company := seekCompany e.links,
              Location := seekLocation e.links, Salary := seekSalary e.spans,
              Status := "discovered".toList,
              ExternalID := extractJobID (seekJobURL env e.titleLinks),
              JobType := DetectJobType env.lowerTable (firstText e.titleLinks)
                (seekSalary e.spans) (seekJobURL env e.titleLinks) } := by
  unfold seekCard
  simp only
  split
  · rename_i h
    simp only [Option.some.injEq, h, true_and, ne_eq, not_false_eq_true, and_self]
    exact eq_comm
  · rename_i h
    simp only [h, false_and, iff_false]
    exact fun h' => nomatch h'

theorem linkedInJob_eq_some_iff (env : Env) (jobURL title company location : Str) (job : Job) :
    linkedInJob env jobURL title company location = some job ↔
      (title ≠ [] ∧ jobURL ≠ []) ∧
      job = { Source := "linkedin".toList, URL := jobURL, Title := title, Company := company,
              Location := location, Status := "discovered".toList,
              ExternalID := extractJobID jobURL,
              JobType := DetectJobType env.lowerTable title [] jobURL } := by
  unfold linkedInJob
  split
  · rename_i h
    simp only [Option.some.injEq, h, true_and, ne_eq, not_false_eq_true, and_self]
    exact eq_comm
  · rename_i h
    simp only [h, false_and, iff_false]
    exact fun h' => nomatch h'

theorem indeedCard_eq_some_iff (env : Env) (e : IndeedCard) (job : Job) :
    indeedCard env e = some job ↔
      ((indeedTitleVars env e).title ≠ [] ∧ (indeedTitleVars env e).jobURL ≠ []) ∧
      job = { Source := "indeed".toList, URL := (indeedTitleVars env e).jobURL,
              Title := (indeedTitleVars env e).title, Company := firstText e.companies,
              Location := firstText e.locations, Salary := firstText e.salaries,
              Status := "discovered".toList,
              ExternalID :=
                if (indeedTitleVars env e).jobKey ≠ [] then
                  "indeed-".toList ++ (indeedTitleVars env e).jobKey
                else extractJobID (indeedTitleVars env e).jobURL,
              JobType := DetectJobType env.lowerTable (indeedTitleVars env e).title
                (firstText e.salaries) (indeedTitleVars env e).jobURL } := by
  unfold indeedCard
  simp only
  split
  · rename_i h
    simp only [Option.some.injEq, h, true_and, ne_eq, not_false_eq_true, and_self]
    by_cases hk : (indeedTitleVars env e).jobKey = []
    · simp only [hk, not_true_eq_false, if_false]
      exact eq_comm
    · simp only [hk, not_false_eq_true, if_true]
      exact eq_comm
  · rename_i h
    simp only [h, false_and, iff_false]
    exact fun h' => nomatch h'

theorem indeedOutline_eq_some_iff (env : Env) (e : IndeedOutline) (job : Job) :
    indeedOutline env e = some job ↔
      (indeedOutlineTitle e.titleSpans ≠ [] ∧ indeedOutlineJobURL env e.links ≠ []) ∧
      job = { Source := "indeed".toList, URL := indeedOutlineJobURL env e.links,
              Title := indeedOutlineTitle e.titleSpans, Company := firstText e.companies,
              Location := firstText e.locations, Salary := firstText e.salaries,
              Status := "discovered".toList,
              ExternalID := extractJobID (indeedOutlineJobURL env e.links),
              JobType := DetectJobType env.lowerTable (indeedOutlineTitle e.titleSpans)
                (firstText e.salaries) (indeedOutlineJobURL env e.links) } := by
  unfold indeedOutline
  simp only
  split
  · rename_i h
    simp only [Option.some.injEq, h, true_and, ne_eq, not_false_eq_true, and_self]
    exact eq_comm
  · rename_i h
    simp only [h, false_and, iff_false]
    exact fun h' => nomatch h'

theorem option_gate {o : Option Job} {P : Prop} {j0 : Job}
    (h : ∀ job, o = some job ↔ P ∧ job = j0) :
    ((∃ job, o = some job ∧ job.Title = j0.Title ∧ job.URL = j0.URL) ↔ P) ∧
    (o = none ↔ ¬ P) := by
  refine ⟨⟨?_, ?_⟩, ⟨?_, ?_⟩⟩
  · rintro ⟨job, hj, _⟩
    exact ((h job).mp hj).1
  · intro hP
    exact ⟨j0, (h j0).mpr ⟨hP, rfl⟩, rfl, rfl⟩
  · intro ho hP
    have := (h j0).mpr ⟨hP, rfl⟩
    rw [ho] at this
    cases this
  · intro hP
    cases ho : o with
    | none => rfl
    | some j => exact absurd ((h j).mp ho).1 hP

/-- A list of handler results, each card contributing its record or nothing. -/
theorem filterMap_eq_flatten_toList {α : Type} (f : α → Option Job) :
    ∀ l : List α, l.filterMap f = (l.map (fun x => (f x).toList)).flatten := by
  intro l
  induction l with
  | nil => rfl
  | cons a t ih =>
    cases h : f a with
    | none => simp [List.filterMap_cons, h, ih]
    | some j => simp [List.filterMap_cons, h, ih]

theorem filterMap_length_gate {α : Type} (f : α → Option Job) (gate : α → Prop)
    [DecidablePred gate] (h : ∀ x, f x = none ↔ ¬ gate x) (l : List α) :
    (l.filterMap f).length = l.countP (fun x => decide (gate x)) := by
  rw [List.length_filterMap_eq_countP]
  apply List.countP_congr
  intro x _
  cases hx : f x with
  | none => simpa using (h x).mp hx
  | some j =>
    have : gate x := by
      by_contra hc
      rw [(h x).mpr hc] at hx
      cases hx
    simpa using this

theorem filterMap_member_gate {α : Type} (f : α → Option Job) (gate : α → Prop)
    (T U : α → Str)
    (h : ∀ x, (∃ job, f x = some job ∧ job.Title = T x ∧ job.URL = U x) ↔ gate x)
    (l : List α) (x : α) (hx : x ∈ l) (hg : gate x) :
    ∃ job, job ∈ l.filterMap f ∧ job.Title = T x ∧ job.URL = U x := by
  obtain ⟨job, hjob, hT, hU⟩ := (h x).mpr hg
  exact ⟨job, List.mem_filterMap.mpr ⟨x, hx, hjob⟩, hT, hU⟩

/-- C13. Required-field gate: each of the five card handlers (SEEK, LinkedIn strategies 1
and 2, Indeed strategies 1 and 2) appends a record if and only if the extracted title and the
extracted job URL are both non-empty, whatever the company, location and salary are; the
record carries that title and that URL, and every record returned by `ScrapeSeek`,
`ScrapeLinkedIn` or `ScrapeIndeed` has a non-empty Title and a non-empty URL.  The result
of each of the three functions is made of the records of its cards, in the order the
callbacks run, one for every card whose title and URL are both non-empty and none for the
other cards: it has as many records as there are such cards, and it holds a record with
the title and the URL of each of them. -/
theorem required_field_gate (env : Env) :
    (∀ e : SeekCard, (∃ job, seekCard env e = some job ∧ job.Title = firstText e.titleLinks ∧
        job.URL = seekJobURL env e.titleLinks)
      ↔ firstText e.titleLinks ≠ [] ∧ seekJobURL env e.titleLinks ≠ []) ∧
    (∀ e : LinkedInCard, (∃ job, linkedInCard env e = some job ∧ job.Title = firstText e.titles ∧
        job.URL = linkedInJobURL env e.fullLinks)
      ↔ firstText e.titles ≠ [] ∧ linkedInJobURL env e.fullLinks ≠ []) ∧
    (∀ c : LinkedInSearchCard, (∃ job, linkedInSearchCard env c = some job ∧
        job.Title = firstText c.h3s ∧ job.URL = linkedInSearchJobURL env c.links)
      ↔ firstText c.h3s ≠ [] ∧ linkedInSearchJobURL env c.links ≠ []) ∧
    (∀ e : IndeedCard, (∃ job, indeedCard env e = some job ∧
        job.Title = (indeedTitleVars env e).title ∧ job.URL = (indeedTitleVars env e).jobURL)
      ↔ (indeedTitleVars env e).title ≠ [] ∧ (indeedTitleVars env e).jobURL ≠ []) ∧
    (∀ e : IndeedOutline, (∃ job, indeedOutline env e = some job ∧
        job.Title = indeedOutlineTitle e.titleSpans ∧ job.URL = indeedOutlineJobURL env e.links)
      ↔ indeedOutlineTitle e.titleSpans ≠ [] ∧ indeedOutlineJobURL env e.links ≠ []) ∧
    (∀ (e : SeekCard), seekCard env e = none
      ↔ ¬ (firstText e.titleLinks ≠ [] ∧ seekJobURL env e.titleLinks ≠ [])) ∧
    (∀ (e : LinkedInCard), linkedInCard env e = none
      ↔ ¬ (firstText e.titles ≠ [] ∧ linkedInJobURL env e.fullLinks ≠ [])) ∧
    (∀ (c : LinkedInSearchCard), linkedInSearchCard env c = none
      ↔ ¬ (firstText c.h3s ≠ [] ∧ linkedInSearchJobURL env c.links ≠ [])) ∧
    (∀ (e : IndeedCard), indeedCard env e = none
      ↔ ¬ ((indeedTitleVars env e).title ≠ [] ∧ (indeedTitleVars env e).jobURL ≠ [])) ∧
    (∀ (e : IndeedOutline), indeedOutline env e = none
      ↔ ¬ (indeedOutlineTitle e.titleSpans ≠ [] ∧ indeedOutlineJobURL env e.links ≠ [])) ∧
    (∀ (cards : List SeekCard) (job : Job), job ∈ ScrapeSeek env cards →
      job.Title ≠ [] ∧ job.URL ≠ []) ∧
    (∀ (page : LinkedInPage) (job : Job), job ∈ ScrapeLinkedIn env page →
      job.Title ≠ [] ∧ job.URL ≠ []) ∧
    (∀ (page : IndeedPage) (job : Job), job ∈ ScrapeIndeed env page →
      job.Title ≠ [] ∧ job.URL ≠ []) ∧
    (∀ cards : List SeekCard,
      ScrapeSeek env cards = (cards.map (fun e => (seekCard env e).toList)).flatten ∧
      (ScrapeSeek env cards).length
        = cards.countP (fun e =>
            decide (firstText e.titleLinks ≠ [] ∧ seekJobURL env e.titleLinks ≠ [])) ∧
      ∀ e, e ∈ cards → firstText e.titleLinks ≠ [] ∧ seekJobURL env e.titleLinks ≠ [] →
        ∃ job, job ∈ ScrapeSeek env cards ∧ job.Title = firstText e.titleLinks ∧
          job.URL = seekJobURL env e.titleLinks) ∧
    (∀ page : LinkedInPage,
      ScrapeLinkedIn env page
        = (page.baseCards.map (fun e => (linkedInCard env e).toList)).flatten
          ++ (page.resultLists.map (fun cards =>
                (cards.map (fun c => (linkedInSearchCard env c).toList)).flatten)).flatten ∧
      (ScrapeLinkedIn env page).length
        = page.baseCards.countP (fun e =>
            decide (firstText e.titles ≠ [] ∧ linkedInJobURL env e.fullLinks ≠ []))
          + (page.resultLists.map (fun cards => cards.countP (fun c =>
              decide (firstText c.h3s ≠ [] ∧ linkedInSearchJobURL env c.links ≠ [])))).sum ∧
      (∀ e, e ∈ page.baseCards →
        firstText e.titles ≠ [] ∧ linkedInJobURL env e.fullLinks ≠ [] →
        ∃ job, job ∈ ScrapeLinkedIn env page ∧ job.Title = firstText e.titles ∧
          job.URL = linkedInJobURL env e.fullLinks) ∧
      (∀ cards c, cards ∈ page.resultLists → c ∈ cards →
        firstText c.h3s ≠ [] ∧ linkedInSearchJobURL env c.links ≠ [] →
        ∃ job, job ∈ ScrapeLinkedIn env page ∧ job.Title = firstText c.h3s ∧
          job.URL = linkedInSearchJobURL env c.links)) ∧
    (∀ page : IndeedPage,
      ScrapeIndeed env page
        = (page.cards.map (fun e => (indeedCard env e).toList)).flatten
          ++ (page.outlines.map (fun e => (indeedOutline env e).toList)).flatten ∧
      (ScrapeIndeed env page).length
        = page.cards.countP (fun e =>
            decide ((indeedTitleVars env e).title ≠ [] ∧ (indeedTitleVars env e).jobURL ≠ []))
          + page.outlines.countP (fun e =>
            decide (indeedOutlineTitle e.titleSpans ≠ [] ∧
              indeedOutlineJobURL env e.links ≠ [])) ∧
      (∀ e, e ∈ page.cards →
        (indeedTitleVars env e).title ≠ [] ∧ (indeedTitleVars env e).jobURL ≠ [] →
        ∃ job, job ∈ ScrapeIndeed env page ∧ job.Title = (indeedTitleVars env e).title ∧
          job.URL = (indeedTitleVars env e).jobURL) ∧
      (∀ e, e ∈ page.outlines →
        indeedOutlineTitle e.titleSpans ≠ [] ∧ indeedOutlineJobURL env e.links ≠ [] →
        ∃ job, job ∈ ScrapeIndeed env page ∧ job.Title = indeedOutlineTitle e.titleSpans ∧
          job.URL = indeedOutlineJobURL env e.links)) := by
  have gSeek := fun e => option_gate (seekCard_eq_some_iff env e)
  have gLinked := fun e : LinkedInCard => option_gate
    (linkedInJob_eq_some_iff env (linkedInJobURL env e.fullLinks) (firstText e.titles)
      (firstText e.subtitles) (firstText e.locations))
  have gSearch := fun c : LinkedInSearchCard => option_gate
    (linkedInJob_eq_some_iff env (linkedInSearchJobURL env c.links) (firstText c.h3s)
      (firstText c.h4s) (firstText c.locations))
  have gCard := fun e => option_gate (indeedCard_eq_some_iff env e)
  have gOutline := fun e => option_gate (indeedOutline_eq_some_iff env e)
  refine ⟨fun e => (option_gate (seekCard_eq_some_iff env e)).1,
    fun e => (option_gate (linkedInJob_eq_some_iff env _ _ _ _)).1,
    fun c => (option_gate (linkedInJob_eq_some_iff env _ _ _ _)).1,
    fun e => (option_gate (indeedCard_eq_some_iff env e)).1,
    fun e => (option_gate (indeedOutline_eq_some_iff env e)).1,
    fun e => (option_gate (seekCard_eq_some_iff env e)).2,
    fun e => (option_gate (linkedInJob_eq_some_iff env _ _ _ _)).2,
    fun c => (option_gate (linkedInJob_eq_some_iff env _ _ _ _)).2,
    fun e => (option_gate (indeedCard_eq_some_iff env e)).2,
    fun e => (option_gate (indeedOutline_eq_some_iff env e)).2, ?_, ?_, ?_, ?_, ?_, ?_⟩
  · intro cards job hjob
    obtain ⟨e, _, he⟩ := List.mem_filterMap.mp hjob
    obtain ⟨hP, rfl⟩ := (seekCard_eq_some_iff env e job).mp he
    exact hP
  · intro page job hjob
    rcases List.mem_append.mp hjob with h | h
    · obtain ⟨e, _, he⟩ := List.mem_filterMap.mp h
      obtain ⟨hP, rfl⟩ := (linkedInJob_eq_some_iff env _ _ _ _ job).mp he
      exact hP
    · obtain ⟨l, hl, hjl⟩ := List.mem_flatten.mp h
      obtain ⟨cards, _, rfl⟩ := List.mem_map.mp hl
      obtain ⟨c, _, hc⟩ := List.mem_filterMap.mp hjl
      obtain ⟨hP, rfl⟩ := (linkedInJob_eq_some_iff env _ _ _ _ job).mp hc
      exact hP
  · intro page job hjob
    rcases List.mem_append.mp hjob with h | h
    · obtain ⟨e, _, he⟩ := List.mem_filterMap.mp h
      obtain ⟨hP, rfl⟩ := (indeedCard_eq_some_iff env e job).mp he
      exact hP
    · obtain ⟨e, _, he⟩ := List.mem_filterMap.mp h
      obtain ⟨hP, rfl⟩ := (indeedOutline_eq_some_iff env e job).mp he
      exact hP
  · intro cards
    refine ⟨filterMap_eq_flatten_toList _ cards,
      filterMap_length_gate _ _ (fun e => (gSeek e).2) cards, ?_⟩
    intro e he hg
    exact filterMap_member_gate (seekCard env) _ _ _ (fun e => (gSeek e).1) cards e he hg
  · intro page
    refine ⟨?_, ?_, ?_, ?_⟩
    · show page.baseCards.filterMap (linkedInCard env)
          ++ (page.resultLists.map
              (fun cards => cards.filterMap (linkedInSearchCard env))).flatten = _
      rw [filterMap_eq_flatten_toList]
      congr 2
      apply List.map_congr_left
      intro cards _
      exact filterMap_eq_flatten_toList _ cards
    · show (page.baseCards.filterMap (linkedInCard env)
          ++ (page.resultLists.map
              (fun cards => cards.filterMap (linkedInSearchCard env))).flatten).length = _
      rw [List.length_append, List.length_flatten, List.map_map,
        filterMap_length_gate (linkedInCard env) _ (fun e => (gLinked e).2)]
      congr 2
      apply List.map_congr_left
      intro cards _
      exact filterMap_length_gate (linkedInSearchCard env) _ (fun c => (gSearch c).2) cards
    · intro e he hg
      obtain ⟨job, hjob, hT, hU⟩ := filterMap_member_gate (linkedInCard env) _ _ _
        (fun e => (gLinked e).1) page.baseCards e he hg
      exact ⟨job, List.mem_append_left _ hjob, hT, hU⟩
    · intro cards c hcards hc hg
      obtain ⟨job, hjob, hT, hU⟩ := filterMap_member_gate (linkedInSearchCard env) _ _ _
        (fun c => (gSearch c).1) cards c hc hg
      refine ⟨job, List.mem_append_right _ ?_, hT, hU⟩
      exact List.mem_flatten.mpr ⟨_, List.mem_map.mpr ⟨cards, hcards, rfl⟩, hjob⟩
  · intro page
    refine ⟨?_, ?_, ?_, ?_⟩
    · show page.cards.filterMap (indeedCard env)
          ++ page.outlines.filterMap (indeedOutline env) = _
      rw [filterMap_eq_flatten_toList, filterMap_eq_flatten_toList]
    · show (page.cards.filterMap (indeedCard env)
          ++ page.outlines.filterMap (indeedOutline env)).length = _
      rw [List.length_append,
        filterMap_length_gate (indeedCard env) _ (fun e => (gCard e).2),
        filterMap_length_gate (indeedOutline env) _ (fun e => (gOutline e).2)]
    · intro e he hg
      obtain ⟨job, hjob, hT, hU⟩ := filterMap_member_gate (indeedCard env) _ _ _
        (fun e => (gCard e).1) page.cards e he hg
      exact ⟨job, List.mem_append_left _ hjob, hT, hU⟩
    · intro e he hg
      obtain ⟨job, hjob, hT, hU⟩ := filterMap_member_gate (indeedOutline env) _ _ _
        (fun e => (gOutline e).1) page.outlines e he hg
      exact ⟨job, List.mem_append_right _ hjob, hT, hU⟩

/-! ## `SaveJobs` -/

/-- One pass of the loop of `SaveJobs` either leaves the table as it is, or appends the
stored form of the record; it appends exactly when the lookup reports "not found" and
neither the lookup nor the insert fails. -/
theorem saveOne_cases (faults : Faults) (userID i : Nat) (job : Job) (rows : List Job) :
    (saveOne faults userID i job rows = (rows, { job with UserID := userID }) ∧
      ¬ (faults.lookupFails i = false ∧ firstRow rows job.ExternalID userID = none ∧
          faults.insertFails i = false)) ∨
    (saveOne faults userID i job rows
        = (rows ++ [storedForm rows job userID], storedForm rows job userID) ∧
      faults.lookupFails i = false ∧ firstRow rows job.ExternalID userID = none ∧
        faults.insertFails i = false) := by
  unfold saveOne lookup storedForm
  cases h1 : faults.lookupFails i <;> cases h2 : firstRow rows job.ExternalID userID <;>
    cases h3 : faults.insertFails i <;> simp [h2]

theorem firstRow_eq_none_iff (rows : List Job) (e : Str) (u : Nat) :
    firstRow rows e u = none ↔ ∀ r, r ∈ rows → ¬ (r.ExternalID = e ∧ r.UserID = u) := by
  simp [firstRow, List.find?_eq_none]

theorem firstRow_isSome_iff (rows : List Job) (e : Str) (u : Nat) :
    (firstRow rows e u).isSome = true ↔ ∃ r, r ∈ rows ∧ r.ExternalID = e ∧ r.UserID = u := by
  constructor
  · intro h
    by_contra hc
    have := (firstRow_eq_none_iff rows e u).mpr (fun r hr hk => hc ⟨r, hr, hk⟩)
    rw [this] at h
    cases h
  · rintro ⟨r, hr, hk⟩
    cases hf : firstRow rows e u with
    | some _ => rfl
    | none => exact absurd hk ((firstRow_eq_none_iff rows e u).mp hf r hr)

theorem storedForm_key (rows : List Job) (job : Job) (u : Nat) :
    (storedForm rows job u).ExternalID = job.ExternalID ∧ (storedForm rows job u).UserID = u := by
  exact ⟨rfl, rfl⟩

/-- The table only grows, at its end. -/
theorem saveLoop_grows (faults : Faults) (userID : Nat) :
    ∀ (jobs : List Job) (i : Nat) (rows : List Job),
      rows <+: (saveLoop faults userID i jobs rows).1 := by
  intro jobs
  induction jobs with
  | nil => intro i rows; exact List.prefix_refl rows
  | cons job rest ih =>
    intro i rows
    simp only [saveLoop]
    rcases saveOne_cases faults userID i job rows with ⟨h, _⟩ | ⟨h, _⟩
    · rw [h]; exact ih _ _
    · rw [h]
      exact (List.prefix_append rows _).trans (ih _ _)

/-- A batch processed in two parts. -/
theorem saveLoop_append (faults : Faults) (userID : Nat) :
    ∀ (a b : List Job) (i : Nat) (rows : List Job),
      saveLoop faults userID i (a ++ b) rows
        = ((saveLoop faults userID (i + a.length) b (saveLoop faults userID i a rows).1).1,
           (saveLoop faults userID i a rows).2
             ++ (saveLoop faults userID (i + a.length) b (saveLoop faults userID i a rows).1).2) := by
  intro a
  induction a with
  | nil => intro b i rows; simp [saveLoop]
  | cons job rest ih =>
    intro b i rows
    have hlen : i + (job :: rest).length = i + 1 + rest.length := by
      simp only [List.length_cons]; omega
    rw [List.cons_append, hlen]
    simp only [saveLoop]
    rw [ih]
    rfl

/-- The check-then-insert of the loop keeps the pairs (ExternalID, UserID) distinct. -/
theorem saveLoop_nodup (faults : Faults) (userID : Nat) :
    ∀ (jobs : List Job) (i : Nat) (rows : List Job), (rows.map Job.key).Nodup →
      ((saveLoop faults userID i jobs rows).1.map Job.key).Nodup := by
  intro jobs
  induction jobs with
  | nil => intro i rows h; exact h
  | cons job rest ih =>
    intro i rows hnd
    simp only [saveLoop]
    rcases saveOne_cases faults userID i job rows with ⟨h, _⟩ | ⟨h, _, hnone, _⟩
    · rw [h]; exact ih _ _ hnd
    · rw [h]
      apply ih
      rw [List.map_append, List.nodup_append]
      refine ⟨hnd, List.nodup_singleton _, ?_⟩
      intro k hk hk'
      simp only [List.map_cons, List.map_nil, List.mem_singleton] at hk'
      obtain ⟨r, hr, hrk⟩ := List.mem_map.mp hk
      have hno := (firstRow_eq_none_iff rows job.ExternalID userID).mp hnone r hr
      apply hno
      rw [hk'] at hrk
      have h1 := congrArg Prod.fst hrk
      have h2 := congrArg Prod.snd hrk
      exact ⟨h1, h2⟩

/-- When every record of the batch already has its pair in the table, nothing is
inserted. -/
theorem saveLoop_all_present (faults : Faults) (userID : Nat) :
    ∀ (jobs : List Job) (i : Nat) (rows : List Job),
      (∀ job, job ∈ jobs → (firstRow rows job.ExternalID userID).isSome = true) →
      (saveLoop faults userID i jobs rows).1 = rows := by
  intro jobs
  induction jobs with
  | nil => intro i rows _; rfl
  | cons job rest ih =>
    intro i rows hall
    simp only [saveLoop]
    rcases saveOne_cases faults userID i job rows with ⟨h, _⟩ | ⟨_, _, hnone, _⟩
    · rw [h]
      exact ih _ _ (fun j hj => hall j (List.mem_cons_of_mem _ hj))
    · have := hall job (List.mem_cons_self _ _)
      rw [hnone] at this
      cases this

theorem firstRow_isSome_mono (rows rows' : List Job) (e : Str) (u : Nat)
    (hp : rows <+: rows') (h : (firstRow rows e u).isSome = true) :
    (firstRow rows' e u).isSome = true := by
  rw [firstRow_isSome_iff] at h ⊢
  obtain ⟨r, hr, hk⟩ := h
  exact ⟨r, hp.subset hr, hk⟩

/-- A record whose own lookup and insert do not fail has its pair in the table
afterwards: it was there already, or the record was inserted. -/
theorem saveLoop_present (faults : Faults) (userID : Nat) :
    ∀ (jobs : List Job) (i : Nat) (rows : List Job) (k : Nat) (hk : k < jobs.length),
      faults.lookupFails (i + k) = false → faults.insertFails (i + k) = false →
      (firstRow (saveLoop faults userID i jobs rows).1
        (jobs.get ⟨k, hk⟩).ExternalID userID).isSome = true := by
  intro jobs
  induction jobs with
  | nil => intro i rows k hk; exact absurd hk (Nat.not_lt_zero k)
  | cons j rest ih =>
    intro i rows k hk hl hins
    simp only [saveLoop]
    cases k with
    | zero =>
      simp only [List.get_eq_getElem, List.getElem_cons_zero]
      simp only [Nat.add_zero] at hl hins
      apply firstRow_isSome_mono _ _ _ _ (saveLoop_grows faults userID rest _ _)
      rcases saveOne_cases faults userID i j rows with ⟨h, hnot⟩ | ⟨h, _⟩
      · rw [h]
        by_contra hc
        apply hnot
        refine ⟨hl, ?_, hins⟩
        cases hf : firstRow rows j.ExternalID userID with
        | none => rfl
        | some r => rw [hf] at hc; exact absurd rfl hc
      · rw [h, firstRow_isSome_iff]
        exact ⟨storedForm rows j userID, by simp, rfl, rfl⟩
    | succ k =>
      have hk' : k < rest.length := by simpa using hk
      have e1 : i + (k + 1) = i + 1 + k := by omega
      rw [e1] at hl hins
      exact ih (i + 1) _ k hk' hl hins

/-- Every row of the table after the loop was there before, or is the stored form of a
record of the batch whose pair was not in the table before. -/
theorem saveLoop_new_rows (faults : Faults) (userID : Nat) :
    ∀ (jobs : List Job) (i : Nat) (rows : List Job) (r : Job),
      r ∈ (saveLoop faults userID i jobs rows).1 →
      r ∈ rows ∨ ∃ job, job ∈ jobs ∧ r = { job with UserID := userID, ID := r.ID } ∧
        firstRow rows job.ExternalID userID = none := by
  intro jobs
  induction jobs with
  | nil => intro i rows r h; exact Or.inl h
  | cons j rest ih =>
    intro i rows r hr
    simp only [saveLoop] at hr
    rcases saveOne_cases faults userID i j rows with ⟨h, _⟩ | ⟨h, _, hnone, _⟩
    · rw [h] at hr
      rcases ih _ _ r hr with h1 | ⟨job, hjob, h2, h3⟩
      · exact Or.inl h1
      · exact Or.inr ⟨job, List.mem_cons_of_mem _ hjob, h2, h3⟩
    · rw [h] at hr
      rcases ih _ _ r hr with h1 | ⟨job, hjob, h2, h3⟩
      · rcases List.mem_append.mp h1 with h1 | h1
        · exact Or.inl h1
        · simp only [List.mem_singleton] at h1
          subst h1
          exact Or.inr ⟨j, List.mem_cons_self _ _, rfl, hnone⟩
      · refine Or.inr ⟨job, List.mem_cons_of_mem _ hjob, h2, ?_⟩
        rw [firstRow_eq_none_iff] at h3 ⊢
        exact fun r' hr' => h3 r' (List.mem_append_left _ hr')

/-- The records of the batch after the call: each keeps its fields, except that `UserID`
is the given user and that `ID` may have been assigned by the table. -/
theorem saveLoop_jobs (faults : Faults) (userID : Nat) :
    ∀ (jobs : List Job) (i : Nat) (rows : List Job),
      List.Forall₂
        (fun before after =>
          after = { before with UserID := userID, ID := after.ID } ∧
          (after.ID = before.ID ∨
            (before.ID = 0 ∧ after ∈ (saveLoop faults userID i jobs rows).1 ∧ after ∉ rows)))
        jobs (saveLoop faults userID i jobs rows).2 := by
  intro jobs
  induction jobs with
  | nil => intro i rows; exact List.Forall₂.nil
  | cons job rest ih =>
    intro i rows
    simp only [saveLoop]
    have hpre := saveLoop_grows faults userID rest (i + 1) (saveOne faults userID i job rows).1
    have htail := ih (i + 1) (saveOne faults userID i job rows).1
    rcases saveOne_cases faults userID i job rows with ⟨h, _⟩ | ⟨h, _, hnone, _⟩
    · rw [h] at hpre htail ⊢
      refine List.Forall₂.cons ⟨rfl, Or.inl rfl⟩ ?_
      exact htail
    · rw [h] at hpre htail ⊢
      refine List.Forall₂.cons ⟨rfl, ?_⟩ ?_
      · by_cases hid : job.ID = 0
        · refine Or.inr ⟨hid, hpre.subset (by simp), ?_⟩
          intro hmem
          exact (firstRow_eq_none_iff rows job.ExternalID userID).mp hnone _ hmem ⟨rfl, rfl⟩
        · exact Or.inl (by simp [storedForm, createdRow, hid])
      · refine List.Forall₂.imp ?_ htail
        rintro before after ⟨h1, h2⟩
        refine ⟨h1, ?_⟩
        rcases h2 with h2 | ⟨h2, h3, h4⟩
        · exact Or.inl h2
        · exact Or.inr ⟨h2, h3, fun hm => h4 (List.mem_append_left _ hm)⟩

theorem forall₂_mem_right {R : Job → Job → Prop} :
    ∀ {l₁ l₂ : List Job}, List.Forall₂ R l₁ l₂ → ∀ b, b ∈ l₂ → ∃ a, a ∈ l₁ ∧ R a b := by
  intro l₁ l₂ h
  induction h with
  | nil => intro b hb; cases hb
  | cons hab _ ih =>
    intro b hb
    rcases List.mem_cons.mp hb with rfl | hb
    · exact ⟨_, List.mem_cons_self _ _, hab⟩
    · obtain ⟨a, ha, hR⟩ := ih b hb
      exact ⟨a, List.mem_cons_of_mem _ ha, hR⟩

theorem saveLoop_noFaults_present (userID : Nat) (jobs : List Job) (rows : List Job)
    (job : Job) (hjob : job ∈ jobs) :
    (firstRow (saveLoop noFaults userID 0 jobs rows).1 job.ExternalID userID).isSome = true := by
  obtain ⟨k, hk, rfl⟩ := List.getElem_of_mem hjob
  exact saveLoop_present noFaults userID jobs 0 rows k hk rfl rfl

/-- C14. Dedup idempotence of `SaveJobs`: with a store whose lookups and inserts do not
fail, a second run with the same batch and the same user inserts nothing, so the stored
jobs after the second run are those after the first run.  This holds for the batch as it
was scraped and for the batch as the first run left it. -/
theorem SaveJobs_idempotent (rows jobs : List Job) (userID : Nat) :
    (SaveJobs noFaults (SaveJobs noFaults rows jobs userID).store jobs userID).store
      = (SaveJobs noFaults rows jobs userID).store ∧
    (SaveJobs noFaults (SaveJobs noFaults rows jobs userID).store
        (SaveJobs noFaults rows jobs userID).jobs userID).store
      = (SaveJobs noFaults rows jobs userID).store ∧
    ((SaveJobs noFaults (SaveJobs noFaults rows jobs userID).store jobs userID).store).length
      = ((SaveJobs noFaults rows jobs userID).store).length := by
  have h1 : (SaveJobs noFaults (SaveJobs noFaults rows jobs userID).store jobs userID).store
      = (SaveJobs noFaults rows jobs userID).store :=
    saveLoop_all_present noFaults userID jobs 0 _
      (fun job hjob => saveLoop_noFaults_present userID jobs rows job hjob)
  refine ⟨h1, ?_, by rw [h1]⟩
  apply saveLoop_all_present noFaults userID _ 0 _
  intro job' hjob'
  obtain ⟨job, hjob, hrel, _⟩ :=
    forall₂_mem_right (saveLoop_jobs noFaults userID jobs 0 rows) job' hjob'
  have hE : job'.ExternalID = job.ExternalID := by rw [hrel]
  rw [hE]
  exact saveLoop_noFaults_present userID jobs rows job hjob

/-- C15. `SaveJobs` preserves per-user uniqueness of ExternalID: if no two stored jobs
share the pair (ExternalID, UserID), then after `SaveJobs` of any batch for any user, with
or without database errors, still no two stored jobs share that pair. -/
theorem SaveJobs_preserves_uniqueness (faults : Faults) (rows jobs : List Job) (userID : Nat)
    (h : (rows.map Job.key).Nodup) :
    ((SaveJobs faults rows jobs userID).store.map Job.key).Nodup :=
  saveLoop_nodup faults userID jobs 0 rows h

/-- Uniqueness is kept for a batch that carries the same ExternalID twice, saved into a
store that already holds another job: only one of the two records is stored. -/
theorem SaveJobs_preserves_uniqueness_witness :
    ([storedSample].map Job.key).Nodup ∧
    ((SaveJobs noFaults [storedSample] [otherJob, otherJob] 1).store.map Job.key).Nodup ∧
    (SaveJobs noFaults [storedSample] [otherJob, otherJob] 1).store.length = 2 :=
  ⟨by decide,
    SaveJobs_preserves_uniqueness noFaults [storedSample] [otherJob, otherJob] 1 (by decide),
    by decide⟩

/-- C16. A failure on one record never aborts the batch: `SaveJobs` returns a nil error,
and a record whose own lookup reports "not found" (in the store as the records before it
left it) and whose own insert succeeds is stored, whatever happened to the records before
it. -/
theorem SaveJobs_failure_does_not_abort (faults : Faults) (rows jobs : List Job)
    (userID i : Nat) (job : Job) (hjob : jobs[i]? = some job)
    (hlookup : lookup faults i (SaveJobs faults rows (jobs.take i) userID).store
      job.ExternalID userID = LookupResult.notFound)
    (hinsert : faults.insertFails i = false) :
    (SaveJobs faults rows jobs userID).err = none ∧
    storedForm (SaveJobs faults rows (jobs.take i) userID).store job userID
      ∈ (SaveJobs faults rows jobs userID).store := by
  refine ⟨rfl, ?_⟩
  obtain ⟨hi, hget⟩ := List.getElem?_eq_some.mp hjob
  have hsplit : jobs = jobs.take i ++ (job :: jobs.drop (i + 1)) := by
    rw [← hget, ← List.drop_eq_getElem_cons hi, List.take_append_drop]
  have hlen : (jobs.take i).length = i := by
    rw [List.length_take]; omega
  have hfail : faults.lookupFails i = false ∧
      firstRow (saveLoop faults userID 0 (jobs.take i) rows).1 job.ExternalID userID = none := by
    unfold lookup SaveJobs at hlookup
    simp only at hlookup
    cases h1 : faults.lookupFails i
    · refine ⟨rfl, ?_⟩
      cases h2 : firstRow (saveLoop faults userID 0 (jobs.take i) rows).1
          job.ExternalID userID with
      | none => rfl
      | some r =>
        rw [h1, h2] at hlookup
        simp at hlookup
    · rw [h1] at hlookup
      simp at hlookup
  have hwhole : (saveLoop faults userID 0 jobs rows).1
      = (saveLoop faults userID 0 (jobs.take i ++ (job :: jobs.drop (i + 1))) rows).1 := by
    rw [← hsplit]
  show _ ∈ (saveLoop faults userID 0 jobs rows).1
  rw [hwhole, saveLoop_append, hlen, Nat.zero_add]
  simp only [saveLoop]
  apply (saveLoop_grows faults userID _ _ _).subset
  rcases saveOne_cases faults userID i job
      (saveLoop faults userID 0 (jobs.take i) rows).1 with ⟨_, hnot⟩ | ⟨h, _⟩
  · exact absurd ⟨hfail.1, hfail.2, hinsert⟩ hnot
  · rw [h]
    simp [SaveJobs]

/-- With `someFaults`, the lookup of the first record and the insert of the second record
fail; the third record is stored all the same. -/
theorem SaveJobs_failure_does_not_abort_witness :
    [sampleJob, otherJob, thirdJob][2]? = some thirdJob ∧
    lookup someFaults 2 (SaveJobs someFaults [] ([sampleJob, otherJob, thirdJob].take 2) 1).store
      thirdJob.ExternalID 1 = LookupResult.notFound ∧
    someFaults.insertFails 2 = false ∧
    (SaveJobs someFaults [] [sampleJob, otherJob, thirdJob] 1).err = none ∧
    storedForm (SaveJobs someFaults [] ([sampleJob, otherJob, thirdJob].take 2) 1).store
        thirdJob 1
      ∈ (SaveJobs someFaults [] [sampleJob, otherJob, thirdJob] 1).store :=
  ⟨by decide, by decide, by decide,
    SaveJobs_failure_does_not_abort someFaults [] [sampleJob, otherJob, thirdJob] 1 2 thirdJob
      (by decide) (by decide) (by decide)⟩

/-- C17. `SaveJobs` only inserts: the store before the call is the beginning of the store
after it, so every stored job is still there, at its place, with all its fields unchanged,
whatever the batch holds and whatever fails. -/
theorem SaveJobs_only_inserts (faults : Faults) (rows jobs : List Job) (userID : Nat) :
    rows <+: (SaveJobs faults rows jobs userID).store ∧
    ∀ r, r ∈ rows → r ∈ (SaveJobs faults rows jobs userID).store :=
  ⟨saveLoop_grows faults userID jobs 0 rows,
    fun _ hr => (saveLoop_grows faults userID jobs 0 rows).subset hr⟩

/-- C18, as stated, fails: `SaveJobs` assigns `job.UserID = userID` to every record before
it looks the record up.  Saving `sampleJob` (whose `UserID` is 0) for user 1 into a store
that already holds its pair skips the record, and yet the record has `UserID` 1
afterwards. -/
theorem SaveJobs_sets_UserID_counterexample :
    ¬ (∀ (faults : Faults) (rows jobs : List Job) (userID : Nat),
        (SaveJobs faults rows jobs userID).jobs = jobs) := by
  intro h
  have := h noFaults [storedSample] [sampleJob] 1
  revert this
  decide

/-- C18, amended.  After `SaveJobs`, every record of the batch has the same ExternalID,
Source, URL, Title, Company, Location, Salary, JobType and Status as before; its `UserID`
is the given user, for skipped and inserted records alike; and its `ID` is unchanged,
unless the record had `ID` 0 and was inserted, in which case it is the key of the new
row. -/
theorem SaveJobs_records_after (faults : Faults) (rows jobs : List Job) (userID : Nat) :
    List.Forall₂
      (fun before after =>
        after = { before with UserID := userID, ID := after.ID } ∧
        (after.ID = before.ID ∨
          (before.ID = 0 ∧ after ∈ (SaveJobs faults rows jobs userID).store ∧ after ∉ rows)))
      jobs (SaveJobs faults rows jobs userID).jobs :=
  saveLoop_jobs faults userID jobs 0 rows

/-- A record whose lookup does not fail and finds no row with its pair in the table its
predecessors left, and whose insert does not fail, is stored. -/
theorem saveLoop_stored_at (faults : Faults) (rows jobs : List Job) (userID i : Nat)
    (job : Job) (hjob : jobs[i]? = some job) (hl : faults.lookupFails i = false)
    (hnone : firstRow (saveLoop faults userID 0 (jobs.take i) rows).1 job.ExternalID userID
      = none)
    (hins : faults.insertFails i = false) :
    storedForm (saveLoop faults userID 0 (jobs.take i) rows).1 job userID
      ∈ (saveLoop faults userID 0 jobs rows).1 := by
  obtain ⟨hi, hget⟩ := List.getElem?_eq_some.mp hjob
  have hsplit : jobs = jobs.take i ++ (job :: jobs.drop (i + 1)) := by
    rw [← hget, ← List.drop_eq_getElem_cons hi, List.take_append_drop]
  have hlen : (jobs.take i).length = i := by
    rw [List.length_take]; omega
  have hwhole : (saveLoop faults userID 0 jobs rows).1
      = (saveLoop faults userID 0 (jobs.take i ++ (job :: jobs.drop (i + 1))) rows).1 := by
    rw [← hsplit]
  rw [hwhole, saveLoop_append, hlen, Nat.zero_add]
  simp only [saveLoop]
  apply (saveLoop_grows faults userID _ _ _).subset
  rcases saveOne_cases faults userID i job
      (saveLoop faults userID 0 (jobs.take i) rows).1 with ⟨_, hnot⟩ | ⟨h, _⟩
  · exact absurd ⟨hl, hnone, hins⟩ hnot
  · rw [h]
    simp

/-- C19, as stated, fails.  The store holds `seek-80001234` for user 1 only, and the batch
holds two records with that ExternalID, saved for user 2 without any database error: the
second record is not inserted, because the first one has just been stored under the same
pair.  A record is not inserted either when its lookup fails, although no insert fails:
with `lookupFaults` the store stays as it was. -/
theorem SaveJobs_second_record_counterexample :
    ¬ (∀ (faults : Faults) (rows jobs : List Job) (e : Str) (u1 u2 i : Nat) (job : Job),
        (∃ r, r ∈ rows ∧ r.ExternalID = e ∧ r.UserID = u1) →
        (∀ r, r ∈ rows → r.ExternalID = e → r.UserID = u1) →
        u2 ≠ u1 → jobs[i]? = some job → job.ExternalID = e →
        faults.insertFails i = false →
        ∃ r, r ∈ (SaveJobs faults rows jobs u2).store ∧ r ∉ rows ∧
          r = { job with UserID := u2, ID := r.ID }) ∧
    (SaveJobs noFaults [storedSample] [sampleJob, sampleJobDup] 2).store.map
        (fun r => (r.Title, r.UserID))
      = [("Platform Engineer (old title)".toList, 1), ("Platform Engineer".toList, 2)] ∧
    (SaveJobs lookupFaults [storedSample] [sampleJob] 2).store = [storedSample] := by
  refine ⟨?_, by decide, by decide⟩
  intro h
  have := h noFaults [storedSample] [sampleJob, sampleJobDup] "seek-80001234".toList 1 2 1
    sampleJobDup ⟨storedSample, by decide, by decide, by decide⟩ (by decide) (by decide)
    (by decide) (by decide) rfl
  revert this
  decide

/-- C19, amended.  The dedup key of `SaveJobs` is the pair (ExternalID, UserID): when the
store holds a job with ExternalID `e` for user `u1` only, and a batch is saved for another
user `u2`, the first record of the batch with ExternalID `e` is inserted, provided neither
its lookup nor its insert fails: its lookup reports "not found", and its stored form is a
new row of the store.  The same batch saved for `u1` inserts nothing with ExternalID
`e`. -/
theorem SaveJobs_key_is_pair (faults faults' : Faults) (rows jobs : List Job) (e : Str)
    (u1 u2 i : Nat) (job : Job)
    (hheld : ∃ r, r ∈ rows ∧ r.ExternalID = e ∧ r.UserID = u1)
    (honly : ∀ r, r ∈ rows → r.ExternalID = e → r.UserID = u1)
    (hne : u2 ≠ u1) (hjob : jobs[i]? = some job) (he : job.ExternalID = e)
    (hfirst : ∀ j job', j < i → jobs[j]? = some job' → job'.ExternalID ≠ e)
    (hl : faults.lookupFails i = false) (hins : faults.insertFails i = false) :
    (lookup faults i (SaveJobs faults rows (jobs.take i) u2).store job.ExternalID u2
        = LookupResult.notFound ∧
      storedForm (SaveJobs faults rows (jobs.take i) u2).store job u2
        ∈ (SaveJobs faults rows jobs u2).store ∧
      storedForm (SaveJobs faults rows (jobs.take i) u2).store job u2 ∉ rows) ∧
    (∀ r, r ∈ (SaveJobs faults' rows jobs u1).store → r.ExternalID = e → r ∈ rows) := by
  have hnone : firstRow (saveLoop faults u2 0 (jobs.take i) rows).1 job.ExternalID u2
      = none := by
    rw [firstRow_eq_none_iff]
    rintro r hr ⟨hrE, hrU⟩
    rcases saveLoop_new_rows faults u2 (jobs.take i) 0 rows r hr with hmem | ⟨job', hjob', hform, _⟩
    · exact hne (hrU.symm.trans (honly r hmem (hrE.trans he)))
    · obtain ⟨j, hj, hjget⟩ := List.getElem_of_mem hjob'
      have hji : j < i := by
        rw [List.length_take] at hj; omega
      have hjlen : j < jobs.length := by
        rw [List.length_take] at hj; omega
      have hjobs : jobs[j]? = some job' := by
        rw [List.getElem?_eq_getElem hjlen]
        rw [List.getElem_take] at hjget
        rw [hjget]
      apply hfirst j job' hji hjobs
      have : job'.ExternalID = r.ExternalID := by rw [hform]
      rw [this, hrE, he]
  refine ⟨⟨?_, saveLoop_stored_at faults rows jobs u2 i job hjob hl hnone hins, ?_⟩, ?_⟩
  · show lookup faults i (saveLoop faults u2 0 (jobs.take i) rows).1 job.ExternalID u2 = _
    simp only [lookup, hl, hnone, Bool.false_eq_true, if_false]
  · intro hmem
    have hU := honly _ hmem (by rw [← he]; rfl)
    exact hne hU
  · intro r hr hrE
    rcases saveLoop_new_rows faults' u1 jobs 0 rows r hr with hmem | ⟨job', _, hform, hnone'⟩
    · exact hmem
    · exfalso
      obtain ⟨r0, hr0, hr0E, hr0U⟩ := hheld
      have hE : job'.ExternalID = e := by
        rw [← hrE, hform]
      rw [hE] at hnone'
      exact (firstRow_eq_none_iff rows e u1).mp hnone' r0 hr0 ⟨hr0E, hr0U⟩

theorem otherJob_before_sampleJob (j : Nat) (job' : Job) (hj : j < 1)
    (h : [otherJob, sampleJob, sampleJobDup][j]? = some job') :
    job'.ExternalID ≠ "seek-80001234".toList := by
  have hj0 : j = 0 := by omega
  subst hj0
  have : job' = otherJob := by
    simpa using h.symm
  subst this
  decide

/-- The store holds `seek-80001234` for user 1 only; of the batch `otherJob`, `sampleJob`,
`sampleJobDup` saved for user 2, the record `sampleJob`, the first with that ExternalID, is
inserted, and saved for user 1 nothing with that ExternalID is inserted. -/
theorem SaveJobs_key_is_pair_witness :
    (∃ r, r ∈ [storedSample] ∧ r.ExternalID = "seek-80001234".toList ∧ r.UserID = 1) ∧
    (∀ r, r ∈ [storedSample] → r.ExternalID = "seek-80001234".toList → r.UserID = 1) ∧
    (2 : Nat) ≠ 1 ∧ [otherJob, sampleJob, sampleJobDup][1]? = some sampleJob ∧
    sampleJob.ExternalID = "seek-80001234".toList ∧
    (∀ j job', j < 1 → [otherJob, sampleJob, sampleJobDup][j]? = some job' →
      job'.ExternalID ≠ "seek-80001234".toList) ∧
    ((lookup noFaults 1
          (SaveJobs noFaults [storedSample] ([otherJob, sampleJob, sampleJobDup].take 1)
            2).store sampleJob.ExternalID 2 = LookupResult.notFound ∧
      storedForm
          (SaveJobs noFaults [storedSample] ([otherJob, sampleJob, sampleJobDup].take 1)
            2).store sampleJob 2
        ∈ (SaveJobs noFaults [storedSample] [otherJob, sampleJob, sampleJobDup] 2).store ∧
      storedForm
          (SaveJobs noFaults [storedSample] ([otherJob, sampleJob, sampleJobDup].take 1)
            2).store sampleJob 2 ∉ [storedSample]) ∧
      (∀ r, r ∈ (SaveJobs noFaults [storedSample] [otherJob, sampleJob, sampleJobDup] 1).store →
        r.ExternalID = "seek-80001234".toList → r ∈ [storedSample])) :=
  ⟨⟨storedSample, by decide, by decide, by decide⟩, by decide, by decide, by decide, by decide,
    otherJob_before_sampleJob,
    SaveJobs_key_is_pair noFaults noFaults [storedSample] [otherJob, sampleJob, sampleJobDup]
      "seek-80001234".toList 1 2 1 sampleJob ⟨storedSample, by decide, by decide, by decide⟩
      (by decide) (by decide) (by decide) (by decide) otherJob_before_sampleJob rfl rfl⟩

/-! ## `MergeSearchURLs` -/

theorem mem_keepFirst (x : Str) : ∀ l : List Str, x ∈ keepFirst l ↔ x ∈ l := by
  intro l
  induction l with
  | nil => simp [keepFirst]
  | cons a t ih =>
    simp only [keepFirst, List.mem_cons, List.mem_filter, ih, decide_eq_true_eq]
    constructor
    · rintro (h | ⟨h, _⟩)
      · exact Or.inl h
      · exact Or.inr h
    · intro h
      by_cases hx : x = a
      · exact Or.inl hx
      · rcases h with h | h
        · exact Or.inl h
        · exact Or.inr ⟨h, hx⟩

theorem keepFirst_nodup : ∀ l : List Str, (keepFirst l).Nodup := by
  intro l
  induction l with
  | nil => simp [keepFirst]
  | cons a t ih =>
    simp only [keepFirst, List.nodup_cons, List.mem_filter, decide_eq_true_eq, ne_eq,
      not_true_eq_false, and_false, not_false_eq_true, true_and]
    exact ih.filter _

theorem keepFirst_filter (p : Str → Bool) :
    ∀ l : List Str, (keepFirst l).filter p = keepFirst (l.filter p) := by
  intro l
  induction l with
  | nil => simp [keepFirst]
  | cons a t ih =>
    by_cases hp : p a = true
    · simp only [keepFirst, List.filter_cons_of_pos hp]
      rw [List.filter_filter, ← ih, List.filter_filter]
      congr 1
      apply List.filter_congr
      intro x _
      exact Bool.and_comm _ _
    · simp only [keepFirst, List.filter_cons_of_neg hp]
      rw [List.filter_filter, ← ih]
      apply List.filter_congr
      intro x _
      by_cases hpx : p x = true
      · have hxa : x ≠ a := fun h => hp (h ▸ hpx)
        simp [hpx, hxa]
      · simp [hpx]

theorem keepFirst_append (A : List Str) :
    ∀ B : List Str, keepFirst (A ++ B)
      = keepFirst A ++ keepFirst (B.filter (fun y => decide (y ∉ A))) := by
  induction A with
  | nil => intro B; simp [keepFirst]
  | cons a t ih =>
    intro B
    show a :: (keepFirst (t ++ B)).filter (fun y => decide (y ≠ a))
      = (a :: (keepFirst t).filter (fun y => decide (y ≠ a)))
          ++ keepFirst (B.filter (fun y => decide (y ∉ a :: t)))
    rw [ih, List.filter_append, keepFirst_filter (fun y => decide (y ≠ a)) (B.filter _),
      List.filter_filter, List.cons_append]
    congr 3
    apply List.filter_congr
    intro x _
    by_cases hxa : x = a <;> by_cases hxt : x ∈ t <;> simp [hxa, hxt]

/-- Each loop of `MergeSearchURLs` appends, in order and once each, the non-empty URLs that
are not yet in `merged`; `urlMap` stays the membership test of `merged`. -/
theorem foldl_mergeStep :
    ∀ (l : List Str) (v : MergeVars), (∀ k, v.urlMap k = true ↔ k ∈ v.merged) →
      (l.foldl mergeStep v).merged
        = v.merged ++ keepFirst ((l.filter (fun url => decide (url ≠ []))).filter
            (fun y => decide (y ∉ v.merged))) ∧
      (∀ k, (l.foldl mergeStep v).urlMap k = true ↔ k ∈ (l.foldl mergeStep v).merged) := by
  intro l
  induction l with
  | nil => intro v hv; simp [keepFirst, hv]
  | cons x t ih =>
    intro v hv
    rw [List.foldl_cons]
    by_cases hc : x ≠ [] ∧ v.urlMap x = false
    · have hstep : mergeStep v x
          = { urlMap := fun k => if k = x then true else v.urlMap k,
              merged := v.merged ++ [x] } := by
        simp only [mergeStep, hc, ne_eq, not_false_eq_true, and_self, if_true]
      have hxm : x ∉ v.merged := by
        intro h
        have := (hv x).mpr h
        rw [hc.2] at this
        cases this
      have hv' : ∀ k, (mergeStep v x).urlMap k = true ↔ k ∈ (mergeStep v x).merged := by
        intro k
        rw [hstep]
        by_cases hk : k = x
        · simp [hk]
        · simp [hk, hv k]
      obtain ⟨h1, h2⟩ := ih (mergeStep v x) hv'
      refine ⟨?_, h2⟩
      rw [h1, hstep]
      have hx1 : decide (x ≠ []) = true := by simpa using hc.1
      have hx2 : decide (x ∉ v.merged) = true := by simpa using hxm
      have hfx : ((x :: t).filter (fun url => decide (url ≠ []))).filter
            (fun y => decide (y ∉ v.merged))
          = x :: (t.filter (fun url => decide (url ≠ []))).filter
              (fun y => decide (y ∉ v.merged)) := by
        simp only [List.filter_cons, hx1, hx2, if_true]
      rw [hfx]
      show (v.merged ++ [x]) ++ keepFirst
            ((t.filter (fun url => decide (url ≠ []))).filter
              (fun y => decide (y ∉ v.merged ++ [x])))
          = v.merged ++ (x :: (keepFirst ((t.filter (fun url => decide (url ≠ []))).filter
              (fun y => decide (y ∉ v.merged)))).filter (fun y => decide (y ≠ x)))
      rw [keepFirst_filter (fun y => decide (y ≠ x))]
      simp only [List.filter_filter, List.append_assoc, List.singleton_append]
      congr 3
      apply List.filter_congr
      intro y _
      by_cases hyx : y = x <;> by_cases hym : y ∈ v.merged <;> by_cases hy0 : y = [] <;>
        simp [hyx, hym, hy0]
    · have hstep : mergeStep v x = v := by
        simp only [mergeStep, hc, if_false]
      rw [hstep]
      obtain ⟨h1, h2⟩ := ih v hv
      refine ⟨?_, h2⟩
      rw [h1]
      by_cases hx1 : x = []
      · have hx1' : decide (x ≠ []) = false := by simpa using hx1
        simp only [List.filter_cons, hx1', Bool.false_eq_true, if_false]
      · have hx1' : decide (x ≠ []) = true := by simpa using hx1
        have hxm : x ∈ v.merged := by
          apply (hv x).mp
          by_contra hne
          exact hc ⟨hx1, by simpa using hne⟩
        have hx2 : decide (x ∉ v.merged) = false := by simpa using hxm
        simp only [List.filter_cons, hx1', hx2, Bool.false_eq_true, if_true, if_false]

theorem MergeSearchURLs_eq (dynamicURLs staticURLs : List Str) :
    MergeSearchURLs dynamicURLs staticURLs
      = keepFirst (staticURLs.filter (fun url => decide (url ≠ [])))
          ++ keepFirst ((dynamicURLs.filter (fun url => decide (url ≠ []))).filter
              (fun y => decide (y ∉ staticURLs.filter (fun url => decide (url ≠ []))))) := by
  have h0 : ∀ k, (fun _ : Str => false) k = true ↔ k ∈ ([] : List Str) := by
    intro k; simp
  obtain ⟨hs, hinv⟩ := foldl_mergeStep staticURLs { urlMap := fun _ => false, merged := [] } h0
  obtain ⟨hd, _⟩ := foldl_mergeStep dynamicURLs _ hinv
  have hs' : (staticURLs.foldl mergeStep { urlMap := fun _ => false, merged := [] }).merged
      = keepFirst (staticURLs.filter (fun url => decide (url ≠ []))) := by
    rw [hs]
    simp
  show (dynamicURLs.foldl mergeStep
    (staticURLs.foldl mergeStep { urlMap := fun _ => false, merged := [] })).merged = _
  rw [hd, hs']
  congr 2
  apply List.filter_congr
  intro y _
  simp only [mem_keepFirst]

/-- C20. `MergeSearchURLs` equals its reference definition: the result is the static list
followed by the dynamic list, with every empty string removed and only the first
occurrence of each URL kept.  Hence it has no duplicates and no empty string, it contains
exactly the non-empty URLs of the two inputs, and it lists the static URLs first, followed
by the URLs that occur only in the dynamic list. -/
theorem MergeSearchURLs_spec (dynamicURLs staticURLs : List Str) :
    MergeSearchURLs dynamicURLs staticURLs = specMergeSearchURLs dynamicURLs staticURLs ∧
    (MergeSearchURLs dynamicURLs staticURLs).Nodup ∧
    [] ∉ MergeSearchURLs dynamicURLs staticURLs ∧
    (∀ url, url ∈ MergeSearchURLs dynamicURLs staticURLs
      ↔ url ≠ [] ∧ (url ∈ staticURLs ∨ url ∈ dynamicURLs)) ∧
    MergeSearchURLs dynamicURLs staticURLs
      = keepFirst (staticURLs.filter (fun url => decide (url ≠ [])))
          ++ keepFirst ((dynamicURLs.filter (fun url => decide (url ≠ []))).filter
              (fun y => decide (y ∉ staticURLs))) := by
  have hspec : MergeSearchURLs dynamicURLs staticURLs
      = specMergeSearchURLs dynamicURLs staticURLs := by
    rw [MergeSearchURLs_eq, specMergeSearchURLs, List.filter_append, keepFirst_append]
  have hmem : ∀ url, url ∈ MergeSearchURLs dynamicURLs staticURLs
      ↔ url ≠ [] ∧ (url ∈ staticURLs ∨ url ∈ dynamicURLs) := by
    intro url
    rw [hspec, specMergeSearchURLs, mem_keepFirst, List.mem_filter, List.mem_append]
    simp only [decide_eq_true_eq]
    exact and_comm
  refine ⟨hspec, ?_, ?_, hmem, ?_⟩
  · rw [hspec]
    exact keepFirst_nodup _
  · intro h
    exact ((hmem []).mp h).1 rfl
  · rw [MergeSearchURLs_eq]
    congr 2
    rw [List.filter_filter, List.filter_filter]
    apply List.filter_congr
    intro y _
    by_cases hy : y = [] <;> simp [hy, List.mem_filter]

/-! ## First non-empty match wins -/

theorem foldl_firstText_fixed :
    ∀ (els : List HTMLElement) (field : Str), field ≠ [] →
      els.foldl (fun field el => if field = [] then TrimSpace el.Text else field) field
        = field := by
  intro els
  induction els with
  | nil => intro field _; rfl
  | cons a t ih =>
    intro field h
    rw [List.foldl_cons, if_neg h]
    exact ih field h

theorem firstText_eq_find (els : List HTMLElement) :
    firstText els
      = (match els.find? hasText with
         | some el => TrimSpace el.Text
         | none => []) := by
  unfold firstText
  induction els with
  | nil => rfl
  | cons a t ih =>
    rw [List.foldl_cons]
    simp only [if_true]
    by_cases ha : hasText a = true
    · have hne : TrimSpace a.Text ≠ [] := by simpa [hasText] using ha
      rw [List.find?_cons_of_pos _ ha, foldl_firstText_fixed t _ hne]
    · have he : TrimSpace a.Text = [] := by simpa [hasText] using ha
      rw [List.find?_cons_of_neg _ ha, he]
      exact ih

/-- C22. First non-empty match wins for a text field read with the pattern
`if field == "" { field = TrimSpace(text) }`: the value is the trimmed text of the first
matched element, in document order, whose trimmed text is non-empty, and the empty string
when there is no such element; the elements after that first match do not change the
value.  The SEEK title, the LinkedIn title, company and location (both strategies) and the
Indeed company, location and salary (both strategies) are read this way. -/
theorem firstText_first_match (env : Env) :
    (∀ els : List HTMLElement, firstText els
      = (match els.find? hasText with
         | some el => TrimSpace el.Text
         | none => [])) ∧
    (∀ (before after : List HTMLElement) (el : HTMLElement),
      (∀ x, x ∈ before → TrimSpace x.Text = []) → TrimSpace el.Text ≠ [] →
      firstText (before ++ el :: after) = TrimSpace el.Text) ∧
    (∀ els : List HTMLElement, (∀ x, x ∈ els → TrimSpace x.Text = []) → firstText els = []) ∧
    (∀ (e : SeekCard) (job : Job), seekCard env e = some job →
      job.Title = firstText e.titleLinks) ∧
    (∀ (e : LinkedInCard) (job : Job), linkedInCard env e = some job →
      job.Title = firstText e.titles ∧ job.Company = firstText e.subtitles ∧
      job.Location = firstText e.locations) ∧
    (∀ (c : LinkedInSearchCard) (job : Job), linkedInSearchCard env c = some job →
      job.Title = firstText c.h3s ∧ job.Company = firstText c.h4s ∧
      job.Location = firstText c.locations) ∧
    (∀ (e : IndeedCard) (job : Job), indeedCard env e = some job →
      job.Company = firstText e.companies ∧ job.Location = firstText e.locations ∧
      job.Salary = firstText e.salaries) ∧
    (∀ (e : IndeedOutline) (job : Job), indeedOutline env e = some job →
      job.Company = firstText e.companies ∧ job.Location = firstText e.locations ∧
      job.Salary = firstText e.salaries) := by
  refine ⟨firstText_eq_find, ?_, ?_, ?_, ?_, ?_, ?_, ?_⟩
  · intro before after el hbefore hel
    have hfind : (before ++ el :: after).find? hasText = some el := by
      induction before with
      | nil =>
        exact List.find?_cons_of_pos _ (by simpa [hasText] using hel)
      | cons a t ih =>
        have ha : ¬ hasText a = true := by
          simpa [hasText] using hbefore a (List.mem_cons_self _ _)
        rw [List.cons_append, List.find?_cons_of_neg _ ha]
        exact ih (fun x hx => hbefore x (List.mem_cons_of_mem _ hx))
    rw [firstText_eq_find, hfind]
  · intro els hall
    have hfind : els.find? hasText = none := by
      rw [List.find?_eq_none]
      intro x hx
      simpa [hasText] using hall x hx
    rw [firstText_eq_find, hfind]
  · intro e job h
    obtain ⟨_, rfl⟩ := (seekCard_eq_some_iff env e job).mp h
    rfl
  · intro e job h
    obtain ⟨_, rfl⟩ := (linkedInJob_eq_some_iff env _ _ _ _ job).mp h
    exact ⟨rfl, rfl, rfl⟩
  · intro c job h
    obtain ⟨_, rfl⟩ := (linkedInJob_eq_some_iff env _ _ _ _ job).mp h
    exact ⟨rfl, rfl, rfl⟩
  · intro e job h
    obtain ⟨_, rfl⟩ := (indeedCard_eq_some_iff env e job).mp h
    exact ⟨rfl, rfl, rfl⟩
  · intro e job h
    obtain ⟨_, rfl⟩ := (indeedOutline_eq_some_iff env e job).mp h
    exact ⟨rfl, rfl, rfl⟩

/-! ## `DetectJobType`: seams and redundant keywords -/

/-- C24, as stated, fails: `DetectJobType` joins its inputs with spaces.  The title `per`
with the salary text `hour` is classified `contract` (the joined text holds `per hour`),
while the plain concatenation `perhour` is `unknown`. -/
theorem DetectJobType_concatenation_counterexample :
    ¬ (∀ (table : Char → Char) (title salary url : Str),
        DetectJobType table title salary url
          = DetectJobType table (title ++ salary ++ url) [] []) := by
  intro h
  have := h id "per".toList "hour".toList []
  revert this
  decide

theorem keyword_infix_append_spaces (text kw : Str)
    (hkw : kw ∈ contractKeywords ++ permanentKeywords) :
    kw <:+: text ++ "  ".toList ↔ kw <:+: text := by
  constructor
  · intro h
    have h1 : ∀ kw, kw ∈ contractKeywords ++ permanentKeywords →
        ¬ kw <:+: "  ".toList := by decide
    have h2 : ∀ kw, kw ∈ contractKeywords ++ permanentKeywords →
        ∀ k, k < kw.length → ¬ kw.drop k <+: "  ".toList := by decide
    rcases infix_append_split _ _ _ h with h | h | ⟨k, _, hk, _, hpre⟩
    · exact h
    · exact absurd h (h1 kw hkw)
    · exact absurd hpre (h2 kw hkw k hk)
  · rintro ⟨a, b, hab⟩
    exact ⟨a, b ++ "  ".toList, by rw [← hab]; simp only [List.append_assoc]⟩

/-- C24, amended.  The result of `DetectJobType` depends only on the text made of title,
a space, the salary text, a space and the URL:
`DetectJobType(title, salary, url)` equals
`DetectJobType(title + " " + salary + " " + url, "", "")`. -/
theorem DetectJobType_joined_text (table : Char → Char) (title salary url : Str) :
    DetectJobType table title salary url
      = DetectJobType table (title ++ " ".toList ++ salary ++ " ".toList ++ url) [] [] := by
  have htext : combinedText table (title ++ " ".toList ++ salary ++ " ".toList ++ url) [] []
      = combinedText table title salary url ++ "  ".toList := by
    simp only [combinedText, ToLower, List.map_append, List.append_nil, List.append_assoc]
    rfl
  have hc : ∀ text : Str,
      contractKeywords.any (fun keyword => Contains (text ++ "  ".toList) keyword)
        = contractKeywords.any (fun keyword => Contains text keyword) := by
    intro text
    rw [Bool.eq_iff_iff, any_Contains_iff, any_Contains_iff]
    constructor
    · rintro ⟨kw, hkw, h⟩
      exact ⟨kw, hkw, (keyword_infix_append_spaces text kw (List.mem_append_left _ hkw)).mp h⟩
    · rintro ⟨kw, hkw, h⟩
      exact ⟨kw, hkw, (keyword_infix_append_spaces text kw (List.mem_append_left _ hkw)).mpr h⟩
  have hp : ∀ text : Str,
      permanentKeywords.any (fun keyword => Contains (text ++ "  ".toList) keyword)
        = permanentKeywords.any (fun keyword => Contains text keyword) := by
    intro text
    rw [Bool.eq_iff_iff, any_Contains_iff, any_Contains_iff]
    constructor
    · rintro ⟨kw, hkw, h⟩
      exact ⟨kw, hkw, (keyword_infix_append_spaces text kw (List.mem_append_right _ hkw)).mp h⟩
    · rintro ⟨kw, hkw, h⟩
      exact ⟨kw, hkw, (keyword_infix_append_spaces text kw (List.mem_append_right _ hkw)).mpr h⟩
  simp only [DetectJobType, htext, hc, hp]

/-- C27. The SEEK ID and the query string: `extractJobID` of
`https://www.seek.com.au/job/80001234` is `seek-80001234`, but with the query string
`ref=search` appended the ID is `seek-80001234?ref=search`, so the two URLs of one posting
get different IDs; the LinkedIn branch removes the query string from the segment. -/
theorem extractJobID_seek_keeps_query :
    extractJobID "https://www.seek.com.au/job/80001234".toList = "seek-80001234".toList ∧
    extractJobID ("https://www.seek.com.au/job/80001234".toList ++ "?".toList
        ++ "ref=search".toList) = "seek-80001234?ref=search".toList ∧
    extractJobID "https://www.seek.com.au/job/80001234".toList
      ≠ extractJobID ("https://www.seek.com.au/job/80001234".toList ++ "?".toList
          ++ "ref=search".toList) ∧
    extractJobID "https://www.linkedin.com/jobs/view/3900000111".toList
      = extractJobID ("https://www.linkedin.com/jobs/view/3900000111".toList ++ "?".toList
          ++ "ref=search".toList) := by
  decide

theorem reduced_contract_any (text : Str) :
    contractKeywords.any (fun keyword => Contains text keyword)
      = reducedContractKeywords.any (fun keyword => Contains text keyword) := by
  rw [Bool.eq_iff_iff, any_Contains_iff, any_Contains_iff]
  constructor
  · rintro ⟨kw, hkw, h⟩
    by_cases hr : kw ∈ reducedContractKeywords
    · exact ⟨kw, hr, h⟩
    · have hcases : kw = "contractor".toList ∨ kw = "temporary".toList := by
        simp only [contractKeywords, reducedContractKeywords, List.mem_cons, List.mem_singleton,
          List.not_mem_nil, or_false] at hkw hr
        tauto
      rcases hcases with rfl | rfl
      · exact ⟨"contract".toList, by decide,
          List.IsInfix.trans (by decide : "contract".toList <:+: "contractor".toList) h⟩
      · exact ⟨"temp".toList, by decide,
          List.IsInfix.trans (by decide : "temp".toList <:+: "temporary".toList) h⟩
  · rintro ⟨kw, hkw, h⟩
    have hsub : ∀ kw, kw ∈ reducedContractKeywords → kw ∈ contractKeywords := by decide
    exact ⟨kw, hsub kw hkw, h⟩

theorem reduced_permanent_any (text : Str) :
    permanentKeywords.any (fun keyword => Contains text keyword)
      = reducedPermanentKeywords.any (fun keyword => Contains text keyword) := by
  rw [Bool.eq_iff_iff, any_Contains_iff, any_Contains_iff]
  constructor
  · rintro ⟨kw, hkw, h⟩
    by_cases hr : kw ∈ reducedPermanentKeywords
    · exact ⟨kw, hr, h⟩
    · have hcases : kw = "permanent".toList := by
        simp only [permanentKeywords, reducedPermanentKeywords, List.mem_cons,
          List.mem_singleton, List.not_mem_nil, or_false] at hkw hr
        tauto
      subst hcases
      exact ⟨"perm".toList, by decide,
        List.IsInfix.trans (by decide : "perm".toList <:+: "permanent".toList) h⟩
  · rintro ⟨kw, hkw, h⟩
    have hsub : ∀ kw, kw ∈ reducedPermanentKeywords → kw ∈ permanentKeywords := by decide
    exact ⟨kw, hsub kw hkw, h⟩

/-- C29. Three keywords of `DetectJobType` are redundant: the classifier without
`contractor` and `temporary` in the contract list and without `permanent` in the permanent
list returns the same result for every title, salary text and URL, since `contract`,
`temp` and `perm` are contained in the deleted keywords. -/
theorem DetectJobType_redundant_keywords (table : Char → Char) (title salary url : Str) :
    DetectJobType table title salary url = DetectJobTypeReduced table title salary url ∧
    "contract".toList <:+: "contractor".toList ∧ "temp".toList <:+: "temporary".toList ∧
    "perm".toList <:+: "permanent".toList := by
  refine ⟨?_, by decide, by decide, by decide⟩
  simp only [DetectJobType, DetectJobTypeReduced, reduced_contract_any, reduced_permanent_any]

/-! ## `GenerateSearchURLs` -/

theorem roleLoop_length (location : Str) :
    ∀ (roles urls : List Str),
      (roleLoop location roles urls).length
        = if urls.length ≥ 10 then urls.length else min (urls.length + roles.length) 10 := by
  intro roles
  induction roles with
  | nil =>
    intro urls
    simp only [roleLoop, List.length_nil, Nat.add_zero]
    split <;> omega
  | cons role rest ih =>
    intro urls
    by_cases h : urls.length ≥ 10
    · simp only [roleLoop, h, if_true]
    · simp only [roleLoop, h, if_false, ih, List.length_append, List.length_cons,
        List.length_nil]
      split <;> omega

theorem foldl_append_length (location : Str) :
    ∀ (terms urls : List Str),
      (terms.foldl (fun urls keyword => urls ++ [searchURL keyword location]) urls).length
        = urls.length + terms.length := by
  intro terms
  induction terms with
  | nil => intro urls; rfl
  | cons t rest ih =>
    intro urls
    rw [List.foldl_cons, ih]
    simp only [List.length_append, List.length_cons, List.length_nil]
    omega

/-- The number of URLs `GenerateSearchURLs` returns: one per search keyword, and roles
are added only as long as fewer than ten URLs are there. -/
theorem GenerateSearchURLs_length (keywords : KeywordExtraction) (location : Str) :
    (GenerateSearchURLs keywords location).length
      = if keywords.SearchKeywords.length ≥ 10 then keywords.SearchKeywords.length
        else min (keywords.SearchKeywords.length + keywords.Roles.length) 10 := by
  simp only [GenerateSearchURLs, roleLoop_length, foldl_append_length, List.length_nil,
    Nat.zero_add]

/-- C26. The limit of `GenerateSearchURLs`, where the function departs from it: only the
loop over the roles checks `len(urls) >= 10`; the loop over the search keywords adds one
URL per keyword without a limit.  With eleven search keywords the result has eleven
URLs. -/
theorem GenerateSearchURLs_exceeds_limit :
    elevenKeywords.SearchKeywords.length = 11 ∧
    (GenerateSearchURLs elevenKeywords "melbourne".toList).length = 11 ∧
    ¬ (GenerateSearchURLs elevenKeywords "melbourne".toList).length ≤ 10 := by
  decide

/-! ## Title, URL and job key of an Indeed record -/

theorem foldl_indeedTitleStep_url (env : Env) :
    ∀ (links : List HTMLElement) (v : TitleVars) (l : HTMLElement), v.title = [] →
      links.find? hasText = some l → l.Attr "href".toList ≠ [] →
      (links.foldl (indeedTitleStep env) v).jobURL = env.AbsoluteURL (l.Attr "href".toList) := by
  intro links
  induction links with
  | nil => intro v l _ h; simp at h
  | cons a t ih =>
    intro v l hv hfind hhref
    rw [List.foldl_cons]
    by_cases ha : hasText a = true
    · rw [List.find?_cons_of_pos _ ha] at hfind
      cases hfind
      have hne : TrimSpace a.Text ≠ [] := by simpa [hasText] using ha
      have hstep : (indeedTitleStep env v a).title = TrimSpace a.Text := by
        simp [indeedTitleStep, hv]
      have hurl : (indeedTitleStep env v a).jobURL = env.AbsoluteURL (a.Attr "href".toList) := by
        simp only [indeedTitleStep, hv, if_true, hhref, ne_eq, not_false_eq_true]
      rw [foldl_indeedTitleStep_fixed env t _ (by rw [hstep]; exact hne)]
      exact hurl
    · rw [List.find?_cons_of_neg _ ha] at hfind
      have he : TrimSpace a.Text = [] := by simpa [hasText] using ha
      have hstep : (indeedTitleStep env v a).title = [] := by
        simp [indeedTitleStep, hv, he]
      exact ih _ l hstep hfind hhref

theorem foldl_indeedFallbackStep_url (env : Env) :
    ∀ (links : List HTMLElement) (v : TitleVars) (l : HTMLElement), v.title = [] →
      links.find? hasText = some l → l.Attr "href".toList ≠ [] →
      (links.foldl (indeedFallbackStep env) v).jobURL
        = env.AbsoluteURL (l.Attr "href".toList) := by
  intro links
  induction links with
  | nil => intro v l _ h; simp at h
  | cons a t ih =>
    intro v l hv hfind hhref
    rw [List.foldl_cons]
    by_cases ha : hasText a = true
    · rw [List.find?_cons_of_pos _ ha] at hfind
      cases hfind
      have hne : TrimSpace a.Text ≠ [] := by simpa [hasText] using ha
      have hstep : (indeedFallbackStep env v a).title = TrimSpace a.Text := by
        simp [indeedFallbackStep, hv]
      have hurl : (indeedFallbackStep env v a).jobURL
          = env.AbsoluteURL (a.Attr "href".toList) := by
        simp only [indeedFallbackStep, hv, if_true, hhref, ne_eq, not_false_eq_true]
      rw [foldl_indeedFallbackStep_fixed env t _ (by rw [hstep]; exact hne)]
      exact hurl
    · rw [List.find?_cons_of_neg _ ha] at hfind
      have he : TrimSpace a.Text = [] := by simpa [hasText] using ha
      have hstep : (indeedFallbackStep env v a).title = [] := by
        simp [indeedFallbackStep, hv, he]
      exact ih _ l hstep hfind hhref

/-- C28. Title, URL and job key of an Indeed record, where they do not come from one
link: in `cardWithStaleURL` a link without text and with the `href` `/cmp/acme` precedes
the title link, which has no `href`.  The title loop takes the URL of the first link, goes
on because the title is still empty, and keeps that URL when the title link has no `href`:
the record has the title and the key of the title link and the URL of the link before
it. -/
theorem indeedCard_stale_url :
    indeedTitleLink cardWithStaleURL = some titleLinkWithoutHref ∧
    titleLinkWithoutHref.Attr "href".toList = [] ∧
    indeedEnv.AbsoluteURL (companyLogoLink.Attr "href".toList)
      = "https://au.indeed.com/cmp/acme".toList ∧
    indeedCard indeedEnv cardWithStaleURL
      = some { Source := "indeed".toList,
               URL := "https://au.indeed.com/cmp/acme".toList,
               Title := "Senior Go Developer".toList,
               ExternalID := "indeed-9z8y7x".toList,
               JobType := "unknown".toList,
               Status := "discovered".toList } := by
  decide

/-- For a card of the first strategy of `ScrapeIndeed`, if a record is emitted then its
title is the trimmed text of the title link, its job key is the `data-jk` of that link (or
its `id`, when `data-jk` is empty and the link is one of `h2.jobTitle a, a.jcs-JobTitle`),
and, when that link has a non-empty `href`, its URL is the absolute form of that `href`. -/
theorem indeedCard_one_link (env : Env) (e : IndeedCard) (l : HTMLElement) (job : Job)
    (hl : indeedTitleLink e = some l) (hjob : indeedCard env e = some job) :
    job.Title = TrimSpace l.Text ∧
    (indeedTitleVars env e).jobKey
      = (if e.titleLinks.find? hasText = some l ∧ l.Attr "data-jk".toList = [] then
           l.Attr "id".toList
         else l.Attr "data-jk".toList) ∧
    (l.Attr "href".toList ≠ [] → job.URL = env.AbsoluteURL (l.Attr "href".toList)) := by
  obtain ⟨h1, h2, h3⟩ := indeedTitleVars_of_titleLink env e l hl
  obtain ⟨_, rfl⟩ := (indeedCard_eq_some_iff env e job).mp hjob
  refine ⟨h1, h3, ?_⟩
  intro hhref
  show (indeedTitleVars env e).jobURL = _
  unfold indeedTitleLink at hl
  cases hfind : e.titleLinks.find? hasText with
  | some l1 =>
    rw [hfind] at hl
    cases hl
    obtain ⟨_, h2', _⟩ := foldl_indeedTitleStep_some env e.titleLinks {} l rfl hfind
    have hv : indeedTitleVars env e = e.titleLinks.foldl (indeedTitleStep env) {} := by
      simp only [indeedTitleVars, h2', if_false]
    rw [hv]
    exact foldl_indeedTitleStep_url env e.titleLinks {} l rfl hfind hhref
  | none =>
    rw [hfind] at hl
    have h0 := foldl_indeedTitleStep_none env e.titleLinks {} rfl hfind
    have hv : indeedTitleVars env e
        = e.fallbackLinks.foldl (indeedFallbackStep env)
            (e.titleLinks.foldl (indeedTitleStep env) {}) := by
      simp only [indeedTitleVars, h0, if_true]
    rw [hv]
    exact foldl_indeedFallbackStep_url env e.fallbackLinks _ l h0 hl hhref

/-- At `cardWithDataJk`, title, key and URL come from `linkWithDataJk`. -/
theorem indeedCard_one_link_witness :
    indeedTitleLink cardWithDataJk = some linkWithDataJk ∧
    (∃ job, indeedCard indeedEnv cardWithDataJk = some job ∧
      job.Title = TrimSpace linkWithDataJk.Text ∧
      (indeedTitleVars indeedEnv cardWithDataJk).jobKey
        = (if cardWithDataJk.titleLinks.find? hasText = some linkWithDataJk ∧
              linkWithDataJk.Attr "data-jk".toList = [] then
             linkWithDataJk.Attr "id".toList
           else linkWithDataJk.Attr "data-jk".toList) ∧
      (linkWithDataJk.Attr "href".toList ≠ [] →
        job.URL = indeedEnv.AbsoluteURL (linkWithDataJk.Attr "href".toList))) :=
  ⟨by decide,
    ⟨{ Source := "indeed".toList,
       URL := "https://au.indeed.com/rc/clk?jk=1a2b3c&from=serp".toList,
       Title := "Senior Go Developer".toList,
       ExternalID := "indeed-9z8y7x".toList,
       JobType := "unknown".toList,
       Status := "discovered".toList }, by decide,
      indeedCard_one_link indeedEnv cardWithDataJk linkWithDataJk _ (by decide) (by decide)⟩⟩

/-! ## The two Indeed strategies and the persistence gate -/

/-- C23. Duplicates of the two Indeed strategies, where they do not collapse: the first
strategy builds the ID from the `data-jk` of the title link, the second strategy selects
`a[data-jk]` but builds the ID from the URL only.  For the posting of `sponsoredLink`,
matched by both strategies, `ScrapeIndeed` returns two records with the IDs
`indeed-9z8y7x` and `indeed-https://au.indeed.com/pagead/clk?mo=r&ad=-6NYlbfkN0`, and
`SaveJobs` stores both. -/
theorem ScrapeIndeed_duplicates_not_collapsed :
    (ScrapeIndeed indeedEnv { cards := [sponsoredCard], outlines := [sponsoredOutline] }).map
        (fun job => (job.Title, job.URL, job.ExternalID))
      = [("Senior Go Developer".toList,
          "https://au.indeed.com/pagead/clk?mo=r&ad=-6NYlbfkN0".toList,
          "indeed-9z8y7x".toList),
         ("Senior Go Developer".toList,
          "https://au.indeed.com/pagead/clk?mo=r&ad=-6NYlbfkN0".toList,
          "indeed-https://au.indeed.com/pagead/clk?mo=r&ad=-6NYlbfkN0".toList)] ∧
    (SaveJobs noFaults []
      (ScrapeIndeed indeedEnv { cards := [sponsoredCard], outlines := [sponsoredOutline] })
      1).store.length = 2 := by
  decide

/-! ## `runScan` -/

theorem scanURLs_total (run : BoardRun) (userID : Nat) :
    ∀ (urls : List Str) (i : Nat) (st : Nat × List Job),
      (scanURLs run userID i urls st).1
        = st.1 + ((urls.enumFrom i).map (fun p => foundBy (run.scrape p.1 p.2))).sum := by
  intro urls
  induction urls with
  | nil => intro i st; simp [scanURLs]
  | cons url rest ih =>
    intro i st
    simp only [scanURLs, List.enumFrom_cons, List.map_cons, List.sum_cons]
    cases h : run.scrape i url with
    | error e =>
      rw [ih]
      simp only [foundBy, Nat.zero_add]
    | ok jobs =>
      rw [ih]
      simp only [foundBy, Nat.add_assoc]

theorem scanBoard_total (enabled : Bool) (urls : List Str) (run : BoardRun) (userID : Nat)
    (st : Nat × List Job) :
    (scanBoard enabled urls run userID st).1 = st.1 + foundOnBoard enabled urls run := by
  unfold scanBoard foundOnBoard
  cases enabled with
  | false => simp
  | true =>
    simp only [if_true]
    by_cases h : urls.length = 0
    · have : urls = [] := List.length_eq_zero.mp h
      subst this
      simp
    · simp only [h, if_false, scanURLs_total, List.enum]

/-- C25. The scan total counts found jobs and survives errors: the total reported by
`runScan` is the sum, over the enabled job boards and over all their search URLs, of the
lengths of the record lists returned by the scrape calls that succeeded, a failed call
counting 0, whatever `SaveJobs` stored or skipped; in particular the total is 0 when every
scrape call fails. -/
theorem runScan_total (boards : JobBoards) (dynamicURLs : List Str)
    (seekRun linkedinRun indeedRun : BoardRun) (userID : Nat) (store : List Job) :
    (runScan boards dynamicURLs seekRun linkedinRun indeedRun userID store).1
      = foundOnBoard boards.seek.Enabled
          (MergeSearchURLs dynamicURLs boards.seek.SearchURLs) seekRun
        + foundOnBoard boards.linkedin.Enabled boards.linkedin.SearchURLs linkedinRun
        + foundOnBoard boards.indeed.Enabled boards.indeed.SearchURLs indeedRun ∧
    ((∀ i url, foundBy (seekRun.scrape i url) = 0) →
      (∀ i url, foundBy (linkedinRun.scrape i url) = 0) →
      (∀ i url, foundBy (indeedRun.scrape i url) = 0) →
      (runScan boards dynamicURLs seekRun linkedinRun indeedRun userID store).1 = 0) := by
  have htotal : (runScan boards dynamicURLs seekRun linkedinRun indeedRun userID store).1
      = foundOnBoard boards.seek.Enabled
          (MergeSearchURLs dynamicURLs boards.seek.SearchURLs) seekRun
        + foundOnBoard boards.linkedin.Enabled boards.linkedin.SearchURLs linkedinRun
        + foundOnBoard boards.indeed.Enabled boards.indeed.SearchURLs indeedRun := by
    simp only [runScan, scanBoard_total, Nat.zero_add]
  refine ⟨htotal, ?_⟩
  intro h1 h2 h3
  have hzero : ∀ (enabled : Bool) (urls : List Str) (run : BoardRun),
      (∀ i url, foundBy (run.scrape i url) = 0) → foundOnBoard enabled urls run = 0 := by
    intro enabled urls run h
    unfold foundOnBoard
    cases enabled with
    | false => rfl
    | true =>
      simp only [if_true]
      apply List.sum_eq_zero
      intro x hx
      obtain ⟨p, _, rfl⟩ := List.mem_map.mp hx
      exact h p.1 p.2
  rw [htotal, hzero _ _ _ h1, hzero _ _ _ h2, hzero _ _ _ h3]

/-! ## `extractFileIDFromResponse` -/

/-- C30. `extractFileIDFromResponse` and the index `strings.Fields(parts[1])[0]`: for a
text block whose text ends with `file_`, or has only white space after `file_`, the split
has two parts, `strings.Fields(parts[1])` is empty and the index expression panics; for
a text that names a file the ID is returned. -/
theorem extractFileIDFromResponse_panics :
    Contains textEndingInFileMark.Text "file_".toList = true ∧
    Fields ((Split textEndingInFileMark.Text "file_".toList).getD 1 []) = [] ∧
    extractFileIDFromResponse [textEndingInFileMark] = FileIDResult.panic ∧
    extractFileIDFromResponse [textWithBlankAfterFileMark] = FileIDResult.panic ∧
    extractFileIDFromResponse [textWithFileID]
      = FileIDResult.fileID "file_011CNha8iCJcU1wXNR6q4V8w".toList := by
  decide

/-! ## `GetTopRepos` -/

/-- C21. `GetTopRepos`, where it departs from "ordered by stars": when `n` is at least the
number of repositories the function returns its argument as it is, without sorting.  For
the repositories with 1, 5 and 3 stars and `n = 3` the result is in the order 1, 5, 3;
with `n = 2` the result is sorted: 5, 3. -/
theorem GetTopRepos_unsorted_when_n_large :
    (GetTopRepos sampleRepos 3).map (fun l => l.map (fun r => r.Stars)) = some [1, 5, 3] ∧
    (GetTopRepos sampleRepos 5).map (fun l => l.map (fun r => r.Stars)) = some [1, 5, 3] ∧
    (GetTopRepos sampleRepos 2).map (fun l => l.map (fun r => r.Stars)) = some [5, 3] := by
  decide

/-- The inner loop over the positions `pre.length, ..., pre.length + m - 1` is one pass
over the part of the slice behind `pre`. -/
theorem foldl_bubbleStep (m : Nat) :
    ∀ (pre l : List Repo), m + 1 ≤ l.length →
      (List.range' pre.length m).foldl bubbleStep (pre ++ l) = pre ++ bubblePass m l := by
  induction m with
  | zero => intro pre l _; rfl
  | succ m ih =>
    intro pre l hl
    match l, hl with
    | a :: b :: t, hl =>
      have h0 : (pre ++ a :: b :: t)[pre.length]? = some a := by
        rw [List.getElem?_append_right (Nat.le_refl _), Nat.sub_self]
        rfl
      have h1 : (pre ++ a :: b :: t)[pre.length + 1]? = some b := by
        rw [List.getElem?_append_right (by omega)]
        simp
      have hlen : (List.range' pre.length (m + 1))
          = pre.length :: List.range' (pre.length + 1) m := rfl
      rw [hlen, List.foldl_cons]
      have hm : m + 1 ≤ (a :: t).length := by
        simp only [List.length_cons] at hl ⊢; omega
      have hm' : m + 1 ≤ (b :: t).length := by
        simp only [List.length_cons] at hl ⊢; omega
      by_cases hab : a.Stars < b.Stars
      · have hstep : bubbleStep (pre ++ a :: b :: t) pre.length = (pre ++ [b]) ++ a :: t := by
          simp only [bubbleStep, h0, h1, hab, if_true]
          rw [List.set_append_right _ _ (Nat.le_refl _), Nat.sub_self, List.set_cons_zero,
            List.set_append_right _ _ (by omega)]
          simp
        have hpl : pre.length + 1 = (pre ++ [b]).length := by simp
        rw [hstep, hpl, ih (pre ++ [b]) (a :: t) hm]
        simp [bubblePass, hab]
      · have hstep : bubbleStep (pre ++ a :: b :: t) pre.length = (pre ++ [a]) ++ b :: t := by
          simp only [bubbleStep, h0, h1, hab, if_false]
          simp
        have hpl : pre.length + 1 = (pre ++ [a]).length := by simp
        rw [hstep, hpl, ih (pre ++ [a]) (b :: t) hm']
        simp [bubblePass, hab]

theorem bubbleInner_eq (s : List Repo) (i : Nat) (h : i + 1 ≤ s.length) :
    bubbleInner s i = bubblePass (s.length - i - 1) s := by
  unfold bubbleInner
  rw [List.range_eq_range']
  have := foldl_bubbleStep (s.length - i - 1) [] s (by omega)
  simpa using this

/-- One pass moves a repository with the fewest stars of the front part to its end and
leaves the rest of the slice alone. -/
theorem bubblePass_spec (k : Nat) :
    ∀ (p r : List Repo), p.length = k + 1 →
      ∃ p' m, bubblePass k (p ++ r) = p' ++ m :: r ∧ (p' ++ [m]).Perm p ∧
        ∀ x, x ∈ p' → m.Stars ≤ x.Stars := by
  induction k with
  | zero =>
    intro p r hp
    match p, hp with
    | [a], _ => exact ⟨[], a, rfl, List.Perm.refl _, fun x hx => by cases hx⟩
  | succ k ih =>
    intro p r hp
    match p, hp with
    | a :: b :: t, hp =>
      have hlen : ∀ c : Repo, (c :: t).length = k + 1 := by
        intro c
        simp only [List.length_cons] at hp ⊢; omega
      by_cases hab : a.Stars < b.Stars
      · obtain ⟨p', m, h1, h2, h3⟩ := ih (a :: t) r (hlen a)
        refine ⟨b :: p', m, ?_, ?_, ?_⟩
        · show bubblePass (k + 1) (a :: b :: (t ++ r)) = _
          simp only [bubblePass, hab, if_true]
          rw [← List.cons_append, h1]
          rfl
        · exact ((List.Perm.cons b h2).trans (List.Perm.swap a b t))
        · intro x hx
          rcases List.mem_cons.mp hx with rfl | hx
          · have ha : a ∈ p' ++ [m] := h2.symm.subset (List.mem_cons_self _ _)
            rcases List.mem_append.mp ha with ha | ha
            · have := h3 a ha; omega
            · simp only [List.mem_singleton] at ha
              subst ha; omega
          · exact h3 x hx
      · obtain ⟨p', m, h1, h2, h3⟩ := ih (b :: t) r (hlen b)
        refine ⟨a :: p', m, ?_, ?_, ?_⟩
        · show bubblePass (k + 1) (a :: b :: (t ++ r)) = _
          simp only [bubblePass, hab, if_false]
          rw [← List.cons_append, h1]
          rfl
        · exact List.Perm.cons a h2
        · intro x hx
          rcases List.mem_cons.mp hx with rfl | hx
          · have hb : b ∈ p' ++ [m] := h2.symm.subset (List.mem_cons_self _ _)
            rcases List.mem_append.mp hb with hb | hb
            · have := h3 b hb; omega
            · simp only [List.mem_singleton] at hb
              subst hb; omega
          · exact h3 x hx

/-- After `k` rounds of the outer loop the last `k` places hold, by non-increasing stars,
repositories with no more stars than any repository before them. -/
theorem bubbleOuter_invariant (repos : List Repo) :
    ∀ k, k + 1 ≤ repos.length →
      ∃ f g, (List.range k).foldl bubbleInner repos = f ++ g ∧ g.length = k ∧
        (f ++ g).Perm repos ∧ g.Pairwise (fun a b => b.Stars ≤ a.Stars) ∧
        ∀ x, x ∈ f → ∀ y, y ∈ g → y.Stars ≤ x.Stars := by
  intro k
  induction k with
  | zero =>
    intro _
    exact ⟨repos, [], by simp, rfl, by simp, List.Pairwise.nil, fun _ _ y hy => by cases hy⟩
  | succ k ih =>
    intro hk
    obtain ⟨f, g, hfg, hg, hperm, hsorted, hle⟩ := ih (by omega)
    have hlen : (f ++ g).length = repos.length := hperm.length_eq
    have hflen : f.length = (repos.length - k - 1) + 1 := by
      simp only [List.length_append] at hlen; omega
    rw [List.range_succ, List.foldl_append, List.foldl_cons, List.foldl_nil, hfg,
      bubbleInner_eq (f ++ g) k (by omega), hlen]
    obtain ⟨p', m, h1, h2, h3⟩ := bubblePass_spec (repos.length - k - 1) f g hflen
    have hmf : m ∈ f := h2.subset (by simp)
    refine ⟨p', m :: g, h1, by simp only [List.length_cons, hg], ?_, ?_, ?_⟩
    · have : (p' ++ m :: g).Perm (f ++ g) := by
        have h4 : (p' ++ m :: g) = (p' ++ [m]) ++ g := by simp
        rw [h4]
        exact List.Perm.append_right g h2
      exact this.trans hperm
    · exact List.Pairwise.cons (fun y hy => hle m hmf y hy) hsorted
    · intro x hx y hy
      have hxf : x ∈ f := h2.subset (List.mem_append_left _ hx)
      rcases List.mem_cons.mp hy with rfl | hy
      · exact h3 x hx
      · exact hle x hxf y hy

/-- The bubble sort returns the repositories by non-increasing stars. -/
theorem bubbleSort_sorted (repos : List Repo) :
    (bubbleSort repos).Perm repos ∧
    (bubbleSort repos).Pairwise (fun a b => b.Stars ≤ a.Stars) := by
  unfold bubbleSort
  by_cases h0 : repos.length = 0
  · have : repos = [] := List.length_eq_zero.mp h0
    subst this
    exact ⟨List.Perm.refl _, List.Pairwise.nil⟩
  · obtain ⟨f, g, hfg, hg, hperm, hsorted, hle⟩ :=
      bubbleOuter_invariant repos (repos.length - 1) (by omega)
    rw [hfg]
    refine ⟨hperm, ?_⟩
    have hlen : (f ++ g).length = repos.length := hperm.length_eq
    have hf1 : f.length = 1 := by
      simp only [List.length_append] at hlen; omega
    match f, hf1 with
    | [a], _ =>
      exact List.Pairwise.cons (fun y hy => hle a (List.mem_cons_self _ _) y hy) hsorted

/-- For `0 ≤ n` smaller than the number of repositories, `GetTopRepos` returns `n`
repositories of the input, by non-increasing stars, none of them with fewer stars than a
repository that is left out. -/
theorem GetTopRepos_sorted_when_n_small (repos : List Repo) (n : Int) (h0 : 0 ≤ n)
    (hn : n < (repos.length : Int)) :
    ∃ top rest, GetTopRepos repos n = some top ∧ top.length = n.toNat ∧
      (top ++ rest).Perm repos ∧ top.Pairwise (fun a b => b.Stars ≤ a.Stars) ∧
      ∀ x, x ∈ top → ∀ y, y ∈ rest → y.Stars ≤ x.Stars := by
  obtain ⟨hperm, hsorted⟩ := bubbleSort_sorted repos
  refine ⟨(bubbleSort repos).take n.toNat, (bubbleSort repos).drop n.toNat, ?_, ?_, ?_, ?_, ?_⟩
  · have h1 : ¬ n ≥ (repos.length : Int) := by omega
    have h2 : ¬ n < 0 := by omega
    simp only [GetTopRepos, h1, h2, if_false]
  · rw [List.length_take, hperm.length_eq]
    omega
  · rw [List.take_append_drop]
    exact hperm
  · exact hsorted.sublist (List.take_sublist _ _)
  · intro x hx y hy
    have hsplit := hsorted
    rw [← List.take_append_drop n.toNat (bubbleSort repos), List.pairwise_append] at hsplit
    exact hsplit.2.2 x hx y hy

end Jobseeker
